import Mathlib

/-!
# rez: retry policies and their executor

A shallow embedding of the Go package `rez` (`policy.go`, `helpers.go`,
`retry_policy_hooks.go`, `execution.go`).

* Go `int` and `time.Duration` are 64-bit signed integers: they are embedded as
  `Int`, and the only arithmetic of the package, `retryCount++`, wraps with
  `wrapInt64`.
* A Go `error` is `nil` or an error value: `GoError ε := Option ε`.
* A Go function value is `nil` or a function: `Option` of a function type.  The
  caller's closures read and write the caller's variables, the world `σ`, which
  is passed through every call.
* A Go pointer is `nil` or an address: `Ptr := Option Nat`.  The objects the
  package allocates (`&retryPolicy{...}`, `toPtr(...)`) live in a memory `Mem`
  that only grows.
* `Execute` contains a `for` loop that need not end, so it takes fuel: one unit
  per evaluation of the loop condition.  A run that is cut off has the outcome
  `Outcome.exhausted` and the events up to there in its trace.
-/

namespace Rez

/-! ## Machine integers -/

/-- Largest Go `int` (64-bit). -/
def maxInt64 : Int := 2 ^ 63 - 1

/-- Smallest Go `int` (64-bit). -/
def minInt64 : Int := -(2 ^ 63)

/-- Two's complement wrap-around of a 64-bit signed integer. -/
def wrapInt64 (x : Int) : Int := (x + 2 ^ 63) % 2 ^ 64 - 2 ^ 63

/-- The values a Go `int` can hold. -/
def isInt64 (x : Int) : Prop := minInt64 ≤ x ∧ x ≤ maxInt64

instance (x : Int) : Decidable (isInt64 x) := by
  unfold isInt64; infer_instance

/-! ## Values of the Go types -/

/-- A Go `error`: `none` is `nil`. -/
abbrev GoError (ε : Type) := Option ε

/-- A Go pointer: `none` is `nil`, `some a` is the address `a`. -/
abbrev Ptr := Option Nat

/-- What reading through a pointer finds. -/
inductive Deref (α : Type) where
  /-- The pointer is `nil`. -/
  | nil
  /-- The pointer is an address the memory does not hold.  Go has no such
  pointers; the case is here because the memory is a list. -/
  | dangling
  /-- The pointer is the address of a cell that holds `v`. -/
  | cell (v : α)

/-- Follow a pointer into the cells of its type. -/
def deref {α : Type} (cells : List α) : Ptr → Deref α
  | none => .nil
  | some a =>
    match cells[a]? with
    | none => .dangling
    | some v => .cell v

/-- The body of a `func() (ReturnType, error)`. -/
abbrev Operation (σ ρ ε : Type) := σ → (ρ × GoError ε) × σ

/-- The body of a `func(retryCount int, err error) bool`. -/
abbrev ShouldRetryFn (σ ε : Type) := Int → GoError ε → σ → Bool × σ

/-- The body of a `func(retryCount int, err error)`. -/
abbrev FailureFn (σ ε : Type) := Int → GoError ε → σ → σ

/-- The body of a `func(retryCount int, err error) time.Duration`. -/
abbrev WaitFn (σ ε : Type) := Int → GoError ε → σ → Int × σ

/-- The struct `retryPolicy` of `policy.go`.  The first two fields are pointers
to function values, the third is a function value (`none` is the `nil`
function). -/
structure retryPolicy (σ ε : Type) where
  betweenFailures : Ptr
  waitDurationGenerator : Ptr
  shouldRetry : Option (ShouldRetryFn σ ε)

/-- The struct `Policy` of `policy.go`: a pointer to a `retryPolicy`. -/
structure Policy where
  retry : Ptr
  deriving DecidableEq, Repr

/-- The objects allocated by the package, by type.  An address is an index into
the list of its type. -/
structure Mem (σ ε : Type) where
  policies : List (retryPolicy σ ε)
  failureFns : List (Option (FailureFn σ ε))
  waitFns : List (Option (WaitFn σ ε))

/-- The memory before anything is allocated. -/
def Mem.empty {σ ε : Type} : Mem σ ε :=
  { policies := [], failureFns := [], waitFns := [] }

/-- The function `toPtr` of `helpers.go`: copy `o` into a fresh cell and return
its address. -/
def toPtr {α : Type} (cells : List α) (o : α) : Ptr × List α :=
  (some cells.length, cells ++ [o])

/-- The expression `&retryPolicy{...}`: a fresh `retryPolicy` object. -/
def Mem.newRetryPolicy {σ ε : Type} (m : Mem σ ε) (rp : retryPolicy σ ε) :
    Ptr × Mem σ ε :=
  (some m.policies.length, { m with policies := m.policies ++ [rp] })

/-- The call `toPtr(betweenFailures)`. -/
def Mem.toPtrFailureFn {σ ε : Type} (m : Mem σ ε) (o : Option (FailureFn σ ε)) :
    Ptr × Mem σ ε :=
  ((toPtr m.failureFns o).1, { m with failureFns := (toPtr m.failureFns o).2 })

/-- The call `toPtr(waitDurationCallback)`. -/
def Mem.toPtrWaitFn {σ ε : Type} (m : Mem σ ε) (o : Option (WaitFn σ ε)) :
    Ptr × Mem σ ε :=
  ((toPtr m.waitFns o).1, { m with waitFns := (toPtr m.waitFns o).2 })

/-! ## `policy.go` -/

/-- The function `NewPolicy`: the zero `Policy`. -/
def NewPolicy : Policy := { retry := none }

/-- The struct `executor` of `execution.go`. -/
structure executor where
  policy : Policy
  deriving DecidableEq, Repr

/-- The function `BuildExecutor`. -/
def BuildExecutor (policy : Policy) : executor := { policy := policy }

/-! ## `retry_policy_hooks.go`

Every method has the value receiver `p Policy`: it assigns to the field `retry`
of its own copy of the receiver and returns that copy. -/

/-- The closure `func(count int, err error) bool { return count <= retryCount }`. -/
def countPredicate {σ ε : Type} (retryCount : Int) : ShouldRetryFn σ ε :=
  fun count _ w => (decide (count ≤ retryCount), w)

/-- The closure `func(retryCount int, err error) time.Duration { return waitDuration }`. -/
def fixedWait {σ ε : Type} (waitDuration : Int) : WaitFn σ ε :=
  fun _ _ w => (waitDuration, w)

/-- The method `RetryXTimes`. -/
def Policy.RetryXTimes {σ ε : Type} (p : Policy) (retryCount : Int) (m : Mem σ ε) :
    Policy × Mem σ ε :=
  let a := m.newRetryPolicy
    { shouldRetry := some (countPredicate retryCount)
      betweenFailures := none
      waitDurationGenerator := none }
  ({ p with retry := a.1 }, a.2)

/-- The method `RetryXTimesWithFailureCallback`. -/
def Policy.RetryXTimesWithFailureCallback {σ ε : Type} (p : Policy) (retryCount : Int)
    (betweenFailures : Option (FailureFn σ ε)) (m : Mem σ ε) : Policy × Mem σ ε :=
  let b := m.toPtrFailureFn betweenFailures
  let a := b.2.newRetryPolicy
    { shouldRetry := some (countPredicate retryCount)
      betweenFailures := b.1
      waitDurationGenerator := none }
  ({ p with retry := a.1 }, a.2)

/-- The method `RetryOnCallback`. -/
def Policy.RetryOnCallback {σ ε : Type} (p : Policy)
    (errorCheckCallback : Option (ShouldRetryFn σ ε)) (m : Mem σ ε) : Policy × Mem σ ε :=
  let a := m.newRetryPolicy
    { shouldRetry := errorCheckCallback
      betweenFailures := none
      waitDurationGenerator := none }
  ({ p with retry := a.1 }, a.2)

/-- The method `RetryOnCallbackWithFailureCallback`. -/
def Policy.RetryOnCallbackWithFailureCallback {σ ε : Type} (p : Policy)
    (errorCheckCallback : Option (ShouldRetryFn σ ε))
    (betweenFailures : Option (FailureFn σ ε)) (m : Mem σ ε) : Policy × Mem σ ε :=
  let b := m.toPtrFailureFn betweenFailures
  let a := b.2.newRetryPolicy
    { shouldRetry := errorCheckCallback
      betweenFailures := b.1
      waitDurationGenerator := none }
  ({ p with retry := a.1 }, a.2)

/-- The method `WaitRetryXTimes`. -/
def Policy.WaitRetryXTimes {σ ε : Type} (p : Policy) (retryCount : Int)
    (waitDuration : Int) (m : Mem σ ε) : Policy × Mem σ ε :=
  let g := m.toPtrWaitFn (some (fixedWait waitDuration))
  let a := g.2.newRetryPolicy
    { shouldRetry := some (countPredicate retryCount)
      waitDurationGenerator := g.1
      betweenFailures := none }
  ({ p with retry := a.1 }, a.2)

/-- The method `WaitRetryXTimesWithFailureCallback`. -/
def Policy.WaitRetryXTimesWithFailureCallback {σ ε : Type} (p : Policy) (retryCount : Int)
    (waitDuration : Int) (betweenFailures : Option (FailureFn σ ε)) (m : Mem σ ε) :
    Policy × Mem σ ε :=
  let g := m.toPtrWaitFn (some (fixedWait waitDuration))
  let b := g.2.toPtrFailureFn betweenFailures
  let a := b.2.newRetryPolicy
    { shouldRetry := some (countPredicate retryCount)
      waitDurationGenerator := g.1
      betweenFailures := b.1 }
  ({ p with retry := a.1 }, a.2)

/-- The method `WaitRetryOnCallback`. -/
def Policy.WaitRetryOnCallback {σ ε : Type} (p : Policy) (waitDuration : Int)
    (errorCheckCallback : Option (ShouldRetryFn σ ε)) (m : Mem σ ε) : Policy × Mem σ ε :=
  let g := m.toPtrWaitFn (some (fixedWait waitDuration))
  let a := g.2.newRetryPolicy
    { shouldRetry := errorCheckCallback
      waitDurationGenerator := g.1
      betweenFailures := none }
  ({ p with retry := a.1 }, a.2)

/-- The method `WaitRetryOnCallbackWithFailureCallback`. -/
def Policy.WaitRetryOnCallbackWithFailureCallback {σ ε : Type} (p : Policy)
    (waitDuration : Int) (errorCheckCallback : Option (ShouldRetryFn σ ε))
    (betweenFailures : Option (FailureFn σ ε)) (m : Mem σ ε) : Policy × Mem σ ε :=
  let g := m.toPtrWaitFn (some (fixedWait waitDuration))
  let b := g.2.toPtrFailureFn betweenFailures
  let a := b.2.newRetryPolicy
    { shouldRetry := errorCheckCallback
      waitDurationGenerator := g.1
      betweenFailures := b.1 }
  ({ p with retry := a.1 }, a.2)

/-- The method `ComplexWaitRetryXTimes`. -/
def Policy.ComplexWaitRetryXTimes {σ ε : Type} (p : Policy) (retryCount : Int)
    (waitDurationCallback : Option (WaitFn σ ε)) (m : Mem σ ε) : Policy × Mem σ ε :=
  let g := m.toPtrWaitFn waitDurationCallback
  let a := g.2.newRetryPolicy
    { shouldRetry := some (countPredicate retryCount)
      waitDurationGenerator := g.1
      betweenFailures := none }
  ({ p with retry := a.1 }, a.2)

/-- The method `ComplexWaitRetryXTimesWithFailureCallback`. -/
def Policy.ComplexWaitRetryXTimesWithFailureCallback {σ ε : Type} (p : Policy)
    (retryCount : Int) (waitDurationCallback : Option (WaitFn σ ε))
    (betweenFailures : Option (FailureFn σ ε)) (m : Mem σ ε) : Policy × Mem σ ε :=
  let g := m.toPtrWaitFn waitDurationCallback
  let b := g.2.toPtrFailureFn betweenFailures
  let a := b.2.newRetryPolicy
    { shouldRetry := some (countPredicate retryCount)
      waitDurationGenerator := g.1
      betweenFailures := b.1 }
  ({ p with retry := a.1 }, a.2)

/-- The method `ComplexWaitRetryOnCallback`. -/
def Policy.ComplexWaitRetryOnCallback {σ ε : Type} (p : Policy)
    (waitDurationCallback : Option (WaitFn σ ε))
    (errorCheckCallback : Option (ShouldRetryFn σ ε)) (m : Mem σ ε) : Policy × Mem σ ε :=
  let g := m.toPtrWaitFn waitDurationCallback
  let a := g.2.newRetryPolicy
    { shouldRetry := errorCheckCallback
      waitDurationGenerator := g.1
      betweenFailures := none }
  ({ p with retry := a.1 }, a.2)

/-- The method `ComplexWaitRetryOnCallbackWithFailureCallback`. -/
def Policy.ComplexWaitRetryOnCallbackWithFailureCallback {σ ε : Type} (p : Policy)
    (waitDurationCallback : Option (WaitFn σ ε))
    (errorCheckCallback : Option (ShouldRetryFn σ ε))
    (betweenFailures : Option (FailureFn σ ε)) (m : Mem σ ε) : Policy × Mem σ ε :=
  let g := m.toPtrWaitFn waitDurationCallback
  let b := g.2.toPtrFailureFn betweenFailures
  let a := b.2.newRetryPolicy
    { shouldRetry := errorCheckCallback
      waitDurationGenerator := g.1
      betweenFailures := b.1 }
  ({ p with retry := a.1 }, a.2)

/-! ## `execution.go` -/

/-- What a run of `Execute` does that its caller can observe, in order. -/
inductive Event (ρ ε : Type) where
  /-- The operation `f` was invoked and returned `(r, err)`. -/
  | called (r : ρ) (err : GoError ε)
  /-- The loop condition `shouldRetry(retryCount, err)` was evaluated. -/
  | decided (retryCount : Int) (err : GoError ε) (answer : Bool)
  /-- The failure callback `betweenFailures` was invoked. -/
  | notified (retryCount : Int) (err : GoError ε)
  /-- The function `waitDurationGenerator` was invoked and returned `d`. -/
  | computedWait (retryCount : Int) (err : GoError ε) (d : Int)
  /-- The run slept: `time.Sleep(d)`. -/
  | slept (d : Int)
  deriving DecidableEq, Repr

/-- How a run of `Execute` ends. -/
inductive Outcome (ρ ε : Type) where
  /-- The statement `return r, err` was reached. -/
  | returned (r : ρ) (err : GoError ε)
  /-- A run-time panic: a `nil` function value was called. -/
  | panicked
  /-- An address that the memory does not hold was read.  Go has no such
  pointers; the case is here because `Mem` is a list. -/
  | dangling
  /-- The fuel ran out: the loop is still running. -/
  | exhausted
  deriving DecidableEq, Repr

/-- A run of `Execute`: its outcome, the world it leaves, the events in order. -/
structure Run (σ ρ ε : Type) where
  outcome : Outcome ρ ε
  world : σ
  trace : List (Event ρ ε)

/-- The run `x` after the events `evs`. -/
def Run.after {σ ρ ε : Type} (evs : List (Event ρ ε)) (x : Run σ ρ ε) : Run σ ρ ε :=
  { x with trace := evs ++ x.trace }

/-- Lines 22-25 of `execution.go`: the failure callback, when there is one.
The result is the world after it and its events, or the outcome that ends the
run. -/
def handleFailureCallback {σ ρ ε : Type} (m : Mem σ ε) (rp : retryPolicy σ ε)
    (retryCount : Int) (err : GoError ε) (w : σ) :
    Except (Outcome ρ ε) (σ × List (Event ρ ε)) :=
  match deref m.failureFns rp.betweenFailures with
  | .nil => .ok (w, [])
  | .dangling => .error .dangling
  | .cell none => .error .panicked
  | .cell (some betweenFailures) =>
    .ok (betweenFailures retryCount err w, [.notified retryCount err])

/-- Lines 27-30 of `execution.go`: the wait, when there is one. -/
def handleWait {σ ρ ε : Type} (m : Mem σ ε) (rp : retryPolicy σ ε)
    (retryCount : Int) (err : GoError ε) (w : σ) :
    Except (Outcome ρ ε) (σ × List (Event ρ ε)) :=
  match deref m.waitFns rp.waitDurationGenerator with
  | .nil => .ok (w, [])
  | .dangling => .error .dangling
  | .cell none => .error .panicked
  | .cell (some waitDurationGenerator) =>
    let d := waitDurationGenerator retryCount err w
    .ok (d.2, [.computedWait retryCount err d.1, .slept d.1])

/-- Lines 21-37 of `execution.go`: the loop
`for retryPolicy.shouldRetry(retryCount, err) { ... }`, entered with the
current `retryCount`, `r` and `err`. -/
def retryLoop {σ ρ ε : Type} (m : Mem σ ε) (rp : retryPolicy σ ε) (f : Operation σ ρ ε) :
    Nat → Int → ρ → GoError ε → σ → Run σ ρ ε
  | 0, _, _, _, w => { outcome := .exhausted, world := w, trace := [] }
  | fuel + 1, retryCount, r, err, w =>
    match rp.shouldRetry with
    | none => { outcome := .panicked, world := w, trace := [] }
    | some shouldRetry =>
      let c := shouldRetry retryCount err w
      if c.1 = false then
        { outcome := .returned r err, world := c.2,
          trace := [.decided retryCount err false] }
      else
        match handleFailureCallback m rp retryCount err c.2 with
        | .error o =>
          { outcome := o, world := c.2, trace := [.decided retryCount err true] }
        | .ok (w1, evs1) =>
          match handleWait m rp retryCount err w1 with
          | .error o =>
            { outcome := o, world := w1,
              trace := .decided retryCount err true :: evs1 }
          | .ok (w2, evs2) =>
            let res := f w2
            match res.1.2 with
            | none =>
              { outcome := .returned res.1.1 none, world := res.2,
                trace := .decided retryCount err true :: (evs1 ++ evs2 ++
                  [.called res.1.1 none]) }
            | some e =>
              (retryLoop m rp f fuel (wrapInt64 (retryCount + 1)) res.1.1 (some e)
                res.2).after
                (.decided retryCount err true :: (evs1 ++ evs2 ++
                  [.called res.1.1 (some e)]))

/-- The method `Execute` of `execution.go`, run from the world `w` with the
objects of `m`. -/
def executor.Execute {σ ρ ε : Type} (e : executor) (m : Mem σ ε) (f : Operation σ ρ ε)
    (fuel : Nat) (w : σ) : Run σ ρ ε :=
  let res := f w
  match res.1.2 with
  | none =>
    { outcome := .returned res.1.1 none, world := res.2,
      trace := [.called res.1.1 none] }
  | some er =>
    match deref m.policies e.policy.retry with
    | .nil =>
      { outcome := .returned res.1.1 (some er), world := res.2,
        trace := [.called res.1.1 (some er)] }
    | .dangling =>
      { outcome := .dangling, world := res.2, trace := [.called res.1.1 (some er)] }
    | .cell retryPolicy =>
      (retryLoop m retryPolicy f fuel 1 res.1.1 (some er) res.2).after
        [.called res.1.1 (some er)]

/-! ## Reading a trace -/

/-- The pairs the operation returned, in order of invocation. -/
def calls {ρ ε : Type} : List (Event ρ ε) → List (ρ × GoError ε)
  | [] => []
  | .called r err :: t => (r, err) :: calls t
  | _ :: t => calls t

/-- The arguments of the invocations of the failure callback, in order. -/
def notifications {ρ ε : Type} : List (Event ρ ε) → List (Int × GoError ε)
  | [] => []
  | .notified k err :: t => (k, err) :: notifications t
  | _ :: t => notifications t

/-- The evaluations of `shouldRetry`, in order. -/
def decisions {ρ ε : Type} : List (Event ρ ε) → List (Int × GoError ε × Bool)
  | [] => []
  | .decided k err b :: t => (k, err, b) :: decisions t
  | _ :: t => decisions t

/-- The invocations of the delay function, in order: arguments and result. -/
def waitComputations {ρ ε : Type} : List (Event ρ ε) → List (Int × GoError ε × Int)
  | [] => []
  | .computedWait k err d :: t => (k, err, d) :: waitComputations t
  | _ :: t => waitComputations t

/-- The durations slept, in order. -/
def sleeps {ρ ε : Type} : List (Event ρ ε) → List Int
  | [] => []
  | .slept d :: t => d :: sleeps t
  | _ :: t => sleeps t

/-- The world before the `k`-th further invocation of `f`, when nothing but
`f` changes the world. -/
def worldAfterCalls {σ ρ ε : Type} (f : Operation σ ρ ε) : Nat → σ → σ
  | 0, w => w
  | k + 1, w => worldAfterCalls f k (f w).2

/-! ## A test double

The operation of `Test_RetryXTimes_RetriesExpectedAmountOfTimes` and its
siblings: the world is the call counter, every invocation fails. -/

/-- An operation that counts its invocations and always fails with error
`"some error"` (here the unit value) and result `-1`. -/
def alwaysFails : Operation Nat Int Unit :=
  fun callCount => ((-1, some ()), callCount + 1)

/-- A failure callback that counts its invocations, as in
`Test_RetryXTimesWithFailureCallback_CallsFailureCallbackExpectedTimes`; the
world is the pair of the callback counter and the call counter. -/
def countingCallback : FailureFn (Nat × Nat) Unit :=
  fun _ _ w => (w.1 + 1, w.2)

/-- The call `BuildExecutor(policy).Execute(f)` of the tests, for a policy
configured in the memory `pm.2`. -/
def executeWith {σ ρ ε : Type} (pm : Policy × Mem σ ε) (f : Operation σ ρ ε)
    (fuel : Nat) (w : σ) : Run σ ρ ε :=
  (BuildExecutor pm.1).Execute pm.2 f fuel w

/-! ## The twelve configuration methods as one type -/

/-- A call of one of the twelve configuration methods of
`retry_policy_hooks.go`, with its arguments. -/
inductive ConfigCall (σ ε : Type) where
  | RetryXTimes (retryCount : Int)
  | RetryXTimesWithFailureCallback (retryCount : Int)
      (betweenFailures : Option (FailureFn σ ε))
  | RetryOnCallback (errorCheckCallback : Option (ShouldRetryFn σ ε))
  | RetryOnCallbackWithFailureCallback (errorCheckCallback : Option (ShouldRetryFn σ ε))
      (betweenFailures : Option (FailureFn σ ε))
  | WaitRetryXTimes (retryCount : Int) (waitDuration : Int)
  | WaitRetryXTimesWithFailureCallback (retryCount : Int) (waitDuration : Int)
      (betweenFailures : Option (FailureFn σ ε))
  | WaitRetryOnCallback (waitDuration : Int)
      (errorCheckCallback : Option (ShouldRetryFn σ ε))
  | WaitRetryOnCallbackWithFailureCallback (waitDuration : Int)
      (errorCheckCallback : Option (ShouldRetryFn σ ε))
      (betweenFailures : Option (FailureFn σ ε))
  | ComplexWaitRetryXTimes (retryCount : Int) (waitDurationCallback : Option (WaitFn σ ε))
  | ComplexWaitRetryXTimesWithFailureCallback (retryCount : Int)
      (waitDurationCallback : Option (WaitFn σ ε))
      (betweenFailures : Option (FailureFn σ ε))
  | ComplexWaitRetryOnCallback (waitDurationCallback : Option (WaitFn σ ε))
      (errorCheckCallback : Option (ShouldRetryFn σ ε))
  | ComplexWaitRetryOnCallbackWithFailureCallback
      (waitDurationCallback : Option (WaitFn σ ε))
      (errorCheckCallback : Option (ShouldRetryFn σ ε))
      (betweenFailures : Option (FailureFn σ ε))

/-- Make the call on the receiver `p`. -/
def ConfigCall.apply {σ ε : Type} (c : ConfigCall σ ε) (p : Policy) (m : Mem σ ε) :
    Policy × Mem σ ε :=
  match c with
  | .RetryXTimes n => p.RetryXTimes n m
  | .RetryXTimesWithFailureCallback n cb => p.RetryXTimesWithFailureCallback n cb m
  | .RetryOnCallback pred => p.RetryOnCallback pred m
  | .RetryOnCallbackWithFailureCallback pred cb =>
    p.RetryOnCallbackWithFailureCallback pred cb m
  | .WaitRetryXTimes n d => p.WaitRetryXTimes n d m
  | .WaitRetryXTimesWithFailureCallback n d cb =>
    p.WaitRetryXTimesWithFailureCallback n d cb m
  | .WaitRetryOnCallback d pred => p.WaitRetryOnCallback d pred m
  | .WaitRetryOnCallbackWithFailureCallback d pred cb =>
    p.WaitRetryOnCallbackWithFailureCallback d pred cb m
  | .ComplexWaitRetryXTimes n g => p.ComplexWaitRetryXTimes n g m
  | .ComplexWaitRetryXTimesWithFailureCallback n g cb =>
    p.ComplexWaitRetryXTimesWithFailureCallback n g cb m
  | .ComplexWaitRetryOnCallback g pred => p.ComplexWaitRetryOnCallback g pred m
  | .ComplexWaitRetryOnCallbackWithFailureCallback g pred cb =>
    p.ComplexWaitRetryOnCallbackWithFailureCallback g pred cb m

/-- The retry count of a call of one of the six `...RetryXTimes...` methods. -/
def ConfigCall.retryCount? {σ ε : Type} : ConfigCall σ ε → Option Int
  | .RetryXTimes n => some n
  | .RetryXTimesWithFailureCallback n _ => some n
  | .WaitRetryXTimes n _ => some n
  | .WaitRetryXTimesWithFailureCallback n _ _ => some n
  | .ComplexWaitRetryXTimes n _ => some n
  | .ComplexWaitRetryXTimesWithFailureCallback n _ _ => some n
  | _ => none

/-- Whether the method called takes a failure callback. -/
def ConfigCall.setsFailureCallback {σ ε : Type} : ConfigCall σ ε → Bool
  | .RetryXTimesWithFailureCallback _ _ => true
  | .RetryOnCallbackWithFailureCallback _ _ => true
  | .WaitRetryXTimesWithFailureCallback _ _ _ => true
  | .WaitRetryOnCallbackWithFailureCallback _ _ _ => true
  | .ComplexWaitRetryXTimesWithFailureCallback _ _ _ => true
  | .ComplexWaitRetryOnCallbackWithFailureCallback _ _ _ => true
  | _ => false

/-- Whether the method called takes a wait duration or a wait function. -/
def ConfigCall.setsWait {σ ε : Type} : ConfigCall σ ε → Bool
  | .RetryXTimes _ => false
  | .RetryXTimesWithFailureCallback _ _ => false
  | .RetryOnCallback _ => false
  | .RetryOnCallbackWithFailureCallback _ _ => false
  | _ => true

/-! ## What a policy denotes

A `Policy` is a pointer; the retry strategy it stands for is what the pointers
lead to in the memory. -/

/-- A `retryPolicy` with its two pointers followed. -/
structure Strategy (σ ε : Type) where
  shouldRetry : Option (ShouldRetryFn σ ε)
  betweenFailures : Deref (Option (FailureFn σ ε))
  waitDurationGenerator : Deref (Option (WaitFn σ ε))

/-- Follow the pointers of a `retryPolicy`. -/
def Mem.view {σ ε : Type} (m : Mem σ ε) (rp : retryPolicy σ ε) : Strategy σ ε :=
  { shouldRetry := rp.shouldRetry
    betweenFailures := deref m.failureFns rp.betweenFailures
    waitDurationGenerator := deref m.waitFns rp.waitDurationGenerator }

/-- The retry strategy of a policy: `Deref.nil` when it has none. -/
def Mem.strategy {σ ε : Type} (m : Mem σ ε) (p : Policy) : Deref (Strategy σ ε) :=
  match deref m.policies p.retry with
  | .nil => .nil
  | .dangling => .dangling
  | .cell rp => .cell (m.view rp)

/-- Every pointer reachable from the policy is `nil` or the address of a cell
of the memory, as is the case for every pointer of a Go program. -/
def Mem.wellFormed {σ ε : Type} (m : Mem σ ε) (p : Policy) : Prop :=
  match p.retry with
  | none => True
  | some a =>
    ∃ rp, m.policies[a]? = some rp ∧
      (∀ b, rp.betweenFailures = some b → b < m.failureFns.length) ∧
      (∀ g, rp.waitDurationGenerator = some g → g < m.waitFns.length)

/-- The memory `m'` holds every object of `m` at its address, and maybe more. -/
def Mem.extends {σ ε : Type} (m' m : Mem σ ε) : Prop :=
  m.policies <+: m'.policies ∧ m.failureFns <+: m'.failureFns ∧ m.waitFns <+: m'.waitFns

/-- The strategy that a configuration call installs: the struct literal of its
method, with the cells made by `toPtr` read back. -/
def ConfigCall.strategy {σ ε : Type} : ConfigCall σ ε → Strategy σ ε
  | .RetryXTimes n =>
    { shouldRetry := some (countPredicate n), betweenFailures := .nil,
      waitDurationGenerator := .nil }
  | .RetryXTimesWithFailureCallback n cb =>
    { shouldRetry := some (countPredicate n), betweenFailures := .cell cb,
      waitDurationGenerator := .nil }
  | .RetryOnCallback pred =>
    { shouldRetry := pred, betweenFailures := .nil, waitDurationGenerator := .nil }
  | .RetryOnCallbackWithFailureCallback pred cb =>
    { shouldRetry := pred, betweenFailures := .cell cb, waitDurationGenerator := .nil }
  | .WaitRetryXTimes n d =>
    { shouldRetry := some (countPredicate n), betweenFailures := .nil,
      waitDurationGenerator := .cell (some (fixedWait d)) }
  | .WaitRetryXTimesWithFailureCallback n d cb =>
    { shouldRetry := some (countPredicate n), betweenFailures := .cell cb,
      waitDurationGenerator := .cell (some (fixedWait d)) }
  | .WaitRetryOnCallback d pred =>
    { shouldRetry := pred, betweenFailures := .nil,
      waitDurationGenerator := .cell (some (fixedWait d)) }
  | .WaitRetryOnCallbackWithFailureCallback d pred cb =>
    { shouldRetry := pred, betweenFailures := .cell cb,
      waitDurationGenerator := .cell (some (fixedWait d)) }
  | .ComplexWaitRetryXTimes n g =>
    { shouldRetry := some (countPredicate n), betweenFailures := .nil,
      waitDurationGenerator := .cell g }
  | .ComplexWaitRetryXTimesWithFailureCallback n g cb =>
    { shouldRetry := some (countPredicate n), betweenFailures := .cell cb,
      waitDurationGenerator := .cell g }
  | .ComplexWaitRetryOnCallback g pred =>
    { shouldRetry := pred, betweenFailures := .nil, waitDurationGenerator := .cell g }
  | .ComplexWaitRetryOnCallbackWithFailureCallback g pred cb =>
    { shouldRetry := pred, betweenFailures := .cell cb, waitDurationGenerator := .cell g }

/-! ## More test doubles -/

/-- The operation of `Test_RetryXTimes_DoesNotRetryIfNoErrorIsThrown`: counts
its invocations and returns `2, nil`. -/
def succeedsWith2 : Operation Nat Int Unit :=
  fun callCount => ((2, none), callCount + 1)

/-- The operation of `Test_RetryXTimes_ReturnsExpectedOnNonErrorAfterError`:
the world is the flag `hasErrored`. -/
def failsOnce : Operation Bool Int Unit :=
  fun hasErrored => if hasErrored then ((42, none), true) else ((0, some ()), true)

/-- The operation of
`Test_RetryXTimesWithFailureCallback_CallsFailureCallbackExpectedTimes`,
beside the counter of `countingCallback`: the second component of the world
counts the invocations. -/
def alwaysFailsBeside : Operation (Nat × Nat) Int Unit :=
  fun w => ((0, some ()), (w.1, w.2 + 1))

/-- The predicate `func(retryCount int, err error) bool { return true }`. -/
def alwaysRetry {σ ε : Type} : ShouldRetryFn σ ε := fun _ _ w => (true, w)

/-- The predicate `func(retryCount int, err error) bool { return false }`. -/
def neverRetry {σ ε : Type} : ShouldRetryFn σ ε := fun _ _ w => (false, w)

/-- A callback that does nothing, as `retryDoNothing` in the tests. -/
def retryDoNothing {σ ε : Type} : FailureFn σ ε := fun _ _ w => w

/-! ## The words of the specification -/

/-- The stop condition of the specification, "stop after N retries (predicate:
attemptNumber ≤ N)", written as a predicate a caller could pass to
`RetryOnCallback`. -/
def specStopAfter {σ ε : Type} (N : Int) : ShouldRetryFn σ ε :=
  fun attemptNumber _ w => (decide (attemptNumber ≤ N), w)

/-! ## Hooks that are set

A hook of a strategy is either not set (the pointer is `nil`) or set to a
function.  A configuration call that is given a `nil` function sets the pointer
to a cell that holds `nil`, which is neither. -/

/-- What the pointer of a hook leads to: `none` is a hook that is not set. -/
def hookTarget {α : Type} : Option α → Deref (Option α)
  | none => .nil
  | some fn => .cell (some fn)

/-- The strategy with the predicate `sr` and the hooks `cb` and `g`. -/
def Strategy.ofHooks {σ ε : Type} (sr : ShouldRetryFn σ ε) (cb : Option (FailureFn σ ε))
    (g : Option (WaitFn σ ε)) : Strategy σ ε :=
  { shouldRetry := some sr, betweenFailures := hookTarget cb,
    waitDurationGenerator := hookTarget g }

/-- Every function argument of the call is a function, none is `nil`. -/
def ConfigCall.argsPresent {σ ε : Type} : ConfigCall σ ε → Prop
  | .RetryXTimes _ => True
  | .RetryXTimesWithFailureCallback _ cb => cb.isSome
  | .RetryOnCallback pred => pred.isSome
  | .RetryOnCallbackWithFailureCallback pred cb => pred.isSome ∧ cb.isSome
  | .WaitRetryXTimes _ _ => True
  | .WaitRetryXTimesWithFailureCallback _ _ cb => cb.isSome
  | .WaitRetryOnCallback _ pred => pred.isSome
  | .WaitRetryOnCallbackWithFailureCallback _ pred cb => pred.isSome ∧ cb.isSome
  | .ComplexWaitRetryXTimes _ g => g.isSome
  | .ComplexWaitRetryXTimesWithFailureCallback _ g cb => g.isSome ∧ cb.isSome
  | .ComplexWaitRetryOnCallback g pred => g.isSome ∧ pred.isSome
  | .ComplexWaitRetryOnCallbackWithFailureCallback g pred cb =>
    g.isSome ∧ pred.isSome ∧ cb.isSome

/-! ## The shape of a trace -/

/-- The events of the failure callback in a round, when the hook is set. -/
def callbackEvents {ρ ε : Type} (hasCallback : Bool) (k : Int) (err : GoError ε) :
    List (Event ρ ε) :=
  if hasCallback then [.notified k err] else []

/-- The events of the wait in a round, when the hook is set. -/
def waitEvents {ρ ε : Type} (hasWait : Bool) (k : Int) (err : GoError ε) (d : Int) :
    List (Event ρ ε) :=
  if hasWait then [.computedWait k err d, .slept d] else []

/-- The traces of the loop entered with the attempt number `k` and the error
`err`.  In each round: the loop test that is true, on `(k, err)`; then the
failure callback, when it is set; then the wait, when it is set; then the
operation; in this order, the hooks with the `(k, err)` of the test.  The next
round has the attempt number `k + 1`, wrapped, and the error of that
invocation; a round whose invocation succeeds is the last.  After the last
round nothing, or the loop test that is false.  With `mayAbort` a last round
may stop after its test or after its failure callback: that is a panic. -/
inductive Rounds {ρ ε : Type} (mayAbort hasCallback hasWait : Bool) :
    Int → GoError ε → List (Event ρ ε) → Prop
  | cut (k : Int) (err : GoError ε) : Rounds mayAbort hasCallback hasWait k err []
  | stop (k : Int) (err : GoError ε) :
      Rounds mayAbort hasCallback hasWait k err [.decided k err false]
  | abort (k : Int) (err : GoError ε) (evs : List (Event ρ ε)) (hmay : mayAbort = true)
      (hevs : evs = [] ∨ evs = callbackEvents hasCallback k err) :
      Rounds mayAbort hasCallback hasWait k err (.decided k err true :: evs)
  | round (k : Int) (err : GoError ε) (d : Int) (r : ρ) (err' : GoError ε)
      (rest : List (Event ρ ε)) (hlast : err' = none → rest = [])
      (hrest : Rounds mayAbort hasCallback hasWait (wrapInt64 (k + 1)) err' rest) :
      Rounds mayAbort hasCallback hasWait k err
        (.decided k err true ::
          (callbackEvents hasCallback k err ++ waitEvents hasWait k err d ++
            .called r err' :: rest))

/-- Whether the failure callback of a `retryPolicy` is set to a function. -/
def Mem.callbackSet {σ ε : Type} (m : Mem σ ε) (rp : retryPolicy σ ε) : Bool :=
  match deref m.failureFns rp.betweenFailures with
  | .cell (some _) => true
  | _ => false

/-- Whether the wait function of a `retryPolicy` is set to a function. -/
def Mem.waitSet {σ ε : Type} (m : Mem σ ε) (rp : retryPolicy σ ε) : Bool :=
  match deref m.waitFns rp.waitDurationGenerator with
  | .cell (some _) => true
  | _ => false

/-- The loop tests of a trace that were true: attempt number and error. -/
def retryDecisions {ρ ε : Type} : List (Event ρ ε) → List (Int × GoError ε)
  | [] => []
  | .decided k err true :: t => (k, err) :: retryDecisions t
  | _ :: t => retryDecisions t

/-- The invocations of a list that failed. -/
def failures {ρ ε : Type} (cs : List (ρ × GoError ε)) : List (ρ × GoError ε) :=
  cs.filter (fun c => c.2.isSome)

/-- The predicate `func(retryCount int, err error) bool { return retryCount <= 3 }`
of `Test_RetryOnCallbackWithFailureCallback_CallsFailureCallbackExpectedTimes`. -/
def retryUpTo3 {σ ε : Type} : ShouldRetryFn σ ε :=
  fun retryCount _ w => (decide (retryCount ≤ 3), w)

/-- A wait function that grows with the attempt number: `retryCount` times 10. -/
def linearWait {σ ε : Type} : WaitFn σ ε := fun retryCount _ w => (retryCount * 10, w)

/-! ## The world the hooks of a round leave -/

/-- The world after lines 22-25 of `execution.go` when the failure callback is
set to the function `cb` or not set. -/
def callbackWorld {σ ε : Type} (cb : Option (FailureFn σ ε)) (k : Int) (err : GoError ε)
    (w : σ) : σ :=
  match cb with
  | none => w
  | some betweenFailures => betweenFailures k err w

/-- The duration lines 27-30 of `execution.go` sleep when the wait function is
set to `g`; 0 stands for no sleep when it is not set. -/
def waitDuration {σ ε : Type} (g : Option (WaitFn σ ε)) (k : Int) (err : GoError ε)
    (w : σ) : Int :=
  match g with
  | none => 0
  | some waitDurationGenerator => (waitDurationGenerator k err w).1

/-- The world after lines 27-30 of `execution.go` when the wait function is set
to the function `g` or not set. -/
def waitWorld {σ ε : Type} (g : Option (WaitFn σ ε)) (k : Int) (err : GoError ε)
    (w : σ) : σ :=
  match g with
  | none => w
  | some waitDurationGenerator => (waitDurationGenerator k err w).2

/-- An operation that fails until the world, a flag, is set, and leaves the
flag as it is. -/
def succeedsWhenReady : Operation Bool Int Unit :=
  fun ready => if ready then ((42, none), ready) else ((0, some ()), ready)

/-- A failure callback that sets the flag. -/
def makeReady : FailureFn Bool Unit := fun _ _ _ => true

/-- An operation that always fails and counts its invocations in the first
component of a world of three counters (calls, callbacks, waits). -/
def countedFailure : Operation (Nat × Nat × Nat) Int Unit :=
  fun w => ((0, some ()), (w.1 + 1, w.2.1, w.2.2))

/-- A failure callback that counts its invocations in the second counter. -/
def countedCallback : FailureFn (Nat × Nat × Nat) Unit :=
  fun _ _ w => (w.1, w.2.1 + 1, w.2.2)

/-- A wait function that counts its invocations in the third counter and
returns `retryCount` times 10. -/
def countedWait : WaitFn (Nat × Nat × Nat) Unit :=
  fun retryCount _ w => (retryCount * 10, (w.1, w.2.1, w.2.2 + 1))

/-! ## Lemmas: machine integers -/

theorem wrapInt64_eq_self {x : Int} (hlo : minInt64 ≤ x) (hhi : x ≤ maxInt64) :
    wrapInt64 x = x := by
  unfold wrapInt64
  unfold minInt64 at hlo
  unfold maxInt64 at hhi
  norm_num at hlo hhi ⊢
  omega

theorem wrapInt64_isInt64 (x : Int) : isInt64 (wrapInt64 x) := by
  unfold isInt64 wrapInt64 minInt64 maxInt64
  norm_num
  omega

/-! ## Lemmas: traces -/

section TraceLemmas

variable {σ ρ ε : Type}

@[simp] theorem Run.after_trace (evs : List (Event ρ ε)) (x : Run σ ρ ε) :
    (x.after evs).trace = evs ++ x.trace := rfl

@[simp] theorem Run.after_outcome (evs : List (Event ρ ε)) (x : Run σ ρ ε) :
    (x.after evs).outcome = x.outcome := rfl

@[simp] theorem Run.after_world (evs : List (Event ρ ε)) (x : Run σ ρ ε) :
    (x.after evs).world = x.world := rfl

@[simp] theorem calls_nil : calls ([] : List (Event ρ ε)) = [] := rfl

@[simp] theorem calls_called (r : ρ) (err : GoError ε) (t : List (Event ρ ε)) :
    calls (.called r err :: t) = (r, err) :: calls t := rfl

@[simp] theorem calls_decided (k : Int) (err : GoError ε) (b : Bool) (t : List (Event ρ ε)) :
    calls (.decided k err b :: t) = calls t := rfl

@[simp] theorem calls_notified (k : Int) (err : GoError ε) (t : List (Event ρ ε)) :
    calls (.notified k err :: t) = calls t := rfl

@[simp] theorem calls_computedWait (k : Int) (err : GoError ε) (d : Int)
    (t : List (Event ρ ε)) : calls (.computedWait k err d :: t) = calls t := rfl

@[simp] theorem calls_slept (d : Int) (t : List (Event ρ ε)) :
    calls (.slept d :: t) = calls t := rfl

@[simp] theorem calls_append (a b : List (Event ρ ε)) :
    calls (a ++ b) = calls a ++ calls b := by
  induction a with
  | nil => rfl
  | cons x t ih => cases x <;> simp [ih]

@[simp] theorem notifications_nil : notifications ([] : List (Event ρ ε)) = [] := rfl

@[simp] theorem notifications_called (r : ρ) (err : GoError ε) (t : List (Event ρ ε)) :
    notifications (.called r err :: t) = notifications t := rfl

@[simp] theorem notifications_decided (k : Int) (err : GoError ε) (b : Bool)
    (t : List (Event ρ ε)) :
    notifications (.decided k err b :: t) = notifications t := rfl

@[simp] theorem notifications_notified (k : Int) (err : GoError ε) (t : List (Event ρ ε)) :
    notifications (.notified k err :: t) = (k, err) :: notifications t := rfl

@[simp] theorem notifications_computedWait (k : Int) (err : GoError ε) (d : Int)
    (t : List (Event ρ ε)) :
    notifications (.computedWait k err d :: t) = notifications t := rfl

@[simp] theorem notifications_slept (d : Int) (t : List (Event ρ ε)) :
    notifications (.slept d :: t) = notifications t := rfl

@[simp] theorem notifications_append (a b : List (Event ρ ε)) :
    notifications (a ++ b) = notifications a ++ notifications b := by
  induction a with
  | nil => rfl
  | cons x t ih => cases x <;> simp [ih]

@[simp] theorem decisions_nil : decisions ([] : List (Event ρ ε)) = [] := rfl

@[simp] theorem decisions_called (r : ρ) (err : GoError ε) (t : List (Event ρ ε)) :
    decisions (.called r err :: t) = decisions t := rfl

@[simp] theorem decisions_decided (k : Int) (err : GoError ε) (b : Bool) (t : List (Event ρ ε)) :
    decisions (.decided k err b :: t) = (k, err, b) :: decisions t := rfl

@[simp] theorem decisions_notified (k : Int) (err : GoError ε) (t : List (Event ρ ε)) :
    decisions (.notified k err :: t) = decisions t := rfl

@[simp] theorem decisions_computedWait (k : Int) (err : GoError ε) (d : Int)
    (t : List (Event ρ ε)) :
    decisions (.computedWait k err d :: t) = decisions t := rfl

@[simp] theorem decisions_slept (d : Int) (t : List (Event ρ ε)) :
    decisions (.slept d :: t) = decisions t := rfl

@[simp] theorem decisions_append (a b : List (Event ρ ε)) :
    decisions (a ++ b) = decisions a ++ decisions b := by
  induction a with
  | nil => rfl
  | cons x t ih => cases x <;> simp [ih]

@[simp] theorem waitComputations_nil : waitComputations ([] : List (Event ρ ε)) = [] := rfl

@[simp] theorem waitComputations_called (r : ρ) (err : GoError ε) (t : List (Event ρ ε)) :
    waitComputations (.called r err :: t) = waitComputations t := rfl

@[simp] theorem waitComputations_decided (k : Int) (err : GoError ε) (b : Bool)
    (t : List (Event ρ ε)) :
    waitComputations (.decided k err b :: t) = waitComputations t := rfl

@[simp] theorem waitComputations_notified (k : Int) (err : GoError ε) (t : List (Event ρ ε)) :
    waitComputations (.notified k err :: t) = waitComputations t := rfl

@[simp] theorem waitComputations_computedWait (k : Int) (err : GoError ε) (d : Int)
    (t : List (Event ρ ε)) :
    waitComputations (.computedWait k err d :: t) = (k, err, d) :: waitComputations t := rfl

@[simp] theorem waitComputations_slept (d : Int) (t : List (Event ρ ε)) :
    waitComputations (.slept d :: t) = waitComputations t := rfl

@[simp] theorem waitComputations_append (a b : List (Event ρ ε)) :
    waitComputations (a ++ b) = waitComputations a ++ waitComputations b := by
  induction a with
  | nil => rfl
  | cons x t ih => cases x <;> simp [ih]

@[simp] theorem sleeps_nil : sleeps ([] : List (Event ρ ε)) = [] := rfl

@[simp] theorem sleeps_called (r : ρ) (err : GoError ε) (t : List (Event ρ ε)) :
    sleeps (.called r err :: t) = sleeps t := rfl

@[simp] theorem sleeps_decided (k : Int) (err : GoError ε) (b : Bool) (t : List (Event ρ ε)) :
    sleeps (.decided k err b :: t) = sleeps t := rfl

@[simp] theorem sleeps_notified (k : Int) (err : GoError ε) (t : List (Event ρ ε)) :
    sleeps (.notified k err :: t) = sleeps t := rfl

@[simp] theorem sleeps_computedWait (k : Int) (err : GoError ε) (d : Int) (t : List (Event ρ ε)) :
    sleeps (.computedWait k err d :: t) = sleeps t := rfl

@[simp] theorem sleeps_slept (d : Int) (t : List (Event ρ ε)) :
    sleeps (.slept d :: t) = d :: sleeps t := rfl

@[simp] theorem sleeps_append (a b : List (Event ρ ε)) :
    sleeps (a ++ b) = sleeps a ++ sleeps b := by
  induction a with
  | nil => rfl
  | cons x t ih => cases x <;> simp [ih]

end TraceLemmas

/-! ## Lemmas: one round of the loop -/

section LoopLemmas

variable {σ ρ ε : Type}

/-- The loop condition is false: the loop ends and `Execute` returns the
current pair. -/
theorem retryLoop_stop (m : Mem σ ε) (rp : retryPolicy σ ε) (f : Operation σ ρ ε)
    (sr : ShouldRetryFn σ ε) (hsr : rp.shouldRetry = some sr)
    (fuel : Nat) (c : Int) (r : ρ) (err : GoError ε) (w : σ)
    (hc : (sr c err w).1 = false) :
    retryLoop m rp f (fuel + 1) c r err w =
      { outcome := .returned r err, world := (sr c err w).2,
        trace := [.decided c err false] } := by
  simp [retryLoop, hsr, hc]

/-- The loop condition is true, the hooks run, the operation fails again: the
loop goes on with the next `retryCount`. -/
theorem retryLoop_again (m : Mem σ ε) (rp : retryPolicy σ ε) (f : Operation σ ρ ε)
    (sr : ShouldRetryFn σ ε) (hsr : rp.shouldRetry = some sr)
    (fuel : Nat) (c : Int) (r : ρ) (err : GoError ε) (w w1 w2 : σ)
    (evs1 evs2 : List (Event ρ ε)) (e : ε)
    (hc : (sr c err w).1 = true)
    (h1 : handleFailureCallback m rp c err (sr c err w).2 = .ok (w1, evs1))
    (h2 : handleWait m rp c err w1 = .ok (w2, evs2))
    (hf : (f w2).1.2 = some e) :
    retryLoop m rp f (fuel + 1) c r err w =
      (retryLoop m rp f fuel (wrapInt64 (c + 1)) (f w2).1.1 (some e) (f w2).2).after
        (.decided c err true :: (evs1 ++ evs2 ++ [.called (f w2).1.1 (some e)])) := by
  simp [retryLoop, hsr, hc, h1, h2, hf]

/-- The loop condition is true, the hooks run, the operation succeeds:
`Execute` returns its result. -/
theorem retryLoop_success (m : Mem σ ε) (rp : retryPolicy σ ε) (f : Operation σ ρ ε)
    (sr : ShouldRetryFn σ ε) (hsr : rp.shouldRetry = some sr)
    (fuel : Nat) (c : Int) (r : ρ) (err : GoError ε) (w w1 w2 : σ)
    (evs1 evs2 : List (Event ρ ε))
    (hc : (sr c err w).1 = true)
    (h1 : handleFailureCallback m rp c err (sr c err w).2 = .ok (w1, evs1))
    (h2 : handleWait m rp c err w1 = .ok (w2, evs2))
    (hf : (f w2).1.2 = none) :
    retryLoop m rp f (fuel + 1) c r err w =
      { outcome := .returned (f w2).1.1 none, world := (f w2).2,
        trace := .decided c err true :: (evs1 ++ evs2 ++ [.called (f w2).1.1 none]) } := by
  simp [retryLoop, hsr, hc, h1, h2, hf]

end LoopLemmas

/-! ## Lemmas: a retry-count strategy without hooks -/

section CountLemmas

variable {σ ρ ε : Type}

theorem worldAfterCalls_succ (f : Operation σ ρ ε) (k : Nat) (w : σ) :
    worldAfterCalls f (k + 1) w = (f (worldAfterCalls f k w)).2 := by
  induction k generalizing w with
  | zero => rfl
  | succ k ih => exact ih (f w).2

theorem range_map_worldAfterCalls (f : Operation σ ρ ε) (j : Nat) (w : σ) :
    (List.range (j + 1)).map (fun k => (f (worldAfterCalls f k w)).1) =
      (f w).1 :: (List.range j).map (fun k => (f (worldAfterCalls f k (f w).2)).1) := by
  rw [List.range_succ_eq_map]
  simp [List.map_map, Function.comp_def, worldAfterCalls]

/-- The loop of a strategy `count <= N` without hooks, entered with `j` retries
left, on an operation that always fails. -/
theorem retryLoop_count_failing (m : Mem σ ε) (rp : retryPolicy σ ε) (N : Int)
    (hsr : rp.shouldRetry = some (countPredicate N))
    (hb : rp.betweenFailures = none) (hg : rp.waitDurationGenerator = none)
    (f : Operation σ ρ ε) (hfail : ∀ w, (f w).1.2 ≠ none) (hN : N < maxInt64) :
    ∀ (j : Nat) (c : Int) (r : ρ) (err : GoError ε) (w : σ) (fuel : Nat),
      0 ≤ c → c + j = N + 1 → j + 1 ≤ fuel →
      calls (retryLoop m rp f fuel c r err w).trace =
          (List.range j).map (fun k => (f (worldAfterCalls f k w)).1) ∧
        (retryLoop m rp f fuel c r err w).world = worldAfterCalls f j w ∧
        (retryLoop m rp f fuel c r err w).outcome =
          (if j = 0 then .returned r err
           else .returned (f (worldAfterCalls f (j - 1) w)).1.1
                  (f (worldAfterCalls f (j - 1) w)).1.2) := by
  intro j
  induction j with
  | zero =>
    intro c r err w fuel _ hcj hfuel
    obtain ⟨fuel, rfl⟩ : ∃ k, fuel = k + 1 := ⟨fuel - 1, by omega⟩
    have hc : (countPredicate (σ := σ) (ε := ε) N c err w).1 = false := by
      simp [countPredicate]; omega
    rw [retryLoop_stop m rp f _ hsr fuel c r err w hc]
    simp [worldAfterCalls, countPredicate]
  | succ j ih =>
    intro c r err w fuel hc0 hcj hfuel
    obtain ⟨fuel, rfl⟩ : ∃ k, fuel = k + 1 := ⟨fuel - 1, by omega⟩
    have hc : (countPredicate (σ := σ) (ε := ε) N c err w).1 = true := by
      simp [countPredicate]; omega
    obtain ⟨e, he⟩ := Option.ne_none_iff_exists'.mp (hfail w)
    have h1 : handleFailureCallback (ρ := ρ) m rp c err
        (countPredicate (σ := σ) (ε := ε) N c err w).2 = .ok (w, []) := by
      simp [handleFailureCallback, deref, hb, countPredicate]
    have h2 : handleWait (ρ := ρ) m rp c err w = .ok (w, []) := by
      simp [handleWait, deref, hg]
    rw [retryLoop_again m rp f _ hsr fuel c r err w w w [] [] e hc h1 h2 he]
    have hwrap : wrapInt64 (c + 1) = c + 1 := by
      apply wrapInt64_eq_self
      · unfold minInt64; omega
      · push_cast at hcj; omega
    rw [hwrap]
    obtain ⟨ih1, ih2, ih3⟩ := ih (c + 1) (f w).1.1 (some e) (f w).2 fuel (by omega)
      (by push_cast at hcj ⊢; omega) (by omega)
    refine ⟨?_, ?_, ?_⟩
    · rw [range_map_worldAfterCalls]
      simp [ih1, Prod.ext_iff, he]
    · simpa [worldAfterCalls] using ih2
    · simp only [Run.after_outcome, ih3]
      cases j with
      | zero => simp [worldAfterCalls, he]
      | succ j => simp [worldAfterCalls]

end CountLemmas

/-! ## Lemmas: `Execute` -/

section ExecuteLemmas

variable {σ ρ ε : Type}

/-- The first invocation succeeds: the early out. -/
theorem Execute_early_out (e : executor) (m : Mem σ ε) (f : Operation σ ρ ε)
    (fuel : Nat) (w : σ) (hf : (f w).1.2 = none) :
    e.Execute m f fuel w =
      { outcome := .returned (f w).1.1 none, world := (f w).2,
        trace := [.called (f w).1.1 none] } := by
  simp [executor.Execute, hf]

/-- The first invocation fails and the policy has no retry strategy. -/
theorem Execute_no_retry (e : executor) (m : Mem σ ε) (f : Operation σ ρ ε)
    (fuel : Nat) (w : σ) (er : ε) (hf : (f w).1.2 = some er)
    (hp : e.policy.retry = none) :
    e.Execute m f fuel w =
      { outcome := .returned (f w).1.1 (some er), world := (f w).2,
        trace := [.called (f w).1.1 (some er)] } := by
  simp [executor.Execute, hf, hp, deref]

/-- The first invocation fails and the policy has a retry strategy: the loop
is entered with `retryCount = 1`. -/
theorem Execute_retry (e : executor) (m : Mem σ ε) (f : Operation σ ρ ε)
    (fuel : Nat) (w : σ) (er : ε) (hf : (f w).1.2 = some er)
    (rp : retryPolicy σ ε) (hm : deref m.policies e.policy.retry = .cell rp) :
    e.Execute m f fuel w =
      (retryLoop m rp f fuel 1 (f w).1.1 (some er) (f w).2).after
        [.called (f w).1.1 (some er)] := by
  simp [executor.Execute, hf, hm]

/-- With the limit `maxInt64` the condition `count <= retryCount` holds for
every `int`: on an operation that always fails the loop uses up any fuel, one
invocation per unit. -/
theorem retryLoop_maxInt64_failing (m : Mem σ ε) (rp : retryPolicy σ ε)
    (hsr : rp.shouldRetry = some (countPredicate maxInt64))
    (hb : rp.betweenFailures = none) (hg : rp.waitDurationGenerator = none)
    (f : Operation σ ρ ε) (hfail : ∀ w, (f w).1.2 ≠ none) :
    ∀ (fuel : Nat) (c : Int) (r : ρ) (err : GoError ε) (w : σ), c ≤ maxInt64 →
      (retryLoop m rp f fuel c r err w).outcome = .exhausted ∧
        (calls (retryLoop m rp f fuel c r err w).trace).length = fuel := by
  intro fuel
  induction fuel with
  | zero => intro c r err w _; simp [retryLoop]
  | succ fuel ih =>
    intro c r err w hc
    have hc1 : (countPredicate (σ := σ) (ε := ε) maxInt64 c err w).1 = true := by
      simp [countPredicate, hc]
    obtain ⟨e, he⟩ := Option.ne_none_iff_exists'.mp (hfail w)
    have h1 : handleFailureCallback (ρ := ρ) m rp c err
        (countPredicate (σ := σ) (ε := ε) maxInt64 c err w).2 = .ok (w, []) := by
      simp [handleFailureCallback, deref, hb, countPredicate]
    have h2 : handleWait (ρ := ρ) m rp c err w = .ok (w, []) := by
      simp [handleWait, deref, hg]
    rw [retryLoop_again m rp f _ hsr fuel c r err w w w [] [] e hc1 h1 h2 he]
    obtain ⟨ih1, ih2⟩ := ih (wrapInt64 (c + 1)) (f w).1.1 (some e) (f w).2
      (wrapInt64_isInt64 _).2
    simp [ih1, ih2]

end ExecuteLemmas

/-! ## Lemmas: the hooks add no invocation of the operation -/

section HookLemmas

variable {σ ρ ε : Type}

theorem handleFailureCallback_calls (m : Mem σ ε) (rp : retryPolicy σ ε) (c : Int)
    (err : GoError ε) (w w1 : σ) (evs : List (Event ρ ε))
    (h : handleFailureCallback m rp c err w = .ok (w1, evs)) : calls evs = [] := by
  unfold handleFailureCallback at h
  split at h <;> simp at h
  · obtain ⟨-, rfl⟩ := h; rfl
  · obtain ⟨-, rfl⟩ := h; rfl

theorem handleWait_calls (m : Mem σ ε) (rp : retryPolicy σ ε) (c : Int)
    (err : GoError ε) (w w1 : σ) (evs : List (Event ρ ε))
    (h : handleWait m rp c err w = .ok (w1, evs)) : calls evs = [] := by
  unfold handleWait at h
  split at h <;> simp at h
  · obtain ⟨-, rfl⟩ := h; rfl
  · obtain ⟨-, rfl⟩ := h; rfl

theorem handleFailureCallback_error (m : Mem σ ε) (rp : retryPolicy σ ε) (c : Int)
    (err : GoError ε) (w : σ) (o : Outcome ρ ε)
    (h : handleFailureCallback m rp c err w = .error o) :
    o = .dangling ∨ o = .panicked := by
  unfold handleFailureCallback at h
  split at h <;> simp at h
  · exact Or.inl h.symm
  · exact Or.inr h.symm

theorem handleWait_error (m : Mem σ ε) (rp : retryPolicy σ ε) (c : Int)
    (err : GoError ε) (w : σ) (o : Outcome ρ ε)
    (h : handleWait m rp c err w = .error o) :
    o = .dangling ∨ o = .panicked := by
  unfold handleWait at h
  split at h <;> simp at h
  · exact Or.inl h.symm
  · exact Or.inr h.symm

/-- When the loop ends in a `return`, the pair returned is the pair of the last
invocation of the operation: the one before the loop when the loop made none. -/
theorem retryLoop_returns_last_call (m : Mem σ ε) (rp : retryPolicy σ ε)
    (f : Operation σ ρ ε) :
    ∀ (fuel : Nat) (c : Int) (r : ρ) (err : GoError ε) (w : σ) (r' : ρ) (err' : GoError ε),
      (retryLoop m rp f fuel c r err w).outcome = .returned r' err' →
      ((r, err) :: calls (retryLoop m rp f fuel c r err w).trace).getLast? =
        some (r', err') := by
  intro fuel
  induction fuel with
  | zero => intro c r err w r' err' h; simp [retryLoop] at h
  | succ fuel ih =>
    intro c r err w r' err' h
    cases hsr : rp.shouldRetry with
    | none => simp [retryLoop, hsr] at h
    | some sr =>
      cases hc : (sr c err w).1 with
      | false =>
        simp [retryLoop, hsr, hc] at h ⊢
        simp [h.1, h.2]
      | true =>
        cases h1 : handleFailureCallback (ρ := ρ) m rp c err (sr c err w).2 with
        | error o =>
          simp [retryLoop, hsr, hc, h1] at h
          rcases handleFailureCallback_error m rp c err _ o h1 with ho | ho <;>
            simp [ho] at h
        | ok a1 =>
          obtain ⟨w1, evs1⟩ := a1
          have hn1 := handleFailureCallback_calls m rp c err _ w1 evs1 h1
          cases h2 : handleWait (ρ := ρ) m rp c err w1 with
          | error o =>
            simp [retryLoop, hsr, hc, h1, h2] at h
            rcases handleWait_error m rp c err _ o h2 with ho | ho <;>
              simp [ho] at h
          | ok a2 =>
            obtain ⟨w2, evs2⟩ := a2
            have hn2 := handleWait_calls m rp c err _ w2 evs2 h2
            cases hf : (f w2).1.2 with
            | none =>
              rw [retryLoop_success m rp f sr hsr fuel c r err w w1 w2 evs1 evs2 hc h1 h2 hf]
                at h ⊢
              simp at h
              simp [hn1, hn2, h.1, ← h.2]
            | some e =>
              rw [retryLoop_again m rp f sr hsr fuel c r err w w1 w2 evs1 evs2 e hc h1 h2 hf]
                at h ⊢
              simp only [Run.after_outcome] at h
              have := ih _ _ _ _ _ _ h
              simpa [hn1, hn2] using this

end HookLemmas

section GenuineCalls

variable {σ ρ ε : Type}

/-- Every pair in the trace of the loop is what some invocation of the
operation returned. -/
theorem retryLoop_calls_genuine (m : Mem σ ε) (rp : retryPolicy σ ε)
    (f : Operation σ ρ ε) :
    ∀ (fuel : Nat) (c : Int) (r : ρ) (err : GoError ε) (w : σ),
      ∀ p ∈ calls (retryLoop m rp f fuel c r err w).trace, ∃ w', (f w').1 = p := by
  intro fuel
  induction fuel with
  | zero => intro c r err w p hp; simp [retryLoop] at hp
  | succ fuel ih =>
    intro c r err w p hp
    cases hsr : rp.shouldRetry with
    | none => simp [retryLoop, hsr] at hp
    | some sr =>
      cases hc : (sr c err w).1 with
      | false => simp [retryLoop, hsr, hc] at hp
      | true =>
        cases h1 : handleFailureCallback (ρ := ρ) m rp c err (sr c err w).2 with
        | error o => simp [retryLoop, hsr, hc, h1] at hp
        | ok a1 =>
          obtain ⟨w1, evs1⟩ := a1
          have hn1 := handleFailureCallback_calls m rp c err _ w1 evs1 h1
          cases h2 : handleWait (ρ := ρ) m rp c err w1 with
          | error o => simp [retryLoop, hsr, hc, h1, h2, hn1] at hp
          | ok a2 =>
            obtain ⟨w2, evs2⟩ := a2
            have hn2 := handleWait_calls m rp c err _ w2 evs2 h2
            cases hf : (f w2).1.2 with
            | none =>
              rw [retryLoop_success m rp f sr hsr fuel c r err w w1 w2 evs1 evs2 hc h1 h2 hf]
                at hp
              simp [hn1, hn2] at hp
              exact ⟨w2, by rw [hp, ← hf]⟩
            | some e =>
              rw [retryLoop_again m rp f sr hsr fuel c r err w w1 w2 evs1 evs2 e hc h1 h2 hf]
                at hp
              simp [hn1, hn2] at hp
              rcases hp with hp | hp
              · exact ⟨w2, by rw [hp, ← hf]⟩
              · exact ih _ _ _ _ p hp

end GenuineCalls

/-! ## Lemmas: what a configuration call leaves in the memory -/

section ConfigLemmas

variable {σ ε : Type}

@[simp] theorem deref_none {α : Type} (cells : List α) : deref cells none = .nil := rfl

@[simp] theorem deref_append_length {α : Type} (cells : List α) (v : α) :
    deref (cells ++ [v]) (some cells.length) = .cell v := by
  simp [deref]

/-- The strategy of the policy a configuration call returns is the strategy of
the call: it depends neither on the receiver nor on the memory. -/
theorem ConfigCall.strategy_apply (c : ConfigCall σ ε) (p : Policy) (m : Mem σ ε) :
    (c.apply p m).2.strategy (c.apply p m).1 = .cell c.strategy := by
  cases c <;>
    simp [ConfigCall.apply, ConfigCall.strategy, Mem.strategy, Mem.view,
      Policy.RetryXTimes, Policy.RetryXTimesWithFailureCallback, Policy.RetryOnCallback,
      Policy.RetryOnCallbackWithFailureCallback, Policy.WaitRetryXTimes,
      Policy.WaitRetryXTimesWithFailureCallback, Policy.WaitRetryOnCallback,
      Policy.WaitRetryOnCallbackWithFailureCallback, Policy.ComplexWaitRetryXTimes,
      Policy.ComplexWaitRetryXTimesWithFailureCallback, Policy.ComplexWaitRetryOnCallback,
      Policy.ComplexWaitRetryOnCallbackWithFailureCallback,
      Mem.newRetryPolicy, Mem.toPtrFailureFn, Mem.toPtrWaitFn, toPtr]

end ConfigLemmas

/-! ## Lemmas: `Execute` sees the memory only through the strategy -/

section StrategyLemmas

variable {σ ρ ε : Type}

theorem handleFailureCallback_congr (m m' : Mem σ ε) (rp rp' : retryPolicy σ ε)
    (h : m.view rp = m'.view rp') (c : Int) (err : GoError ε) (w : σ) :
    handleFailureCallback (ρ := ρ) m rp c err w = handleFailureCallback m' rp' c err w := by
  have hb : deref m.failureFns rp.betweenFailures = deref m'.failureFns rp'.betweenFailures :=
    congrArg Strategy.betweenFailures h
  simp [handleFailureCallback, hb]

theorem handleWait_congr (m m' : Mem σ ε) (rp rp' : retryPolicy σ ε)
    (h : m.view rp = m'.view rp') (c : Int) (err : GoError ε) (w : σ) :
    handleWait (ρ := ρ) m rp c err w = handleWait m' rp' c err w := by
  have hg : deref m.waitFns rp.waitDurationGenerator =
      deref m'.waitFns rp'.waitDurationGenerator :=
    congrArg Strategy.waitDurationGenerator h
  simp [handleWait, hg]

theorem retryLoop_congr (m m' : Mem σ ε) (rp rp' : retryPolicy σ ε)
    (h : m.view rp = m'.view rp') (f : Operation σ ρ ε) :
    ∀ (fuel : Nat) (c : Int) (r : ρ) (err : GoError ε) (w : σ),
      retryLoop m rp f fuel c r err w = retryLoop m' rp' f fuel c r err w := by
  have hs : rp.shouldRetry = rp'.shouldRetry := congrArg Strategy.shouldRetry h
  intro fuel
  induction fuel with
  | zero => intro c r err w; rfl
  | succ fuel ih =>
    intro c r err w
    unfold retryLoop
    simp only [hs, handleFailureCallback_congr m m' rp rp' h,
      handleWait_congr m m' rp rp' h, ih]

/-- Two policies with the same strategy, each in its memory, run alike. -/
theorem Execute_congr (e e' : executor) (m m' : Mem σ ε)
    (h : m.strategy e.policy = m'.strategy e'.policy) (f : Operation σ ρ ε)
    (fuel : Nat) (w : σ) :
    e.Execute m f fuel w = e'.Execute m' f fuel w := by
  unfold Mem.strategy at h
  unfold executor.Execute
  cases h1 : deref m.policies e.policy.retry <;>
    cases h2 : deref m'.policies e'.policy.retry <;>
    simp [h1, h2] at h ⊢
  rename_i rp rp'
  simp only [retryLoop_congr m m' rp rp' h]

/-- The run of a policy whose strategy is `s`, in terms of any `retryPolicy`
that denotes `s`. -/
theorem Execute_of_strategy (e : executor) (m : Mem σ ε) (s : Strategy σ ε)
    (h : m.strategy e.policy = .cell s) :
    ∃ rp, deref m.policies e.policy.retry = .cell rp ∧ m.view rp = s := by
  unfold Mem.strategy at h
  cases h1 : deref m.policies e.policy.retry <;> simp [h1] at h
  exact ⟨_, rfl, h⟩

end StrategyLemmas

/-! ## Lemmas: runs of a configured policy -/

section ConfiguredLemmas

variable {σ ρ ε : Type}

/-- A failing first invocation under a policy with the strategy `s` enters the
loop of a `retryPolicy` that denotes `s`. -/
theorem executeWith_of_strategy (pm : Policy × Mem σ ε) (s : Strategy σ ε)
    (hs : pm.2.strategy pm.1 = .cell s) (f : Operation σ ρ ε) (fuel : Nat) (w : σ)
    (er : ε) (hf : (f w).1.2 = some er) :
    ∃ rp, pm.2.view rp = s ∧
      executeWith pm f fuel w =
        (retryLoop pm.2 rp f fuel 1 (f w).1.1 (some er) (f w).2).after
          [.called (f w).1.1 (some er)] := by
  obtain ⟨rp, hrp, hv⟩ := Execute_of_strategy (BuildExecutor pm.1) pm.2 s hs
  exact ⟨rp, hv, Execute_retry _ _ _ _ _ _ hf rp hrp⟩

/-- The first test of the loop condition is false: one invocation, one test. -/
theorem Execute_stop_at_first_test (pm : Policy × Mem σ ε) (s : Strategy σ ε)
    (sr : ShouldRetryFn σ ε) (hs : pm.2.strategy pm.1 = .cell s)
    (hsr : s.shouldRetry = some sr) (f : Operation σ ρ ε) (w : σ) (r : ρ) (e : ε)
    (hf : (f w).1 = (r, some e)) (hc : (sr 1 (some e) (f w).2).1 = false)
    (fuel : Nat) (hfuel : 1 ≤ fuel) :
    executeWith pm f fuel w =
      { outcome := .returned r (some e), world := (sr 1 (some e) (f w).2).2,
        trace := [.called r (some e), .decided 1 (some e) false] } := by
  have h1 : (f w).1.1 = r := by rw [hf]
  have h2 : (f w).1.2 = some e := by rw [hf]
  obtain ⟨rp, hv, hrun⟩ := executeWith_of_strategy pm s hs f fuel w e h2
  have hsr' : rp.shouldRetry = some sr := by rw [← hsr, ← hv]; rfl
  obtain ⟨fuel, rfl⟩ : ∃ k, fuel = k + 1 := ⟨fuel - 1, by omega⟩
  rw [hrun, retryLoop_stop pm.2 rp f sr hsr' fuel 1 _ _ _ hc, h1]
  rfl

/-- The loop of a strategy `count <= N` with a failure callback and no wait,
entered with `j` retries left, on an operation that always fails. -/
theorem retryLoop_count_callback_failing (m : Mem σ ε) (rp : retryPolicy σ ε) (N : Int)
    (cb : FailureFn σ ε) (hsr : rp.shouldRetry = some (countPredicate N))
    (hb : deref m.failureFns rp.betweenFailures = .cell (some cb))
    (hg : deref m.waitFns rp.waitDurationGenerator = .nil)
    (f : Operation σ ρ ε) (hfail : ∀ w, (f w).1.2 ≠ none) (hN : N < maxInt64) :
    ∀ (j : Nat) (c : Int) (r : ρ) (err : GoError ε) (w : σ) (fuel : Nat),
      0 ≤ c → c + j = N + 1 → j + 1 ≤ fuel →
      (notifications (retryLoop m rp f fuel c r err w).trace).map Prod.fst =
          (List.range j).map (fun (k : Nat) => c + (k : Int)) ∧
        (calls (retryLoop m rp f fuel c r err w).trace).length = j ∧
        ∃ pre r' e', Event.called r err :: (retryLoop m rp f fuel c r err w).trace =
            pre ++ [.called r' e', .decided (N + 1) e' false] ∧
          (retryLoop m rp f fuel c r err w).outcome = .returned r' e' := by
  intro j
  induction j with
  | zero =>
    intro c r err w fuel _ hcj hfuel
    obtain ⟨fuel, rfl⟩ : ∃ k, fuel = k + 1 := ⟨fuel - 1, by omega⟩
    have hc : (countPredicate (σ := σ) (ε := ε) N c err w).1 = false := by
      simp [countPredicate]; omega
    have hcN : c = N + 1 := by simpa using hcj
    rw [retryLoop_stop m rp f _ hsr fuel c r err w hc]
    exact ⟨by simp, by simp, [], r, err, by simp [hcN], rfl⟩
  | succ j ih =>
    intro c r err w fuel hc0 hcj hfuel
    obtain ⟨fuel, rfl⟩ : ∃ k, fuel = k + 1 := ⟨fuel - 1, by omega⟩
    have hc : (countPredicate (σ := σ) (ε := ε) N c err w).1 = true := by
      simp [countPredicate]; omega
    have h1 : handleFailureCallback (ρ := ρ) m rp c err
        (countPredicate (σ := σ) (ε := ε) N c err w).2 =
        .ok (cb c err w, [.notified c err]) := by
      simp [handleFailureCallback, hb, countPredicate]
    have h2 : handleWait (ρ := ρ) m rp c err (cb c err w) = .ok (cb c err w, []) := by
      simp [handleWait, hg]
    obtain ⟨e, he⟩ := Option.ne_none_iff_exists'.mp (hfail (cb c err w))
    rw [retryLoop_again m rp f _ hsr fuel c r err w _ _ _ _ e hc h1 h2 he]
    have hwrap : wrapInt64 (c + 1) = c + 1 := by
      apply wrapInt64_eq_self
      · unfold minInt64; omega
      · push_cast at hcj; omega
    rw [hwrap]
    obtain ⟨ih1, ih2, pre, r', e', ih3, ih4⟩ := ih (c + 1) (f (cb c err w)).1.1 (some e)
      (f (cb c err w)).2 fuel (by omega) (by push_cast at hcj ⊢; omega) (by omega)
    refine ⟨?_, ?_, ?_⟩
    · rw [List.range_succ_eq_map]
      simp [ih1, List.map_map, Function.comp_def, add_assoc, add_comm]
      intro a _
      omega
    · simp [ih2]
    · refine ⟨.called r err :: .decided c err true :: .notified c err :: pre, r', e', ?_, ?_⟩
      · simp only [Run.after_trace, List.cons_append, List.nil_append, List.append_nil,
          List.singleton_append]
        rw [ih3]
      · simpa using ih4

end ConfiguredLemmas

section NeverEndingLemmas

variable {σ ρ ε : Type}

/-- The same with a failure callback: with the limit `maxInt64` the loop uses up
any fuel, one invocation of the callback and one of the operation per unit. -/
theorem retryLoop_maxInt64_callback_failing (m : Mem σ ε) (rp : retryPolicy σ ε)
    (cb : FailureFn σ ε) (hsr : rp.shouldRetry = some (countPredicate maxInt64))
    (hb : deref m.failureFns rp.betweenFailures = .cell (some cb))
    (hg : deref m.waitFns rp.waitDurationGenerator = .nil)
    (f : Operation σ ρ ε) (hfail : ∀ w, (f w).1.2 ≠ none) :
    ∀ (fuel : Nat) (c : Int) (r : ρ) (err : GoError ε) (w : σ), c ≤ maxInt64 →
      (retryLoop m rp f fuel c r err w).outcome = .exhausted ∧
        (notifications (retryLoop m rp f fuel c r err w).trace).length = fuel ∧
        (calls (retryLoop m rp f fuel c r err w).trace).length = fuel := by
  intro fuel
  induction fuel with
  | zero => intro c r err w _; simp [retryLoop]
  | succ fuel ih =>
    intro c r err w hc
    have hc1 : (countPredicate (σ := σ) (ε := ε) maxInt64 c err w).1 = true := by
      simp [countPredicate, hc]
    have h1 : handleFailureCallback (ρ := ρ) m rp c err
        (countPredicate (σ := σ) (ε := ε) maxInt64 c err w).2 =
        .ok (cb c err w, [.notified c err]) := by
      simp [handleFailureCallback, hb, countPredicate]
    have h2 : handleWait (ρ := ρ) m rp c err (cb c err w) = .ok (cb c err w, []) := by
      simp [handleWait, hg]
    obtain ⟨e, he⟩ := Option.ne_none_iff_exists'.mp (hfail (cb c err w))
    rw [retryLoop_again m rp f _ hsr fuel c r err w _ _ _ _ e hc1 h1 h2 he]
    obtain ⟨ih1, ih2, ih3⟩ := ih (wrapInt64 (c + 1)) (f (cb c err w)).1.1 (some e)
      (f (cb c err w)).2 (wrapInt64_isInt64 _).2
    simp [ih1, ih2, ih3]

end NeverEndingLemmas

/-! ## Lemmas: the memory only grows -/

section FrameLemmas

variable {σ ρ ε : Type}

theorem deref_append {α : Type} (cells t : List α) (p : Ptr)
    (h : ∀ a, p = some a → a < cells.length) :
    deref (cells ++ t) p = deref cells p := by
  cases p with
  | none => rfl
  | some a =>
    have ha := h a rfl
    simp [deref, List.getElem?_append_left ha]

theorem Mem.extends_refl (m : Mem σ ε) : m.extends m :=
  ⟨List.prefix_refl _, List.prefix_refl _, List.prefix_refl _⟩

theorem Mem.extends_trans {m1 m2 m3 : Mem σ ε} (h12 : m2.extends m1) (h23 : m3.extends m2) :
    m3.extends m1 :=
  ⟨h12.1.trans h23.1, h12.2.1.trans h23.2.1, h12.2.2.trans h23.2.2⟩

/-- A configuration call allocates: it leaves every object of the memory where
it is. -/
theorem ConfigCall.apply_extends (c : ConfigCall σ ε) (p : Policy) (m : Mem σ ε) :
    (c.apply p m).2.extends m := by
  cases c <;>
    simp [ConfigCall.apply, Mem.extends,
      Policy.RetryXTimes, Policy.RetryXTimesWithFailureCallback, Policy.RetryOnCallback,
      Policy.RetryOnCallbackWithFailureCallback, Policy.WaitRetryXTimes,
      Policy.WaitRetryXTimesWithFailureCallback, Policy.WaitRetryOnCallback,
      Policy.WaitRetryOnCallbackWithFailureCallback, Policy.ComplexWaitRetryXTimes,
      Policy.ComplexWaitRetryXTimesWithFailureCallback, Policy.ComplexWaitRetryOnCallback,
      Policy.ComplexWaitRetryOnCallbackWithFailureCallback,
      Mem.newRetryPolicy, Mem.toPtrFailureFn, Mem.toPtrWaitFn, toPtr]

/-- The policy a configuration call returns points into the memory the call
returns. -/
theorem ConfigCall.apply_wellFormed (c : ConfigCall σ ε) (p : Policy) (m : Mem σ ε) :
    (c.apply p m).2.wellFormed (c.apply p m).1 := by
  cases c <;>
    simp [ConfigCall.apply, Mem.wellFormed,
      Policy.RetryXTimes, Policy.RetryXTimesWithFailureCallback, Policy.RetryOnCallback,
      Policy.RetryOnCallbackWithFailureCallback, Policy.WaitRetryXTimes,
      Policy.WaitRetryXTimesWithFailureCallback, Policy.WaitRetryOnCallback,
      Policy.WaitRetryOnCallbackWithFailureCallback, Policy.ComplexWaitRetryXTimes,
      Policy.ComplexWaitRetryXTimesWithFailureCallback, Policy.ComplexWaitRetryOnCallback,
      Policy.ComplexWaitRetryOnCallbackWithFailureCallback,
      Mem.newRetryPolicy, Mem.toPtrFailureFn, Mem.toPtrWaitFn, toPtr]

/-- The strategy of a well-formed policy is the same in every larger memory. -/
theorem Mem.strategy_of_extends (m m' : Mem σ ε) (p : Policy) (hext : m'.extends m)
    (hwf : m.wellFormed p) : m'.strategy p = m.strategy p := by
  obtain ⟨⟨tp, hp⟩, ⟨tf, hf⟩, ⟨tw, hw⟩⟩ := hext
  unfold Mem.wellFormed at hwf
  unfold Mem.strategy
  cases hr : p.retry with
  | none => simp
  | some a =>
    simp only [hr] at hwf
    obtain ⟨rp, hrp, hbf, hwg⟩ := hwf
    have ha : a < m.policies.length := by
      by_contra hlt
      rw [List.getElem?_eq_none (by omega)] at hrp
      exact Option.noConfusion hrp
    have h1 : deref m'.policies (some a) = .cell rp := by
      rw [← hp, deref_append _ _ _ (by intro x hx; cases hx; exact ha)]
      simp [deref, hrp]
    have h2 : deref m.policies (some a) = .cell rp := by simp [deref, hrp]
    simp only [h1, h2, Mem.view, ← hf, ← hw, deref_append _ _ _ hbf, deref_append _ _ _ hwg]

/-- The empty policy is well-formed in every memory. -/
theorem Mem.wellFormed_NewPolicy (m : Mem σ ε) : m.wellFormed NewPolicy := by
  simp [Mem.wellFormed, NewPolicy]

end FrameLemmas

/-! ## Lemmas: a hook that is not set is not invoked -/

section AbsentHookLemmas

variable {σ ρ ε : Type}

theorem handleFailureCallback_ok (m : Mem σ ε) (rp : retryPolicy σ ε) (c : Int)
    (err : GoError ε) (w w1 : σ) (evs : List (Event ρ ε))
    (h : handleFailureCallback m rp c err w = .ok (w1, evs)) :
    evs = [] ∨ evs = [.notified c err] := by
  unfold handleFailureCallback at h
  split at h <;> simp at h
  · exact Or.inl h.2
  · exact Or.inr h.2.symm

theorem handleWait_ok (m : Mem σ ε) (rp : retryPolicy σ ε) (c : Int)
    (err : GoError ε) (w w1 : σ) (evs : List (Event ρ ε))
    (h : handleWait m rp c err w = .ok (w1, evs)) :
    evs = [] ∨ ∃ d, evs = [.computedWait c err d, .slept d] := by
  unfold handleWait at h
  split at h <;> simp at h
  · exact Or.inl h.2
  · exact Or.inr ⟨_, h.2.symm⟩

/-- A strategy whose pointer `betweenFailures` is `nil` invokes no failure
callback. -/
theorem retryLoop_no_notifications (m : Mem σ ε) (rp : retryPolicy σ ε)
    (f : Operation σ ρ ε) (hb : deref m.failureFns rp.betweenFailures = .nil) :
    ∀ (fuel : Nat) (c : Int) (r : ρ) (err : GoError ε) (w : σ),
      notifications (retryLoop m rp f fuel c r err w).trace = [] := by
  intro fuel
  induction fuel with
  | zero => intro c r err w; rfl
  | succ fuel ih =>
    intro c r err w
    cases hsr : rp.shouldRetry with
    | none => simp [retryLoop, hsr]
    | some sr =>
      cases hc : (sr c err w).1 with
      | false => simp [retryLoop, hsr, hc]
      | true =>
        have h1 : handleFailureCallback (ρ := ρ) m rp c err (sr c err w).2 =
            .ok ((sr c err w).2, []) := by
          simp [handleFailureCallback, hb]
        cases h2 : handleWait (ρ := ρ) m rp c err (sr c err w).2 with
        | error o => simp [retryLoop, hsr, hc, h1, h2]
        | ok a2 =>
          obtain ⟨w2, evs2⟩ := a2
          have hn2 : notifications evs2 = [] := by
            rcases handleWait_ok m rp c err _ w2 evs2 h2 with h | ⟨d, h⟩ <;> simp [h]
          cases hf : (f w2).1.2 with
          | none =>
            rw [retryLoop_success m rp f sr hsr fuel c r err w _ w2 _ evs2 hc h1 h2 hf]
            simp [hn2]
          | some e =>
            rw [retryLoop_again m rp f sr hsr fuel c r err w _ w2 _ evs2 e hc h1 h2 hf]
            simp [hn2, ih]

/-- A strategy whose pointer `waitDurationGenerator` is `nil` computes no wait
and does not sleep. -/
theorem retryLoop_no_waits (m : Mem σ ε) (rp : retryPolicy σ ε)
    (f : Operation σ ρ ε) (hg : deref m.waitFns rp.waitDurationGenerator = .nil) :
    ∀ (fuel : Nat) (c : Int) (r : ρ) (err : GoError ε) (w : σ),
      waitComputations (retryLoop m rp f fuel c r err w).trace = [] ∧
        sleeps (retryLoop m rp f fuel c r err w).trace = [] := by
  intro fuel
  induction fuel with
  | zero => intro c r err w; exact ⟨rfl, rfl⟩
  | succ fuel ih =>
    intro c r err w
    cases hsr : rp.shouldRetry with
    | none => simp [retryLoop, hsr]
    | some sr =>
      cases hc : (sr c err w).1 with
      | false => simp [retryLoop, hsr, hc]
      | true =>
        cases h1 : handleFailureCallback (ρ := ρ) m rp c err (sr c err w).2 with
        | error o => simp [retryLoop, hsr, hc, h1]
        | ok a1 =>
          obtain ⟨w1, evs1⟩ := a1
          have hn1 : waitComputations evs1 = [] ∧ sleeps evs1 = [] := by
            rcases handleFailureCallback_ok m rp c err _ w1 evs1 h1 with h | h <;> simp [h]
          have h2 : handleWait (ρ := ρ) m rp c err w1 = .ok (w1, []) := by
            simp [handleWait, hg]
          cases hf : (f w1).1.2 with
          | none =>
            rw [retryLoop_success m rp f sr hsr fuel c r err w w1 w1 evs1 _ hc h1 h2 hf]
            simp [hn1]
          | some e =>
            rw [retryLoop_again m rp f sr hsr fuel c r err w w1 w1 evs1 _ e hc h1 h2 hf]
            simp [hn1, ih]

/-- The same for `Execute`, in terms of the strategy of the policy. -/
theorem Execute_no_notifications (e : executor) (m : Mem σ ε) (s : Strategy σ ε)
    (hs : m.strategy e.policy = .cell s) (hb : s.betweenFailures = .nil)
    (f : Operation σ ρ ε) (fuel : Nat) (w : σ) :
    notifications (e.Execute m f fuel w).trace = [] := by
  obtain ⟨rp, hrp, hv⟩ := Execute_of_strategy e m s hs
  have hb' : deref m.failureFns rp.betweenFailures = .nil := by rw [← hb, ← hv]; rfl
  cases hf : (f w).1.2 with
  | none => rw [Execute_early_out e m f fuel w hf]; rfl
  | some er =>
    rw [Execute_retry e m f fuel w er hf rp hrp]
    simp [retryLoop_no_notifications m rp f hb']

theorem Execute_no_waits (e : executor) (m : Mem σ ε) (s : Strategy σ ε)
    (hs : m.strategy e.policy = .cell s) (hg : s.waitDurationGenerator = .nil)
    (f : Operation σ ρ ε) (fuel : Nat) (w : σ) :
    waitComputations (e.Execute m f fuel w).trace = [] ∧
      sleeps (e.Execute m f fuel w).trace = [] := by
  obtain ⟨rp, hrp, hv⟩ := Execute_of_strategy e m s hs
  have hg' : deref m.waitFns rp.waitDurationGenerator = .nil := by rw [← hg, ← hv]; rfl
  cases hf : (f w).1.2 with
  | none => rw [Execute_early_out e m f fuel w hf]; exact ⟨rfl, rfl⟩
  | some er =>
    rw [Execute_retry e m f fuel w er hf rp hrp]
    simp [retryLoop_no_waits m rp f hg']

end AbsentHookLemmas

/-! ## Lemmas: wrap-around -/

theorem wrapInt64_add_wrapInt64 (x y : Int) :
    wrapInt64 (wrapInt64 x + y) = wrapInt64 (x + y) := by
  unfold wrapInt64
  norm_num
  omega

section LoopInduction

variable {σ ρ ε : Type}

/-- Rule induction for `retryLoop`: a property of the loop entered with
`(retryCount, r, err)` in the world `w` and of its run holds of every run when
it holds of each way a round can end and is kept by a round that goes on. -/
theorem retryLoop_induct (m : Mem σ ε) (rp : retryPolicy σ ε) (f : Operation σ ρ ε)
    (P : Int → ρ → GoError ε → σ → Run σ ρ ε → Prop)
    (hcut : ∀ c r err w, P c r err w { outcome := .exhausted, world := w, trace := [] })
    (hnil : rp.shouldRetry = none →
      ∀ c r err w, P c r err w { outcome := .panicked, world := w, trace := [] })
    (hstop : ∀ sr c r err w, rp.shouldRetry = some sr → (sr c err w).1 = false →
      P c r err w { outcome := .returned r err, world := (sr c err w).2,
                    trace := [.decided c err false] })
    (hcb : ∀ sr c r err w o, rp.shouldRetry = some sr → (sr c err w).1 = true →
      handleFailureCallback m rp c err (sr c err w).2 = .error o →
      P c r err w { outcome := o, world := (sr c err w).2,
                    trace := [.decided c err true] })
    (hwait : ∀ sr c r err w w1 evs1 o, rp.shouldRetry = some sr → (sr c err w).1 = true →
      handleFailureCallback m rp c err (sr c err w).2 = .ok (w1, evs1) →
      handleWait m rp c err w1 = .error o →
      P c r err w { outcome := o, world := w1, trace := .decided c err true :: evs1 })
    (hsucc : ∀ sr c r err w w1 evs1 w2 evs2, rp.shouldRetry = some sr →
      (sr c err w).1 = true →
      handleFailureCallback m rp c err (sr c err w).2 = .ok (w1, evs1) →
      handleWait m rp c err w1 = .ok (w2, evs2) → (f w2).1.2 = none →
      P c r err w { outcome := .returned (f w2).1.1 none, world := (f w2).2,
                    trace := .decided c err true ::
                      (evs1 ++ evs2 ++ [.called (f w2).1.1 none]) })
    (hagain : ∀ sr c r err w w1 evs1 w2 evs2 e run, rp.shouldRetry = some sr →
      (sr c err w).1 = true →
      handleFailureCallback m rp c err (sr c err w).2 = .ok (w1, evs1) →
      handleWait m rp c err w1 = .ok (w2, evs2) → (f w2).1.2 = some e →
      P (wrapInt64 (c + 1)) (f w2).1.1 (some e) (f w2).2 run →
      P c r err w (run.after (.decided c err true ::
        (evs1 ++ evs2 ++ [.called (f w2).1.1 (some e)])))) :
    ∀ (fuel : Nat) (c : Int) (r : ρ) (err : GoError ε) (w : σ),
      P c r err w (retryLoop m rp f fuel c r err w) := by
  intro fuel
  induction fuel with
  | zero => intro c r err w; exact hcut c r err w
  | succ fuel ih =>
    intro c r err w
    cases hsr : rp.shouldRetry with
    | none =>
      have : retryLoop m rp f (fuel + 1) c r err w =
          { outcome := .panicked, world := w, trace := [] } := by
        simp [retryLoop, hsr]
      rw [this]; exact hnil hsr c r err w
    | some sr =>
      cases hc : (sr c err w).1 with
      | false =>
        rw [retryLoop_stop m rp f sr hsr fuel c r err w hc]
        exact hstop sr c r err w hsr hc
      | true =>
        cases h1 : handleFailureCallback (ρ := ρ) m rp c err (sr c err w).2 with
        | error o =>
          have : retryLoop m rp f (fuel + 1) c r err w =
              { outcome := o, world := (sr c err w).2, trace := [.decided c err true] } := by
            simp [retryLoop, hsr, hc, h1]
          rw [this]; exact hcb sr c r err w o hsr hc h1
        | ok a1 =>
          obtain ⟨w1, evs1⟩ := a1
          cases h2 : handleWait (ρ := ρ) m rp c err w1 with
          | error o =>
            have : retryLoop m rp f (fuel + 1) c r err w =
                { outcome := o, world := w1, trace := .decided c err true :: evs1 } := by
              simp [retryLoop, hsr, hc, h1, h2]
            rw [this]; exact hwait sr c r err w w1 evs1 o hsr hc h1 h2
          | ok a2 =>
            obtain ⟨w2, evs2⟩ := a2
            cases hf : (f w2).1.2 with
            | none =>
              rw [retryLoop_success m rp f sr hsr fuel c r err w w1 w2 evs1 evs2 hc h1 h2 hf]
              exact hsucc sr c r err w w1 evs1 w2 evs2 hsr hc h1 h2 hf
            | some e =>
              rw [retryLoop_again m rp f sr hsr fuel c r err w w1 w2 evs1 evs2 e hc h1 h2 hf]
              exact hagain sr c r err w w1 evs1 w2 evs2 e _ hsr hc h1 h2 hf (ih _ _ _ _)

end LoopInduction

/-! ## Lemmas: strategies whose hooks are set or not set -/

section HooksSetLemmas

variable {σ ρ ε : Type}

theorem view_ofHooks_shouldRetry (m : Mem σ ε) (rp : retryPolicy σ ε)
    (sr : ShouldRetryFn σ ε) (cb : Option (FailureFn σ ε)) (g : Option (WaitFn σ ε))
    (hv : m.view rp = Strategy.ofHooks sr cb g) : rp.shouldRetry = some sr :=
  congrArg Strategy.shouldRetry hv

/-- A hook `betweenFailures` that is set or not set does not fail: it leaves
its event when it is set. -/
theorem handleFailureCallback_ofHooks (m : Mem σ ε) (rp : retryPolicy σ ε)
    (sr : ShouldRetryFn σ ε) (cb : Option (FailureFn σ ε)) (g : Option (WaitFn σ ε))
    (hv : m.view rp = Strategy.ofHooks sr cb g) (c : Int) (err : GoError ε) (w : σ) :
    ∃ w1, handleFailureCallback (ρ := ρ) m rp c err w =
      .ok (w1, callbackEvents cb.isSome c err) := by
  have hb : deref m.failureFns rp.betweenFailures = hookTarget cb :=
    congrArg Strategy.betweenFailures hv
  cases cb with
  | none => exact ⟨w, by simp [handleFailureCallback, hb, hookTarget, callbackEvents]⟩
  | some fn =>
    exact ⟨fn c err w, by simp [handleFailureCallback, hb, hookTarget, callbackEvents]⟩

/-- A hook `waitDurationGenerator` that is set or not set does not fail: when
it is set it leaves the duration it computes and the sleep of that duration. -/
theorem handleWait_ofHooks (m : Mem σ ε) (rp : retryPolicy σ ε)
    (sr : ShouldRetryFn σ ε) (cb : Option (FailureFn σ ε)) (g : Option (WaitFn σ ε))
    (hv : m.view rp = Strategy.ofHooks sr cb g) (c : Int) (err : GoError ε) (w : σ) :
    ∃ w2 d, handleWait (ρ := ρ) m rp c err w = .ok (w2, waitEvents g.isSome c err d) ∧
      ∀ gn, g = some gn → d = (gn c err w).1 := by
  have hg : deref m.waitFns rp.waitDurationGenerator = hookTarget g :=
    congrArg Strategy.waitDurationGenerator hv
  cases g with
  | none =>
    exact ⟨w, 0, by simp [handleWait, hg, hookTarget, waitEvents], by intro gn h; cases h⟩
  | some gn =>
    refine ⟨(gn c err w).2, (gn c err w).1, by simp [handleWait, hg, hookTarget, waitEvents],
      ?_⟩
    intro gn' h
    cases h
    rfl

@[simp] theorem calls_callbackEvents (b : Bool) (k : Int) (err : GoError ε) :
    calls (callbackEvents (ρ := ρ) b k err) = [] := by
  cases b <;> rfl

@[simp] theorem calls_waitEvents (b : Bool) (k : Int) (err : GoError ε) (d : Int) :
    calls (waitEvents (ρ := ρ) b k err d) = [] := by
  cases b <;> rfl

@[simp] theorem decisions_callbackEvents (b : Bool) (k : Int) (err : GoError ε) :
    decisions (callbackEvents (ρ := ρ) b k err) = [] := by
  cases b <;> rfl

@[simp] theorem decisions_waitEvents (b : Bool) (k : Int) (err : GoError ε) (d : Int) :
    decisions (waitEvents (ρ := ρ) b k err d) = [] := by
  cases b <;> rfl

@[simp] theorem notifications_callbackEvents (b : Bool) (k : Int) (err : GoError ε) :
    notifications (callbackEvents (ρ := ρ) b k err) = if b then [(k, err)] else [] := by
  cases b <;> rfl

@[simp] theorem notifications_waitEvents (b : Bool) (k : Int) (err : GoError ε) (d : Int) :
    notifications (waitEvents (ρ := ρ) b k err d) = [] := by
  cases b <;> rfl

@[simp] theorem waitComputations_callbackEvents (b : Bool) (k : Int) (err : GoError ε) :
    waitComputations (callbackEvents (ρ := ρ) b k err) = [] := by
  cases b <;> rfl

@[simp] theorem waitComputations_waitEvents (b : Bool) (k : Int) (err : GoError ε) (d : Int) :
    waitComputations (waitEvents (ρ := ρ) b k err d) = if b then [(k, err, d)] else [] := by
  cases b <;> rfl

@[simp] theorem sleeps_callbackEvents (b : Bool) (k : Int) (err : GoError ε) :
    sleeps (callbackEvents (ρ := ρ) b k err) = [] := by
  cases b <;> rfl

@[simp] theorem sleeps_waitEvents (b : Bool) (k : Int) (err : GoError ε) (d : Int) :
    sleeps (waitEvents (ρ := ρ) b k err d) = if b then [d] else [] := by
  cases b <;> rfl

/-- A predicate that is true of every `int`, hooks that are set or not set, an
operation that always fails: the loop uses up any fuel, one round per unit. -/
theorem retryLoop_never_stops (m : Mem σ ε) (rp : retryPolicy σ ε)
    (sr : ShouldRetryFn σ ε) (cb : Option (FailureFn σ ε)) (g : Option (WaitFn σ ε))
    (hv : m.view rp = Strategy.ofHooks sr cb g)
    (hpred : ∀ c err w, isInt64 c → (sr c err w).1 = true)
    (f : Operation σ ρ ε) (hfail : ∀ w, (f w).1.2 ≠ none) :
    ∀ (fuel : Nat) (c : Int) (r : ρ) (err : GoError ε) (w : σ), isInt64 c →
      (retryLoop m rp f fuel c r err w).outcome = .exhausted ∧
        (calls (retryLoop m rp f fuel c r err w).trace).length = fuel ∧
        (decisions (retryLoop m rp f fuel c r err w).trace).length = fuel ∧
        (notifications (retryLoop m rp f fuel c r err w).trace).length =
          (if cb.isSome then fuel else 0) ∧
        (sleeps (retryLoop m rp f fuel c r err w).trace).length =
          (if g.isSome then fuel else 0) := by
  have hsr := view_ofHooks_shouldRetry m rp sr cb g hv
  intro fuel
  induction fuel with
  | zero => intro c r err w _; simp [retryLoop]
  | succ fuel ih =>
    intro c r err w hc
    obtain ⟨w1, h1⟩ := handleFailureCallback_ofHooks (ρ := ρ) m rp sr cb g hv c err
      (sr c err w).2
    obtain ⟨w2, d, h2, -⟩ := handleWait_ofHooks (ρ := ρ) m rp sr cb g hv c err w1
    obtain ⟨e, he⟩ := Option.ne_none_iff_exists'.mp (hfail w2)
    rw [retryLoop_again m rp f sr hsr fuel c r err w w1 w2 _ _ e (hpred c err w hc) h1 h2 he]
    obtain ⟨ih1, ih2, ih3, ih4, ih5⟩ := ih (wrapInt64 (c + 1)) (f w2).1.1 (some e) (f w2).2
      (wrapInt64_isInt64 _)
    refine ⟨by simpa using ih1, by simp [ih2], by simp [ih3], ?_, ?_⟩
    · cases cb <;> simp [ih4]
    · cases g <;> simp [ih5]

/-- With hooks that are set or not set the trace of the loop is made of whole
rounds, and the loop ends in a `return` when it ends. -/
theorem retryLoop_rounds (m : Mem σ ε) (rp : retryPolicy σ ε)
    (sr : ShouldRetryFn σ ε) (cb : Option (FailureFn σ ε)) (g : Option (WaitFn σ ε))
    (hv : m.view rp = Strategy.ofHooks sr cb g) (f : Operation σ ρ ε) :
    ∀ (fuel : Nat) (c : Int) (r : ρ) (err : GoError ε) (w : σ),
      Rounds false cb.isSome g.isSome c err (retryLoop m rp f fuel c r err w).trace ∧
        ((retryLoop m rp f fuel c r err w).outcome = .exhausted ∨
          ∃ r' err', (retryLoop m rp f fuel c r err w).outcome = .returned r' err') := by
  have hsr := view_ofHooks_shouldRetry m rp sr cb g hv
  apply retryLoop_induct m rp f
    (fun c _ err _ run => Rounds false cb.isSome g.isSome c err run.trace ∧
      (run.outcome = .exhausted ∨ ∃ r' err', run.outcome = .returned r' err'))
  · intro c r err w
    exact ⟨.cut c err, Or.inl rfl⟩
  · intro h
    rw [hsr] at h
    cases h
  · intro sr' c r err w _ _
    exact ⟨.stop c err, Or.inr ⟨r, err, rfl⟩⟩
  · intro sr' c r err w o _ _ h
    obtain ⟨w1, h1⟩ := handleFailureCallback_ofHooks (ρ := ρ) m rp sr cb g hv c err
      (sr' c err w).2
    rw [h1] at h
    cases h
  · intro sr' c r err w w1 evs1 o _ _ _ h
    obtain ⟨w2, d, h2, -⟩ := handleWait_ofHooks (ρ := ρ) m rp sr cb g hv c err w1
    rw [h2] at h
    cases h
  · intro sr' c r err w w1 evs1 w2 evs2 _ _ h1 h2 _
    obtain ⟨w1', h1'⟩ := handleFailureCallback_ofHooks (ρ := ρ) m rp sr cb g hv c err
      (sr' c err w).2
    obtain ⟨w2', d, h2', -⟩ := handleWait_ofHooks (ρ := ρ) m rp sr cb g hv c err w1
    rw [h1'] at h1
    rw [h2'] at h2
    cases h1
    cases h2
    exact ⟨.round c err d _ none [] (fun _ => rfl) (.cut _ _), Or.inr ⟨_, _, rfl⟩⟩
  · intro sr' c r err w w1 evs1 w2 evs2 e run _ _ h1 h2 _ ih
    obtain ⟨w1', h1'⟩ := handleFailureCallback_ofHooks (ρ := ρ) m rp sr cb g hv c err
      (sr' c err w).2
    obtain ⟨w2', d, h2', -⟩ := handleWait_ofHooks (ρ := ρ) m rp sr cb g hv c err w1
    rw [h1'] at h1
    rw [h2'] at h2
    cases h1
    cases h2
    refine ⟨?_, by simpa using ih.2⟩
    have : Rounds false cb.isSome g.isSome c err _ :=
      Rounds.round c err d (f w2).1.1 (some e) run.trace (fun h => by cases h) ih.1
    simpa using this

/-- What the failure callback leaves in the trace when it does not fail. -/
theorem handleFailureCallback_shape (m : Mem σ ε) (rp : retryPolicy σ ε) (c : Int)
    (err : GoError ε) (w w1 : σ) (evs : List (Event ρ ε))
    (h : handleFailureCallback m rp c err w = .ok (w1, evs)) :
    evs = callbackEvents (m.callbackSet rp) c err := by
  unfold handleFailureCallback at h
  unfold Mem.callbackSet
  split at h <;> simp at h
  · rename_i hd
    simp [hd, callbackEvents, h.2]
  · rename_i fn hd
    simp [hd, callbackEvents, ← h.2]

/-- What the wait leaves in the trace when it does not fail. -/
theorem handleWait_shape (m : Mem σ ε) (rp : retryPolicy σ ε) (c : Int)
    (err : GoError ε) (w w1 : σ) (evs : List (Event ρ ε))
    (h : handleWait m rp c err w = .ok (w1, evs)) :
    ∃ d, evs = waitEvents (m.waitSet rp) c err d := by
  unfold handleWait at h
  unfold Mem.waitSet
  split at h <;> simp at h
  · rename_i hd
    exact ⟨0, by simp [hd, waitEvents, h.2]⟩
  · rename_i gn hd
    exact ⟨(gn c err w).1, by simp [hd, waitEvents, ← h.2]⟩

/-- The trace of the loop of any `retryPolicy` is made of rounds, the last of
which may be cut short by a panic. -/
theorem retryLoop_rounds_general (m : Mem σ ε) (rp : retryPolicy σ ε)
    (f : Operation σ ρ ε) :
    ∀ (fuel : Nat) (c : Int) (r : ρ) (err : GoError ε) (w : σ),
      Rounds true (m.callbackSet rp) (m.waitSet rp) c err
        (retryLoop m rp f fuel c r err w).trace := by
  apply retryLoop_induct m rp f
    (fun c _ err _ run => Rounds true (m.callbackSet rp) (m.waitSet rp) c err run.trace)
  · intro c r err w
    exact .cut c err
  · intro _ c r err w
    exact .cut c err
  · intro sr c r err w _ _
    exact .stop c err
  · intro sr c r err w o _ _ _
    exact .abort c err [] rfl (Or.inl rfl)
  · intro sr c r err w w1 evs1 o _ _ h1 _
    exact .abort c err evs1 rfl (Or.inr (handleFailureCallback_shape m rp c err _ w1 evs1 h1))
  · intro sr c r err w w1 evs1 w2 evs2 _ _ h1 h2 _
    obtain ⟨d, hd⟩ := handleWait_shape m rp c err w1 w2 evs2 h2
    rw [handleFailureCallback_shape m rp c err _ w1 evs1 h1, hd]
    exact .round c err d _ none [] (fun _ => rfl) (.cut _ _)
  · intro sr c r err w w1 evs1 w2 evs2 e run _ _ h1 h2 _ ih
    obtain ⟨d, hd⟩ := handleWait_shape m rp c err w1 w2 evs2 h2
    rw [handleFailureCallback_shape m rp c err _ w1 evs1 h1, hd]
    have : Rounds true (m.callbackSet rp) (m.waitSet rp) c err _ :=
      Rounds.round c err d (f w2).1.1 (some e) run.trace (fun h => by cases h) ih
    simpa using this

end HooksSetLemmas

/-! ## Lemmas: runs that end, runs that do not -/

section TerminationLemmas

variable {σ ρ ε : Type}

theorem countPredicate_maxInt64 (c : Int) (err : GoError ε) (w : σ) (hc : isInt64 c) :
    (countPredicate (σ := σ) (ε := ε) maxInt64 c err w).1 = true := by
  simp [countPredicate, hc.2]

/-- A policy whose predicate is true of every `int` and whose hooks are set or
not set, on an operation that always fails: `Execute` uses up any fuel. -/
theorem executeWith_never_stops (pm : Policy × Mem σ ε) (sr : ShouldRetryFn σ ε)
    (cb : Option (FailureFn σ ε)) (g : Option (WaitFn σ ε))
    (hs : pm.2.strategy pm.1 = .cell (Strategy.ofHooks sr cb g))
    (hpred : ∀ c err w, isInt64 c → (sr c err w).1 = true)
    (f : Operation σ ρ ε) (hfail : ∀ w, (f w).1.2 ≠ none) (fuel : Nat) (w : σ) :
    (executeWith pm f fuel w).outcome = .exhausted ∧
      (calls (executeWith pm f fuel w).trace).length = fuel + 1 ∧
      (decisions (executeWith pm f fuel w).trace).length = fuel ∧
      (notifications (executeWith pm f fuel w).trace).length =
        (if cb.isSome then fuel else 0) ∧
      (sleeps (executeWith pm f fuel w).trace).length = (if g.isSome then fuel else 0) := by
  obtain ⟨e, he⟩ := Option.ne_none_iff_exists'.mp (hfail w)
  obtain ⟨rp, hv, hrun⟩ := executeWith_of_strategy pm _ hs f fuel w e he
  obtain ⟨h1, h2, h3, h4, h5⟩ := retryLoop_never_stops pm.2 rp sr cb g hv hpred f hfail fuel 1
    (f w).1.1 (some e) (f w).2 (by decide)
  rw [hrun]
  exact ⟨h1, by simp [h2], by simpa using h3, by simpa using h4, by simpa using h5⟩

/-- The strategy of a configuration call whose function arguments are all
functions has its hooks set or not set, as the method says. -/
theorem ConfigCall.strategy_ofHooks (c : ConfigCall σ ε) (h : c.argsPresent) :
    ∃ sr cb g, c.strategy = Strategy.ofHooks sr cb g ∧
      cb.isSome = c.setsFailureCallback ∧ g.isSome = c.setsWait := by
  cases c with
  | RetryXTimes n => exact ⟨countPredicate n, none, none, rfl, rfl, rfl⟩
  | RetryXTimesWithFailureCallback n cb =>
    obtain ⟨fn, rfl⟩ := Option.isSome_iff_exists.mp h
    exact ⟨countPredicate n, some fn, none, rfl, rfl, rfl⟩
  | RetryOnCallback pred =>
    obtain ⟨p, rfl⟩ := Option.isSome_iff_exists.mp h
    exact ⟨p, none, none, rfl, rfl, rfl⟩
  | RetryOnCallbackWithFailureCallback pred cb =>
    obtain ⟨p, rfl⟩ := Option.isSome_iff_exists.mp h.1
    obtain ⟨fn, rfl⟩ := Option.isSome_iff_exists.mp h.2
    exact ⟨p, some fn, none, rfl, rfl, rfl⟩
  | WaitRetryXTimes n d => exact ⟨countPredicate n, none, some (fixedWait d), rfl, rfl, rfl⟩
  | WaitRetryXTimesWithFailureCallback n d cb =>
    obtain ⟨fn, rfl⟩ := Option.isSome_iff_exists.mp h
    exact ⟨countPredicate n, some fn, some (fixedWait d), rfl, rfl, rfl⟩
  | WaitRetryOnCallback d pred =>
    obtain ⟨p, rfl⟩ := Option.isSome_iff_exists.mp h
    exact ⟨p, none, some (fixedWait d), rfl, rfl, rfl⟩
  | WaitRetryOnCallbackWithFailureCallback d pred cb =>
    obtain ⟨p, rfl⟩ := Option.isSome_iff_exists.mp h.1
    obtain ⟨fn, rfl⟩ := Option.isSome_iff_exists.mp h.2
    exact ⟨p, some fn, some (fixedWait d), rfl, rfl, rfl⟩
  | ComplexWaitRetryXTimes n g =>
    obtain ⟨gn, rfl⟩ := Option.isSome_iff_exists.mp h
    exact ⟨countPredicate n, none, some gn, rfl, rfl, rfl⟩
  | ComplexWaitRetryXTimesWithFailureCallback n g cb =>
    obtain ⟨gn, rfl⟩ := Option.isSome_iff_exists.mp h.1
    obtain ⟨fn, rfl⟩ := Option.isSome_iff_exists.mp h.2
    exact ⟨countPredicate n, some fn, some gn, rfl, rfl, rfl⟩
  | ComplexWaitRetryOnCallback g pred =>
    obtain ⟨gn, rfl⟩ := Option.isSome_iff_exists.mp h.1
    obtain ⟨p, rfl⟩ := Option.isSome_iff_exists.mp h.2
    exact ⟨p, none, some gn, rfl, rfl, rfl⟩
  | ComplexWaitRetryOnCallbackWithFailureCallback g pred cb =>
    obtain ⟨gn, rfl⟩ := Option.isSome_iff_exists.mp h.1
    obtain ⟨p, rfl⟩ := Option.isSome_iff_exists.mp h.2.1
    obtain ⟨fn, rfl⟩ := Option.isSome_iff_exists.mp h.2.2
    exact ⟨p, some fn, some gn, rfl, rfl, rfl⟩

end TerminationLemmas

/-! ## Lemmas: what the shape of a trace says -/

section RoundsLemmas

variable {ρ ε : Type}

@[simp] theorem retryDecisions_nil : retryDecisions ([] : List (Event ρ ε)) = [] := rfl

@[simp] theorem retryDecisions_called (r : ρ) (err : GoError ε) (t : List (Event ρ ε)) :
    retryDecisions (.called r err :: t) = retryDecisions t := rfl

@[simp] theorem retryDecisions_decided_true (k : Int) (err : GoError ε)
    (t : List (Event ρ ε)) :
    retryDecisions (.decided k err true :: t) = (k, err) :: retryDecisions t := rfl

@[simp] theorem retryDecisions_decided_false (k : Int) (err : GoError ε)
    (t : List (Event ρ ε)) :
    retryDecisions (.decided k err false :: t) = retryDecisions t := rfl

@[simp] theorem retryDecisions_notified (k : Int) (err : GoError ε) (t : List (Event ρ ε)) :
    retryDecisions (.notified k err :: t) = retryDecisions t := rfl

@[simp] theorem retryDecisions_computedWait (k : Int) (err : GoError ε) (d : Int)
    (t : List (Event ρ ε)) : retryDecisions (.computedWait k err d :: t) = retryDecisions t :=
  rfl

@[simp] theorem retryDecisions_slept (d : Int) (t : List (Event ρ ε)) :
    retryDecisions (.slept d :: t) = retryDecisions t := rfl

@[simp] theorem retryDecisions_append (a b : List (Event ρ ε)) :
    retryDecisions (a ++ b) = retryDecisions a ++ retryDecisions b := by
  induction a with
  | nil => rfl
  | cons x t ih =>
    cases x with
    | decided k err ans => cases ans <;> simp [ih]
    | _ => simp [ih]

@[simp] theorem retryDecisions_callbackEvents (b : Bool) (k : Int) (err : GoError ε) :
    retryDecisions (callbackEvents (ρ := ρ) b k err) = [] := by
  cases b <;> rfl

@[simp] theorem retryDecisions_waitEvents (b : Bool) (k : Int) (err : GoError ε) (d : Int) :
    retryDecisions (waitEvents (ρ := ρ) b k err d) = [] := by
  cases b <;> rfl

variable {mayAbort hasCallback hasWait : Bool}

/-- A callback that is not set leaves no event. -/
theorem Rounds.notifications_of_not_set {k : Int} {err : GoError ε} {T : List (Event ρ ε)}
    (h : Rounds mayAbort false hasWait k err T) : notifications T = [] := by
  induction h with
  | cut => rfl
  | stop => rfl
  | abort k err evs _ hevs => rcases hevs with rfl | rfl <;> simp
  | round k err d r err' rest _ _ ih => simp [ih]

/-- A wait that is not set leaves no event. -/
theorem Rounds.waits_of_not_set {k : Int} {err : GoError ε} {T : List (Event ρ ε)}
    (h : Rounds mayAbort hasCallback false k err T) :
    waitComputations T = [] ∧ sleeps T = [] := by
  induction h with
  | cut => exact ⟨rfl, rfl⟩
  | stop => exact ⟨rfl, rfl⟩
  | abort k err evs _ hevs => rcases hevs with rfl | rfl <;> simp
  | round k err d r err' rest _ _ ih => simp [ih]

/-- Every sleep is of the duration just computed. -/
theorem Rounds.sleeps_eq {k : Int} {err : GoError ε} {T : List (Event ρ ε)}
    (h : Rounds mayAbort hasCallback hasWait k err T) :
    sleeps T = (waitComputations T).map (fun x => x.2.2) := by
  induction h with
  | cut => rfl
  | stop => rfl
  | abort k err evs _ hevs => rcases hevs with rfl | rfl <;> simp
  | round k err d r err' rest _ _ ih => cases hasWait <;> simp [ih]

/-- The `i`-th loop test, counted from 0, is on the attempt number `k + i`,
wrapped, and on the error of the `i`-th invocation, counted from the one
before the loop. -/
theorem Rounds.decisions_aligned {k : Int} {err : GoError ε} {T : List (Event ρ ε)}
    (h : Rounds mayAbort hasCallback hasWait k err T) (hk : isInt64 k) :
    ∀ (i : Nat) (k' : Int) (e : GoError ε) (b : Bool),
      (decisions T)[i]? = some (k', e, b) →
      k' = wrapInt64 (k + i) ∧ (err :: (calls T).map Prod.snd)[i]? = some e := by
  induction h with
  | cut => intro i k' e b hi; simp at hi
  | stop k err =>
    intro i k' e b hi
    cases i with
    | zero =>
      simp at hi
      simp [← hi.1, ← hi.2.1, wrapInt64_eq_self hk.1 hk.2]
    | succ i => simp at hi
  | abort k err evs _ hevs =>
    intro i k' e b hi
    have hd : decisions (Event.decided k err true :: evs) = [(k, err, true)] := by
      rcases hevs with rfl | rfl <;> simp
    rw [hd] at hi
    cases i with
    | zero =>
      simp at hi
      simp [← hi.1, ← hi.2.1, wrapInt64_eq_self hk.1 hk.2]
    | succ i => simp at hi
  | round k err d r err' rest _ _ ih =>
    intro i k' e b hi
    cases i with
    | zero =>
      simp at hi
      simp [← hi.1, ← hi.2.1, wrapInt64_eq_self hk.1 hk.2]
    | succ i =>
      simp at hi
      obtain ⟨h1, h2⟩ := ih (wrapInt64_isInt64 _) i k' e b hi
      refine ⟨?_, by simpa using h2⟩
      rw [h1, wrapInt64_add_wrapInt64]
      congr 1
      push_cast
      ring

/-- The loop tests that are true are the first loop tests. -/
theorem Rounds.retryDecisions_aligned {k : Int} {err : GoError ε} {T : List (Event ρ ε)}
    (h : Rounds mayAbort hasCallback hasWait k err T) :
    ∀ (i : Nat) (x : Int × GoError ε),
      (retryDecisions T)[i]? = some x → (decisions T)[i]? = some (x.1, x.2, true) := by
  induction h with
  | cut => intro i x hi; simp at hi
  | stop k err => intro i x hi; simp at hi
  | abort k err evs _ hevs =>
    intro i x hi
    have hd : decisions (Event.decided k err true :: evs) = [(k, err, true)] := by
      rcases hevs with rfl | rfl <;> simp
    have hr : retryDecisions (Event.decided k err true :: evs) = [(k, err)] := by
      rcases hevs with rfl | rfl <;> simp
    rw [hr] at hi
    rw [hd]
    cases i with
    | zero => simp at hi; simp [← hi]
    | succ i => simp at hi
  | round k err d r err' rest _ _ ih =>
    intro i x hi
    cases i with
    | zero => simp at hi; simp [← hi]
    | succ i =>
      simp at hi
      simpa using ih i x hi

/-- The `i`-th invocation of the failure callback has the arguments of the
`i`-th loop test that is true. -/
theorem Rounds.notifications_aligned {k : Int} {err : GoError ε} {T : List (Event ρ ε)}
    (h : Rounds mayAbort hasCallback hasWait k err T) :
    ∀ (i : Nat) (x : Int × GoError ε),
      (notifications T)[i]? = some x → (retryDecisions T)[i]? = some x := by
  cases hasCallback with
  | false => intro i x hi; simp [h.notifications_of_not_set] at hi
  | true =>
    induction h with
    | cut => intro i x hi; simp at hi
    | stop k err => intro i x hi; simp at hi
    | abort k err evs _ hevs =>
      intro i x hi
      rcases hevs with rfl | rfl
      · simp at hi
      · cases i with
        | zero => simpa [callbackEvents] using hi
        | succ i => simp [callbackEvents] at hi
    | round k err d r err' rest _ _ ih =>
      intro i x hi
      cases i with
      | zero => simpa using hi
      | succ i =>
        simp at hi
        simpa using ih i x hi

/-- The `i`-th invocation of the wait function has the arguments of the `i`-th
loop test that is true, and the `i`-th sleep has the duration it returned. -/
theorem Rounds.waitComputations_aligned {k : Int} {err : GoError ε} {T : List (Event ρ ε)}
    (h : Rounds mayAbort hasCallback hasWait k err T) :
    ∀ (i : Nat) (x : Int × GoError ε × Int),
      (waitComputations T)[i]? = some x →
      (retryDecisions T)[i]? = some (x.1, x.2.1) ∧ (sleeps T)[i]? = some x.2.2 := by
  cases hasWait with
  | false => intro i x hi; simp [h.waits_of_not_set.1] at hi
  | true =>
    induction h with
    | cut => intro i x hi; simp at hi
    | stop k err => intro i x hi; simp at hi
    | abort k err evs _ hevs =>
      intro i x hi
      rcases hevs with rfl | rfl <;> simp at hi
    | round k err d r err' rest _ _ ih =>
      intro i x hi
      cases i with
      | zero =>
        simp at hi
        simp [← hi]
      | succ i =>
        simp at hi
        simpa using ih i x hi

/-- Without a panic every round is whole: as many invocations of the operation
in the loop as loop tests that are true, and each hook that is set is invoked
on each of them. -/
theorem Rounds.counts {k : Int} {err : GoError ε} {T : List (Event ρ ε)}
    (h : Rounds false hasCallback hasWait k err T) :
    (calls T).length = (retryDecisions T).length ∧
      (hasCallback = true → notifications T = retryDecisions T) ∧
      (hasWait = true →
        (waitComputations T).map (fun x => (x.1, x.2.1)) = retryDecisions T) := by
  induction h with
  | cut => simp
  | stop => simp
  | abort k err evs hmay _ => cases hmay
  | round k err d r err' rest _ _ ih =>
    obtain ⟨ih1, ih2, ih3⟩ := ih
    refine ⟨by simp [ih1], ?_, ?_⟩
    · intro hc
      simp [hc, ih2 hc]
    · intro hw
      simp [hw, ih3 hw]

end RoundsLemmas

/-! ## Lemmas: the shape of the trace of `Execute` -/

section ExecuteShapeLemmas

variable {σ ρ ε : Type}

/-- The trace of `Execute` under a policy with a retry strategy: the first
invocation, then the rounds of the loop from the attempt number 1. -/
theorem executeWith_rounds_general (pm : Policy × Mem σ ε) (rp : retryPolicy σ ε)
    (hrp : deref pm.2.policies pm.1.retry = .cell rp) (f : Operation σ ρ ε) (fuel : Nat)
    (w : σ) :
    ∃ T, (executeWith pm f fuel w).trace = .called (f w).1.1 (f w).1.2 :: T ∧
      Rounds true (pm.2.callbackSet rp) (pm.2.waitSet rp) 1 (f w).1.2 T ∧
      ((f w).1.2 = none → T = []) := by
  cases hf : (f w).1.2 with
  | none =>
    have hrun : executeWith pm f fuel w = _ := Execute_early_out _ _ f fuel w hf
    exact ⟨[], by rw [hrun], .cut _ _, fun _ => rfl⟩
  | some e =>
    have hrun : executeWith pm f fuel w = _ := Execute_retry _ _ f fuel w e hf rp hrp
    exact ⟨_, by rw [hrun]; rfl, retryLoop_rounds_general pm.2 rp f fuel 1 _ _ _,
      fun h => by cases h⟩

/-- The same when the hooks are set or not set: every round is whole, and the
run ends in a `return` when it ends. -/
theorem executeWith_rounds (pm : Policy × Mem σ ε) (sr : ShouldRetryFn σ ε)
    (cb : Option (FailureFn σ ε)) (g : Option (WaitFn σ ε))
    (hs : pm.2.strategy pm.1 = .cell (Strategy.ofHooks sr cb g)) (f : Operation σ ρ ε)
    (fuel : Nat) (w : σ) :
    (∃ T, (executeWith pm f fuel w).trace = .called (f w).1.1 (f w).1.2 :: T ∧
      Rounds false cb.isSome g.isSome 1 (f w).1.2 T) ∧
      ((executeWith pm f fuel w).outcome = .exhausted ∨
        ∃ r err, (executeWith pm f fuel w).outcome = .returned r err) := by
  cases hf : (f w).1.2 with
  | none =>
    have hrun : executeWith pm f fuel w = _ := Execute_early_out _ _ f fuel w hf
    exact ⟨⟨[], by rw [hrun], .cut _ _⟩, Or.inr ⟨_, _, by rw [hrun]⟩⟩
  | some e =>
    obtain ⟨rp, hv, hrun⟩ := executeWith_of_strategy pm _ hs f fuel w e hf
    obtain ⟨h1, h2⟩ := retryLoop_rounds pm.2 rp sr cb g hv f fuel 1 (f w).1.1 (some e) (f w).2
    exact ⟨⟨_, by rw [hrun]; rfl, h1⟩, by rw [hrun]; simpa using h2⟩

theorem retryDecisions_eq_filter (T : List (Event ρ ε)) :
    retryDecisions T =
      ((decisions T).filter (fun x => x.2.2)).map (fun x => (x.1, x.2.1)) := by
  induction T with
  | nil => rfl
  | cons x t ih =>
    cases x with
    | decided k err ans => cases ans <;> simp [ih]
    | _ => simp [ih]

/-- In a trace of whole rounds with both hooks set, a callback event stands
between the loop test that is true and the wait of its round, and the
invocation of the operation follows; a loop test that is false is the last
event. -/
theorem Rounds.order {k : Int} {err : GoError ε} {T : List (Event ρ ε)}
    (h : Rounds false true true k err T) :
    (∀ pre post k' e, T = pre ++ .notified k' e :: post →
      ∃ pre' d r e' post', pre = pre' ++ [.decided k' e true] ∧
        post = .computedWait k' e d :: .slept d :: .called r e' :: post') ∧
      (∀ pre post k' e, T = pre ++ .decided k' e false :: post → post = []) := by
  induction h with
  | cut =>
    constructor
    · intro pre post k' e h; simp at h
    · intro pre post k' e h; simp at h
  | stop k err =>
    constructor
    · intro pre post k' e h
      rcases pre with _ | ⟨x, pre⟩ <;> simp at h
    · intro pre post k' e h
      rcases pre with _ | ⟨x, pre⟩ <;> simp at h
      exact h.2
  | abort k err evs hmay _ => cases hmay
  | round k err d r err' rest _ _ ih =>
    constructor
    · intro pre post k' e h
      simp only [callbackEvents, waitEvents, if_true, List.cons_append, List.nil_append] at h
      rcases pre with _ | ⟨x1, _ | ⟨x2, _ | ⟨x3, _ | ⟨x4, _ | ⟨x5, pre⟩⟩⟩⟩⟩ <;> simp at h
      · obtain ⟨rfl, ⟨rfl, rfl⟩, rfl⟩ := h
        exact ⟨[], d, r, err', rest, rfl, rfl⟩
      · obtain ⟨rfl, rfl, rfl, rfl, rfl, hrest⟩ := h
        obtain ⟨pre', d', r', e', post', hp, hq⟩ := ih.1 pre post k' e hrest
        exact ⟨.decided k err true :: .notified k err :: .computedWait k err d :: .slept d ::
          .called r err' :: pre', d', r', e', post', by simp [hp], hq⟩
    · intro pre post k' e h
      simp only [callbackEvents, waitEvents, if_true, List.cons_append, List.nil_append] at h
      rcases pre with _ | ⟨x1, _ | ⟨x2, _ | ⟨x3, _ | ⟨x4, _ | ⟨x5, pre⟩⟩⟩⟩⟩ <;> simp at h
      obtain ⟨rfl, rfl, rfl, rfl, rfl, hrest⟩ := h
      exact ih.2 pre post k' e hrest

end ExecuteShapeLemmas

/-! ## Lemmas: the arguments of the loop tests -/

section DecisionLemmas

variable {σ ρ ε : Type}

@[simp] theorem failures_nil : failures ([] : List (ρ × GoError ε)) = [] := rfl

@[simp] theorem failures_cons_some (r : ρ) (e : ε) (cs : List (ρ × GoError ε)) :
    failures ((r, some e) :: cs) = (r, some e) :: failures cs := by
  simp [failures]

@[simp] theorem failures_cons_none (r : ρ) (cs : List (ρ × GoError ε)) :
    failures ((r, none) :: cs) = failures cs := by
  simp [failures]

/-- A loop test is made only on the error of an invocation that failed. -/
theorem Rounds.decisions_errors {mayAbort hasCallback hasWait : Bool} {k : Int}
    {err : GoError ε} {T : List (Event ρ ε)}
    (h : Rounds mayAbort hasCallback hasWait k err T) (herr : err ≠ none) :
    ∀ x ∈ decisions T, x.2.1 ≠ none := by
  induction h with
  | cut => intro x hx; simp at hx
  | stop k err => intro x hx; simp at hx; rw [hx]; exact herr
  | abort k err evs _ hevs =>
    intro x hx
    have hd : decisions (Event.decided k err true :: evs) = [(k, err, true)] := by
      rcases hevs with rfl | rfl <;> simp
    rw [hd] at hx
    simp at hx
    rw [hx]; exact herr
  | round k err d r err' rest hlast _ ih =>
    intro x hx
    simp at hx
    rcases hx with hx | hx
    · rw [hx]; exact herr
    · cases herr' : err' with
      | none =>
        rw [hlast herr'] at hx
        simp at hx
      | some e =>
        exact ih (by rw [herr']; simp) x hx

/-- The loop tests of a run of `Execute` under a policy with a retry strategy:
the `i`-th, counted from 0, is on the attempt number `i + 1`, wrapped to 64
bits, and on the error of the `i`-th invocation, which failed. -/
theorem executeWith_decisions_aligned (pm : Policy × Mem σ ε) (rp : retryPolicy σ ε)
    (hrp : deref pm.2.policies pm.1.retry = .cell rp) (f : Operation σ ρ ε) (fuel : Nat)
    (w : σ) (i : Nat) (k : Int) (e : GoError ε) (b : Bool)
    (hi : (decisions (executeWith pm f fuel w).trace)[i]? = some (k, e, b)) :
    k = wrapInt64 (i + 1) ∧ e ≠ none ∧
      ∃ r, (calls (executeWith pm f fuel w).trace)[i]? = some (r, e) := by
  obtain ⟨T, hT, hR, hnone⟩ := executeWith_rounds_general pm rp hrp f fuel w
  rw [hT] at hi ⊢
  simp only [decisions_called] at hi
  have herr : (f w).1.2 ≠ none := by
    intro h
    rw [hnone h] at hi
    simp at hi
  obtain ⟨h1, h2⟩ := hR.decisions_aligned (by decide) i k e b hi
  refine ⟨by rw [h1, add_comm], ?_, ?_⟩
  · exact hR.decisions_errors herr (k, e, b) (List.getElem?_mem hi)
  · simp only [calls_called]
    have h3 : (((f w).1.1, (f w).1.2) :: calls T)[i]? ≠ none := by
      intro hn
      have hlen := List.getElem?_eq_none_iff.mp hn
      have : ((f w).1.2 :: (calls T).map Prod.snd)[i]? = none :=
        List.getElem?_eq_none_iff.mpr (by simpa using hlen)
      rw [this] at h2
      cases h2
    obtain ⟨⟨r, e'⟩, hre⟩ := Option.ne_none_iff_exists'.mp h3
    refine ⟨r, ?_⟩
    have h4 : ((((f w).1.1, (f w).1.2) :: calls T).map Prod.snd)[i]? = some e' := by
      rw [List.getElem?_map, hre]; rfl
    simp only [List.map_cons] at h4
    rw [h2] at h4
    cases h4
    exact hre

/-- The hooks of a round are invoked on the arguments of its loop test. -/
theorem executeWith_hooks_aligned (pm : Policy × Mem σ ε) (rp : retryPolicy σ ε)
    (hrp : deref pm.2.policies pm.1.retry = .cell rp) (f : Operation σ ρ ε) (fuel : Nat)
    (w : σ) :
    (∀ (i : Nat) (x : Int × GoError ε),
        (notifications (executeWith pm f fuel w).trace)[i]? = some x →
        (decisions (executeWith pm f fuel w).trace)[i]? = some (x.1, x.2, true)) ∧
      (∀ (i : Nat) (x : Int × GoError ε × Int),
        (waitComputations (executeWith pm f fuel w).trace)[i]? = some x →
        (decisions (executeWith pm f fuel w).trace)[i]? = some (x.1, x.2.1, true) ∧
          (sleeps (executeWith pm f fuel w).trace)[i]? = some x.2.2) := by
  obtain ⟨T, hT, hR, -⟩ := executeWith_rounds_general pm rp hrp f fuel w
  rw [hT]
  constructor
  · intro i x hi
    simp only [notifications_called] at hi
    simpa using hR.retryDecisions_aligned i x (hR.notifications_aligned i x hi)
  · intro i x hi
    simp only [waitComputations_called] at hi
    obtain ⟨h1, h2⟩ := hR.waitComputations_aligned i x hi
    exact ⟨by simpa using hR.retryDecisions_aligned i _ h1, by simpa using h2⟩

end DecisionLemmas

/-! ## Lemmas: a retry-count strategy with a fixed wait -/

section FixedWaitLemmas

variable {σ ρ ε : Type}

theorem flatMap_range_succ {α : Type} (g : Nat → List α) (j : Nat) :
    (List.range (j + 1)).flatMap g = g 0 ++ (List.range j).flatMap (fun i => g (i + 1)) := by
  rw [List.range_succ_eq_map, List.flatMap_cons, List.flatMap_map]

/-- The loop of `WaitRetryXTimes(N, d)` entered with `j` retries left, after
the invocation made in the world `w0`, on an operation that always fails. -/
theorem retryLoop_wait_count_failing (m : Mem σ ε) (rp : retryPolicy σ ε) (N d : Int)
    (hv : m.view rp = Strategy.ofHooks (countPredicate N) none (some (fixedWait d)))
    (f : Operation σ ρ ε) (hfail : ∀ w, (f w).1.2 ≠ none) (hN : N < maxInt64) :
    ∀ (j : Nat) (c : Int) (w0 : σ) (fuel : Nat),
      0 ≤ c → c + j = N + 1 → j + 1 ≤ fuel →
      (retryLoop m rp f fuel c (f w0).1.1 (f w0).1.2 (f w0).2).trace =
          (List.range j).flatMap (fun i =>
            [.decided (c + (i : Nat)) (f (worldAfterCalls f i w0)).1.2 true,
              .computedWait (c + (i : Nat)) (f (worldAfterCalls f i w0)).1.2 d,
              .slept d,
              .called (f (worldAfterCalls f (i + 1) w0)).1.1
                (f (worldAfterCalls f (i + 1) w0)).1.2]) ++
            [.decided (c + (j : Nat)) (f (worldAfterCalls f j w0)).1.2 false] ∧
        sleeps (retryLoop m rp f fuel c (f w0).1.1 (f w0).1.2 (f w0).2).trace =
          List.replicate j d ∧
        (retryLoop m rp f fuel c (f w0).1.1 (f w0).1.2 (f w0).2).outcome =
          .returned (f (worldAfterCalls f j w0)).1.1 (f (worldAfterCalls f j w0)).1.2 := by
  have hsr : rp.shouldRetry = some (countPredicate N) := congrArg Strategy.shouldRetry hv
  have hb : deref m.failureFns rp.betweenFailures = .nil :=
    congrArg Strategy.betweenFailures hv
  have hg : deref m.waitFns rp.waitDurationGenerator = .cell (some (fixedWait d)) :=
    congrArg Strategy.waitDurationGenerator hv
  intro j
  induction j with
  | zero =>
    intro c w0 fuel _ hcj hfuel
    obtain ⟨fuel, rfl⟩ : ∃ k, fuel = k + 1 := ⟨fuel - 1, by omega⟩
    have hc : (countPredicate (σ := σ) (ε := ε) N c (f w0).1.2 (f w0).2).1 = false := by
      simp [countPredicate]; omega
    rw [retryLoop_stop m rp f _ hsr fuel c _ _ _ hc]
    simp [worldAfterCalls]
  | succ j ih =>
    intro c w0 fuel hc0 hcj hfuel
    obtain ⟨fuel, rfl⟩ : ∃ k, fuel = k + 1 := ⟨fuel - 1, by omega⟩
    have hc : (countPredicate (σ := σ) (ε := ε) N c (f w0).1.2 (f w0).2).1 = true := by
      simp [countPredicate]; omega
    have h1 : handleFailureCallback (ρ := ρ) m rp c (f w0).1.2
        (countPredicate (σ := σ) (ε := ε) N c (f w0).1.2 (f w0).2).2 =
        .ok ((f w0).2, []) := by
      simp [handleFailureCallback, hb, countPredicate]
    have h2 : handleWait (ρ := ρ) m rp c (f w0).1.2 (f w0).2 =
        .ok ((f w0).2, [.computedWait c (f w0).1.2 d, .slept d]) := by
      simp [handleWait, hg, fixedWait]
    obtain ⟨e, he⟩ := Option.ne_none_iff_exists'.mp (hfail (f w0).2)
    rw [retryLoop_again m rp f _ hsr fuel c _ _ _ _ _ _ _ e hc h1 h2 he]
    have hwrap : wrapInt64 (c + 1) = c + 1 := by
      apply wrapInt64_eq_self
      · unfold minInt64; omega
      · push_cast at hcj; omega
    rw [hwrap, ← he]
    obtain ⟨ih1, ih2, ih3⟩ := ih (c + 1) (f w0).2 fuel (by omega)
      (by push_cast at hcj ⊢; omega) (by omega)
    refine ⟨?_, ?_, ?_⟩
    · rw [Run.after_trace, ih1, flatMap_range_succ]
      simp only [worldAfterCalls, Nat.cast_zero, add_zero, Nat.cast_add, Nat.cast_one,
        List.nil_append, List.cons_append, List.append_assoc, List.singleton_append]
      have hshift : ∀ i : Nat, c + 1 + (i : Int) = c + ((i : Int) + 1) := by
        intro i; ring
      simp only [hshift]
    · simp [ih2, List.replicate_succ]
    · simpa [worldAfterCalls] using ih3

end FixedWaitLemmas

/-! ## Lemmas: the durations slept -/

section SleepLemmas

variable {σ ρ ε : Type}

/-- Every duration in the trace of the loop is a result of the wait function,
on the arguments recorded with it. -/
theorem retryLoop_waitComputations_genuine (m : Mem σ ε) (rp : retryPolicy σ ε)
    (gn : WaitFn σ ε)
    (hg : deref m.waitFns rp.waitDurationGenerator = .cell (some gn))
    (f : Operation σ ρ ε) :
    ∀ (fuel : Nat) (c : Int) (r : ρ) (err : GoError ε) (w : σ),
      ∀ x ∈ waitComputations (retryLoop m rp f fuel c r err w).trace,
        ∃ w', x.2.2 = (gn x.1 x.2.1 w').1 := by
  have hw2 : ∀ (c : Int) (err : GoError ε) (w1 w2 : σ) (evs2 : List (Event ρ ε)),
      handleWait m rp c err w1 = .ok (w2, evs2) →
      evs2 = [.computedWait c err (gn c err w1).1, .slept (gn c err w1).1] := by
    intro c err w1 w2 evs2 h
    simp [handleWait, hg] at h
    exact h.2.symm
  apply retryLoop_induct m rp f
    (fun _ _ _ _ run => ∀ x ∈ waitComputations run.trace, ∃ w', x.2.2 = (gn x.1 x.2.1 w').1)
  · intro c r err w x hx; simp at hx
  · intro _ c r err w x hx; simp at hx
  · intro sr c r err w _ _ x hx; simp at hx
  · intro sr c r err w o _ _ _ x hx; simp at hx
  · intro sr c r err w w1 evs1 o _ _ h1 _ x hx
    rw [handleFailureCallback_shape m rp c err _ w1 evs1 h1] at hx
    simp at hx
  · intro sr c r err w w1 evs1 w2 evs2 _ _ h1 h2 _ x hx
    rw [handleFailureCallback_shape m rp c err _ w1 evs1 h1, hw2 c err w1 w2 evs2 h2] at hx
    simp at hx
    exact ⟨w1, by rw [hx]⟩
  · intro sr c r err w w1 evs1 w2 evs2 e run _ _ h1 h2 _ ih x hx
    rw [handleFailureCallback_shape m rp c err _ w1 evs1 h1, hw2 c err w1 w2 evs2 h2] at hx
    simp at hx
    rcases hx with hx | hx
    · exact ⟨w1, by rw [hx]⟩
    · exact ih x hx

/-- Under a policy with the wait function `gn`, the `i`-th sleep, counted from
0, is of the duration `gn` returns for the attempt number `i + 1`, wrapped, and
the error of the `i`-th invocation of the operation, which failed. -/
theorem executeWith_sleeps (pm : Policy × Mem σ ε) (sr : ShouldRetryFn σ ε)
    (cb : Option (FailureFn σ ε)) (gn : WaitFn σ ε)
    (hs : pm.2.strategy pm.1 = .cell (Strategy.ofHooks sr cb (some gn)))
    (f : Operation σ ρ ε) (fuel : Nat) (w : σ) (i : Nat) (dd : Int)
    (hi : (sleeps (executeWith pm f fuel w).trace)[i]? = some dd) :
    ∃ r e w', (calls (executeWith pm f fuel w).trace)[i]? = some (r, e) ∧ e ≠ none ∧
      dd = (gn (wrapInt64 (i + 1)) e w').1 := by
  obtain ⟨rp, hrp, hv⟩ := Execute_of_strategy (BuildExecutor pm.1) pm.2 _ hs
  have hg : deref pm.2.waitFns rp.waitDurationGenerator = .cell (some gn) :=
    congrArg Strategy.waitDurationGenerator hv
  obtain ⟨T, hT, hR, hnone⟩ := executeWith_rounds_general pm rp hrp f fuel w
  have hsl : sleeps (executeWith pm f fuel w).trace =
      (waitComputations (executeWith pm f fuel w).trace).map (fun x => x.2.2) := by
    rw [hT]
    simpa using hR.sleeps_eq
  rw [hsl, List.getElem?_map] at hi
  cases hx : (waitComputations (executeWith pm f fuel w).trace)[i]? with
  | none => rw [hx] at hi; cases hi
  | some x =>
    rw [hx] at hi
    obtain ⟨k, e, d⟩ := x
    have hd : d = dd := by simpa using hi
    obtain ⟨hdec, -⟩ := (executeWith_hooks_aligned pm rp hrp f fuel w).2 i (k, e, d) hx
    obtain ⟨hk, he, r, hr⟩ := executeWith_decisions_aligned pm rp hrp f fuel w i k e true hdec
    have hgen : ∃ w', d = (gn k e w').1 := by
      have hmem := List.getElem?_mem hx
      cases hf : (f w).1.2 with
      | none =>
        have hrun : executeWith pm f fuel w = _ := Execute_early_out _ _ f fuel w hf
        rw [hrun] at hmem
        simp at hmem
      | some e0 =>
        have hrun : executeWith pm f fuel w = _ := Execute_retry _ _ f fuel w e0 hf rp hrp
        rw [hrun] at hmem
        simp only [Run.after_trace, List.singleton_append, waitComputations_called] at hmem
        exact retryLoop_waitComputations_genuine pm.2 rp gn hg f fuel 1 _ _ _ _ hmem
    obtain ⟨w', hw'⟩ := hgen
    exact ⟨r, e, w', hr, he, by rw [← hd, hw', hk]⟩

end SleepLemmas

/-! ## Lemmas: successive calls -/

section SuccessiveCallLemmas

variable {σ ρ ε : Type}

/-- The run of `Execute` under `RetryXTimes(N)` with `0 <= N < 2^63 - 1` on an
operation that always fails: `N + 1` invocations, each from the world the
earlier ones left. -/
theorem executeWith_RetryXTimes_failing (N : Nat) (hN64 : (N : Int) < maxInt64)
    (b : Policy) (m : Mem σ ε) (f : Operation σ ρ ε) (hfail : ∀ w, (f w).1.2 ≠ none)
    (w : σ) (fuel : Nat) (hfuel : N + 1 ≤ fuel) :
    calls (executeWith (b.RetryXTimes N m) f fuel w).trace =
        (List.range (N + 1)).map (fun k => (f (worldAfterCalls f k w)).1) ∧
      (executeWith (b.RetryXTimes N m) f fuel w).world = worldAfterCalls f (N + 1) w := by
  obtain ⟨e, he⟩ := Option.ne_none_iff_exists'.mp (hfail w)
  obtain ⟨rp, hv, hrun⟩ := executeWith_of_strategy (b.RetryXTimes N m) _
    ((ConfigCall.RetryXTimes (N : Int)).strategy_apply b m) f fuel w e he
  have hb : rp.betweenFailures = none := by
    have h : deref (b.RetryXTimes N m).2.failureFns rp.betweenFailures = .nil :=
      congrArg Strategy.betweenFailures hv
    cases hbf : rp.betweenFailures with
    | none => rfl
    | some a =>
      rw [hbf] at h
      simp only [deref] at h
      split at h <;> cases h
  have hg : rp.waitDurationGenerator = none := by
    have h : deref (b.RetryXTimes N m).2.waitFns rp.waitDurationGenerator = .nil :=
      congrArg Strategy.waitDurationGenerator hv
    cases hwg : rp.waitDurationGenerator with
    | none => rfl
    | some a =>
      rw [hwg] at h
      simp only [deref] at h
      split at h <;> cases h
  obtain ⟨h1, h2, -⟩ := retryLoop_count_failing (b.RetryXTimes N m).2 rp (N : Int)
    (congrArg Strategy.shouldRetry hv) hb hg f hfail hN64 N 1 (f w).1.1 (some e) (f w).2 fuel
    (by omega) (by omega) hfuel
  rw [hrun]
  constructor
  · rw [range_map_worldAfterCalls]
    simp [h1, Prod.ext_iff, he]
  · simpa [worldAfterCalls] using h2

/-- The first loop test of every run of `Execute` is on the attempt number 1
and the error of the first invocation. -/
theorem Execute_first_decision (e : executor) (m : Mem σ ε) (f : Operation σ ρ ε)
    (fuel : Nat) (w : σ) (x : Int × GoError ε × Bool)
    (hx : (decisions (e.Execute m f fuel w).trace).head? = some x) :
    x.1 = 1 ∧ x.2.1 = (f w).1.2 := by
  cases hf : (f w).1.2 with
  | none =>
    rw [Execute_early_out e m f fuel w hf] at hx
    simp at hx
  | some er =>
    cases hd : deref m.policies e.policy.retry with
    | nil =>
      have hrun : e.Execute m f fuel w =
          { outcome := .returned (f w).1.1 (some er), world := (f w).2,
            trace := [.called (f w).1.1 (some er)] } := by
        simp [executor.Execute, hf, hd]
      rw [hrun] at hx
      simp at hx
    | dangling =>
      have hrun : e.Execute m f fuel w =
          { outcome := .dangling, world := (f w).2,
            trace := [.called (f w).1.1 (some er)] } := by
        simp [executor.Execute, hf, hd]
      rw [hrun] at hx
      simp at hx
    | cell rp =>
      rw [Execute_retry e m f fuel w er hf rp hd] at hx
      simp only [Run.after_trace, List.singleton_append, decisions_called] at hx
      have hR := retryLoop_rounds_general m rp f fuel 1 (f w).1.1 (some er) (f w).2
      generalize (retryLoop m rp f fuel 1 (f w).1.1 (some er) (f w).2).trace = T at hx hR
      cases hR with
      | cut => simp at hx
      | stop => simp at hx; simp [← hx]
      | abort evs _ hevs => simp at hx; simp [← hx]
      | round d r err' rest _ _ => simp at hx; simp [← hx]

end SuccessiveCallLemmas

section OneRoundLemmas

variable {σ ρ ε : Type}

/-- A first invocation that fails, a loop test that is true, hooks that run,
a second invocation that succeeds with `r`: `Execute` returns `(r, nil)` as
soon as it has fuel for one loop test, having invoked the operation twice. -/
theorem Execute_round_then_success (pm : Policy × Mem σ ε) (rp : retryPolicy σ ε)
    (sr : ShouldRetryFn σ ε) (f : Operation σ ρ ε) (w w1 w2 : σ)
    (evs1 evs2 : List (Event ρ ε)) (r1 r : ρ) (e1 : ε) (fuel : Nat) (hfuel : 1 ≤ fuel)
    (hrp : deref pm.2.policies pm.1.retry = .cell rp)
    (hsr : rp.shouldRetry = some sr)
    (hfirst : (f w).1 = (r1, some e1))
    (hbudget : (sr 1 (some e1) (f w).2).1 = true)
    (hcb : handleFailureCallback pm.2 rp 1 (some e1) (sr 1 (some e1) (f w).2).2 =
      .ok (w1, evs1))
    (hwait : handleWait pm.2 rp 1 (some e1) w1 = .ok (w2, evs2))
    (hsecond : (f w2).1 = (r, none)) :
    (executeWith pm f fuel w).outcome = .returned r none ∧
      calls (executeWith pm f fuel w).trace = [(r1, some e1), (r, none)] ∧
      (executeWith pm f fuel w).trace =
        .called r1 (some e1) :: .decided 1 (some e1) true ::
          (evs1 ++ evs2 ++ [.called r none]) := by
  have h1 : (f w).1.1 = r1 := by rw [hfirst]
  have h2 : (f w).1.2 = some e1 := by rw [hfirst]
  have h3 : (f w2).1.1 = r := by rw [hsecond]
  have h4 : (f w2).1.2 = none := by rw [hsecond]
  obtain ⟨fuel, rfl⟩ : ∃ k, fuel = k + 1 := ⟨fuel - 1, by omega⟩
  have hrun : executeWith pm f (fuel + 1) w =
      (retryLoop pm.2 rp f (fuel + 1) 1 (f w).1.1 (some e1) (f w).2).after
        [.called (f w).1.1 (some e1)] :=
    Execute_retry (BuildExecutor pm.1) pm.2 f (fuel + 1) w e1 h2 rp hrp
  rw [hrun, retryLoop_success pm.2 rp f sr hsr fuel 1 _ _ _ w1 w2 evs1 evs2 hbudget hcb
    hwait h4, h1, h3]
  refine ⟨rfl, ?_, rfl⟩
  simp [handleFailureCallback_calls _ _ _ _ _ _ _ hcb, handleWait_calls _ _ _ _ _ _ _ hwait]

/-- What the failure callback does when it is set to a function or not set. -/
theorem handleFailureCallback_ofHooks_eq (m : Mem σ ε) (rp : retryPolicy σ ε)
    (sr : ShouldRetryFn σ ε) (cb : Option (FailureFn σ ε)) (g : Option (WaitFn σ ε))
    (hv : m.view rp = Strategy.ofHooks sr cb g) (c : Int) (err : GoError ε) (w : σ) :
    handleFailureCallback (ρ := ρ) m rp c err w =
      .ok (callbackWorld cb c err w, callbackEvents cb.isSome c err) := by
  have hb : deref m.failureFns rp.betweenFailures = hookTarget cb :=
    congrArg Strategy.betweenFailures hv
  cases cb <;> simp [handleFailureCallback, hb, hookTarget, callbackEvents, callbackWorld]

/-- What the wait does when it is set to a function or not set. -/
theorem handleWait_ofHooks_eq (m : Mem σ ε) (rp : retryPolicy σ ε)
    (sr : ShouldRetryFn σ ε) (cb : Option (FailureFn σ ε)) (g : Option (WaitFn σ ε))
    (hv : m.view rp = Strategy.ofHooks sr cb g) (c : Int) (err : GoError ε) (w : σ) :
    handleWait (ρ := ρ) m rp c err w =
      .ok (waitWorld g c err w, waitEvents g.isSome c err (waitDuration g c err w)) := by
  have hg : deref m.waitFns rp.waitDurationGenerator = hookTarget g :=
    congrArg Strategy.waitDurationGenerator hv
  cases g <;> simp [handleWait, hg, hookTarget, waitEvents, waitWorld, waitDuration]

end OneRoundLemmas

/-! ## Lemmas: the events of the trace are the invocations made -/

section WorldCountLemmas

variable {σ ρ ε : Type}

/-- Let `count` read a counter in the world, which each invocation of the
operation advances by `af`, each evaluation of the predicate by `asr`, each
invocation of the failure callback by `acb` and each invocation of the wait
function by `ag`.  Then the loop advances the counter by these amounts, once
for each event of its kind in the trace: the events record the invocations
that were made. -/
theorem retryLoop_world_count (m : Mem σ ε) (rp : retryPolicy σ ε)
    (sr : ShouldRetryFn σ ε) (cb : Option (FailureFn σ ε)) (g : Option (WaitFn σ ε))
    (hv : m.view rp = Strategy.ofHooks sr cb g) (f : Operation σ ρ ε)
    (count : σ → Nat) (af asr acb ag : Nat)
    (hf : ∀ w, count (f w).2 = count w + af)
    (hp : ∀ k e w, count (sr k e w).2 = count w + asr)
    (hcb : ∀ fn, cb = some fn → ∀ k e w, count (fn k e w) = count w + acb)
    (hg : ∀ gn, g = some gn → ∀ k e w, count (gn k e w).2 = count w + ag) :
    ∀ (fuel : Nat) (c : Int) (r : ρ) (err : GoError ε) (w : σ),
      count (retryLoop m rp f fuel c r err w).world =
        count w + af * (calls (retryLoop m rp f fuel c r err w).trace).length +
          asr * (decisions (retryLoop m rp f fuel c r err w).trace).length +
          acb * (notifications (retryLoop m rp f fuel c r err w).trace).length +
          ag * (waitComputations (retryLoop m rp f fuel c r err w).trace).length := by
  have hsr := view_ofHooks_shouldRetry m rp sr cb g hv
  have hcbw : ∀ k e w, count (callbackWorld cb k e w) =
      count w + acb * (notifications (callbackEvents (ρ := ρ) cb.isSome k e)).length := by
    intro k e w
    cases cb with
    | none => simp [callbackWorld]
    | some fn => simp [callbackWorld, hcb fn rfl]
  have hgw : ∀ k e w d, count (waitWorld g k e w) =
      count w + ag * (waitComputations (waitEvents (ρ := ρ) g.isSome k e d)).length := by
    intro k e w d
    cases g with
    | none => simp [waitWorld]
    | some gn => simp [waitWorld, hg gn rfl]
  intro fuel
  induction fuel with
  | zero => intro c r err w; simp [retryLoop]
  | succ fuel ih =>
    intro c r err w
    have h1 := handleFailureCallback_ofHooks_eq (ρ := ρ) m rp sr cb g hv c err (sr c err w).2
    have h2 := handleWait_ofHooks_eq (ρ := ρ) m rp sr cb g hv c err
      (callbackWorld cb c err (sr c err w).2)
    cases hc : (sr c err w).1 with
    | false =>
      rw [retryLoop_stop m rp f sr hsr fuel c r err w hc]
      simp [hp]
    | true =>
      cases hfw : (f (waitWorld g c err (callbackWorld cb c err (sr c err w).2))).1.2 with
      | none =>
        rw [retryLoop_success m rp f sr hsr fuel c r err w _ _ _ _ hc h1 h2 hfw]
        simp only [hf, hgw _ _ _ (waitDuration g c err (callbackWorld cb c err (sr c err w).2)),
          hcbw, hp]
        simp
        ring
      | some e =>
        rw [retryLoop_again m rp f sr hsr fuel c r err w _ _ _ _ e hc h1 h2 hfw]
        simp only [Run.after_world, ih, hf,
          hgw _ _ _ (waitDuration g c err (callbackWorld cb c err (sr c err w).2)), hcbw, hp]
        simp
        ring

/-- The same for `Execute`, the first invocation included. -/
theorem executeWith_world_count (pm : Policy × Mem σ ε) (sr : ShouldRetryFn σ ε)
    (cb : Option (FailureFn σ ε)) (g : Option (WaitFn σ ε))
    (hs : pm.2.strategy pm.1 = .cell (Strategy.ofHooks sr cb g)) (f : Operation σ ρ ε)
    (count : σ → Nat) (af asr acb ag : Nat)
    (hf : ∀ w, count (f w).2 = count w + af)
    (hp : ∀ k e w, count (sr k e w).2 = count w + asr)
    (hcb : ∀ fn, cb = some fn → ∀ k e w, count (fn k e w) = count w + acb)
    (hg : ∀ gn, g = some gn → ∀ k e w, count (gn k e w).2 = count w + ag)
    (fuel : Nat) (w : σ) :
    count (executeWith pm f fuel w).world =
      count w + af * (calls (executeWith pm f fuel w).trace).length +
        asr * (decisions (executeWith pm f fuel w).trace).length +
        acb * (notifications (executeWith pm f fuel w).trace).length +
        ag * (waitComputations (executeWith pm f fuel w).trace).length := by
  cases hfw : (f w).1.2 with
  | none =>
    have hrun : executeWith pm f fuel w = _ := Execute_early_out _ _ f fuel w hfw
    rw [hrun]
    simp [hf]
  | some e =>
    obtain ⟨rp, hv, hrun⟩ := executeWith_of_strategy pm _ hs f fuel w e hfw
    rw [hrun]
    simp only [Run.after_world, Run.after_trace,
      retryLoop_world_count pm.2 rp sr cb g hv f count af asr acb ag hf hp hcb hg, hf]
    simp
    ring

end WorldCountLemmas

/-! ## The claims -/

section Claims

variable {σ ρ ε : Type}

/-- C1 (as amended). For every retry count `N` with `0 <= N < 2^63 - 1` and
every operation whose every invocation fails, `Execute` on an executor built
from `NewPolicy().RetryXTimes(N)` returns once it has fuel for `N + 1` loop
tests; it has then invoked the operation exactly `N + 1` times, the `k`-th
invocation from the world the `k - 1` earlier ones left, and it returns
exactly the pair of the `(N + 1)`-th invocation. -/
theorem RetryXTimes_invokes_N_plus_one_times (N : Nat) (hN64 : (N : Int) < maxInt64)
    (m : Mem σ ε) (f : Operation σ ρ ε) (hfail : ∀ w, (f w).1.2 ≠ none)
    (w : σ) (fuel : Nat) (hfuel : N + 1 ≤ fuel) :
    (calls (executeWith (NewPolicy.RetryXTimes N m) f fuel w).trace).length = N + 1 ∧
      calls (executeWith (NewPolicy.RetryXTimes N m) f fuel w).trace =
        (List.range (N + 1)).map (fun k => (f (worldAfterCalls f k w)).1) ∧
      (executeWith (NewPolicy.RetryXTimes N m) f fuel w).outcome =
        .returned (f (worldAfterCalls f N w)).1.1 (f (worldAfterCalls f N w)).1.2 := by
  obtain ⟨e, he⟩ := Option.ne_none_iff_exists'.mp (hfail w)
  have hrun : executeWith (NewPolicy.RetryXTimes N m) f fuel w =
      (retryLoop (NewPolicy.RetryXTimes N m).2
        { shouldRetry := some (countPredicate N), betweenFailures := none,
          waitDurationGenerator := none } f fuel 1 (f w).1.1 (some e) (f w).2).after
        [.called (f w).1.1 (some e)] := by
    unfold executeWith
    apply Execute_retry _ _ _ _ _ _ he
    simp [Policy.RetryXTimes, Mem.newRetryPolicy, BuildExecutor, deref]
  obtain ⟨h1, -, h3⟩ := retryLoop_count_failing (NewPolicy.RetryXTimes N m).2
    { shouldRetry := some (countPredicate N), betweenFailures := none,
      waitDurationGenerator := none } (N : Int) rfl rfl rfl
    f hfail hN64 N 1 (f w).1.1 (some e) (f w).2 fuel (by omega) (by omega) hfuel
  have hcalls : calls (executeWith (NewPolicy.RetryXTimes N m) f fuel w).trace =
      (List.range (N + 1)).map (fun k => (f (worldAfterCalls f k w)).1) := by
    rw [hrun, range_map_worldAfterCalls]
    simp [h1, Prod.ext_iff, he]
  refine ⟨by rw [hcalls]; simp, hcalls, ?_⟩
  rw [hrun, Run.after_outcome, h3]
  cases N with
  | zero => simp [worldAfterCalls, he]
  | succ N => simp [worldAfterCalls]

/-- C1, witness: `Test_RetryXTimes_RetriesExpectedAmountOfTimes`, 23 retries. -/
theorem RetryXTimes_invokes_N_plus_one_times_witness :
    (calls (executeWith (NewPolicy.RetryXTimes ((23 : Nat) : Int) (Mem.empty : Mem Nat Unit))
        alwaysFails 24 0).trace).length = 23 + 1 ∧
      (executeWith (NewPolicy.RetryXTimes ((23 : Nat) : Int) (Mem.empty : Mem Nat Unit))
        alwaysFails 24 0).outcome = .returned (-1) (some ()) :=
  have h := RetryXTimes_invokes_N_plus_one_times 23 (by decide)
    (Mem.empty : Mem Nat Unit) alwaysFails (fun w => by simp [alwaysFails]) 0 24
    (by decide)
  ⟨h.1, h.2.2⟩

/-- C1 as stated fails at `N = 2^63 - 1`: the condition `count <= N` is then
true of every `int`, and `Execute` on an operation that always fails never
returns, whatever the fuel; given fuel for `k` loop tests it has invoked the
operation `k + 1` times. -/
theorem RetryXTimes_maxInt64_never_returns :
    (¬ ∃ (fuel : Nat) (r : Int) (err : GoError Unit),
        (executeWith (NewPolicy.RetryXTimes maxInt64 (Mem.empty : Mem Nat Unit))
          alwaysFails fuel 0).outcome = .returned r err) ∧
      (¬ ∃ fuel : Nat,
        (calls (executeWith (NewPolicy.RetryXTimes maxInt64 (Mem.empty : Mem Nat Unit))
          alwaysFails fuel 0).trace).length ≠ fuel + 1) := by
  have key : ∀ fuel : Nat,
      (executeWith (NewPolicy.RetryXTimes maxInt64 (Mem.empty : Mem Nat Unit))
        alwaysFails fuel 0).outcome = .exhausted ∧
      (calls (executeWith (NewPolicy.RetryXTimes maxInt64 (Mem.empty : Mem Nat Unit))
        alwaysFails fuel 0).trace).length = fuel + 1 := by
    intro fuel
    have hrun : executeWith (NewPolicy.RetryXTimes maxInt64 (Mem.empty : Mem Nat Unit))
        alwaysFails fuel 0 =
        (retryLoop (NewPolicy.RetryXTimes maxInt64 (Mem.empty : Mem Nat Unit)).2
          { shouldRetry := some (countPredicate maxInt64), betweenFailures := none,
            waitDurationGenerator := none } alwaysFails fuel 1 (-1) (some ()) 1).after
          [.called (-1) (some ())] := rfl
    obtain ⟨h1, h2⟩ := retryLoop_maxInt64_failing
      (NewPolicy.RetryXTimes maxInt64 (Mem.empty : Mem Nat Unit)).2
      { shouldRetry := some (countPredicate maxInt64), betweenFailures := none,
        waitDurationGenerator := none } rfl rfl rfl
      alwaysFails (fun w => by simp [alwaysFails]) fuel 1 (-1) (some ()) 1 (by decide)
    rw [hrun]
    simp [h1, h2]
  constructor
  · rintro ⟨fuel, r, err, h⟩
    rw [(key fuel).1] at h
    exact Outcome.noConfusion h
  · rintro ⟨fuel, h⟩
    exact h (key fuel).2

/-- C2. For every policy, so for the empty one and for one built by any of the
twelve configuration methods with any arguments, and every operation whose
first invocation returns the result `r` and a `nil` error, `Execute` returns
`(r, nil)` whatever the fuel; its trace is the single invocation: no
`shouldRetry`, no failure callback, no delay. -/
theorem Execute_first_success (pm : Policy × Mem σ ε) (f : Operation σ ρ ε) (w : σ)
    (r : ρ) (hf : (f w).1 = (r, none)) (fuel : Nat) :
    executeWith pm f fuel w =
      { outcome := .returned r none, world := (f w).2, trace := [.called r none] } := by
  have h1 : (f w).1.1 = r := by rw [hf]
  have h2 : (f w).1.2 = none := by rw [hf]
  unfold executeWith
  rw [Execute_early_out _ _ _ _ _ h2, h1]

/-- C2, witness: `Test_RetryOnCallback_DoesNotRetryIfNoErrorIsThrown`, a
predicate that is always true, no fuel at all. -/
theorem Execute_first_success_witness :
    (succeedsWith2 0).1 = (2, none) ∧
      executeWith (NewPolicy.RetryOnCallback (some alwaysRetry) (Mem.empty : Mem Nat Unit))
        succeedsWith2 0 0 =
        { outcome := .returned 2 none, world := (succeedsWith2 0).2,
          trace := [.called 2 none] } :=
  ⟨rfl, Execute_first_success _ succeedsWith2 0 2 rfl 0⟩

/-- C4. Whenever `Execute` returns, under every policy and every operation,
the pair it returns is the pair of the last invocation of the operation in its
trace, and that pair is what the operation returned in some world: the error is
the operation's own, `nil` exactly when that invocation succeeded. -/
theorem Execute_returns_last_call (pm : Policy × Mem σ ε) (f : Operation σ ρ ε)
    (fuel : Nat) (w : σ) (r : ρ) (err : GoError ε)
    (h : (executeWith pm f fuel w).outcome = .returned r err) :
    (calls (executeWith pm f fuel w).trace).getLast? = some (r, err) ∧
      ∃ w', (f w').1 = (r, err) := by
  have hlast : (calls (executeWith pm f fuel w).trace).getLast? = some (r, err) := by
    unfold executeWith executor.Execute at h ⊢
    simp only at h ⊢
    split at h
    · rename_i hf
      simp at h
      simp [h.1, ← h.2]
    · rename_i er hf
      split at h
      · simp at h
        simp [h.1, ← h.2]
      · simp at h
      · simp only [Run.after_outcome] at h
        have := retryLoop_returns_last_call _ _ _ _ _ _ _ _ _ _ h
        simpa using this
  refine ⟨hlast, ?_⟩
  have hmem : (r, err) ∈ calls (executeWith pm f fuel w).trace :=
    List.mem_of_getLast?_eq_some hlast
  unfold executeWith executor.Execute at hmem
  simp only at hmem
  split at hmem
  · rename_i hf
    simp at hmem
    exact ⟨w, by rw [hmem.1, hmem.2, ← hf]⟩
  · rename_i er hf
    split at hmem
    · simp at hmem
      exact ⟨w, by rw [hmem.1, hmem.2, ← hf]⟩
    · simp at hmem
      exact ⟨w, by rw [hmem.1, hmem.2, ← hf]⟩
    · simp at hmem
      rcases hmem with hmem | hmem
      · exact ⟨w, by rw [hmem.1, hmem.2, ← hf]⟩
      · exact retryLoop_calls_genuine _ _ _ _ _ _ _ _ _ hmem

/-- C4, witness: `Test_RetryXTimes_ReturnsExpectedOnFullFailure`, 4 retries. -/
theorem Execute_returns_last_call_witness :
    (executeWith (NewPolicy.RetryXTimes 4 (Mem.empty : Mem Nat Unit)) alwaysFails 5
        0).outcome = .returned (-1) (some ()) ∧
      (calls (executeWith (NewPolicy.RetryXTimes 4 (Mem.empty : Mem Nat Unit)) alwaysFails 5
        0).trace).getLast? = some (-1, some ()) :=
  ⟨by decide, (Execute_returns_last_call _ alwaysFails 5 0 (-1) (some ()) (by decide)).1⟩

/-- C5. For the empty policy `NewPolicy()` and every operation whose first
invocation fails with result `r` and error `e`, `Execute` invokes the operation
exactly once and returns `(r, e)`, whatever the fuel. -/
theorem Execute_empty_policy (m : Mem σ ε) (f : Operation σ ρ ε) (w : σ) (r : ρ) (e : ε)
    (hf : (f w).1 = (r, some e)) (fuel : Nat) :
    executeWith (NewPolicy, m) f fuel w =
      { outcome := .returned r (some e), world := (f w).2,
        trace := [.called r (some e)] } := by
  have h1 : (f w).1.1 = r := by rw [hf]
  have h2 : (f w).1.2 = some e := by rw [hf]
  unfold executeWith
  rw [Execute_no_retry _ _ _ _ _ e h2 rfl, h1]

/-- C5, witness: the always failing operation of the tests. -/
theorem Execute_empty_policy_witness :
    (alwaysFails 0).1 = (-1, some ()) ∧
      executeWith (NewPolicy, (Mem.empty : Mem Nat Unit)) alwaysFails 0 0 =
        { outcome := .returned (-1) (some ()), world := (alwaysFails 0).2,
          trace := [.called (-1) (some ())] } :=
  ⟨rfl, Execute_empty_policy _ alwaysFails 0 (-1) () rfl 0⟩

/-- C3 (as amended). For every retry count `N` with `0 <= N < 2^63 - 1`, every
callback function `cb` and every operation that always fails, `Execute` under
`RetryXTimesWithFailureCallback(N, cb)` returns once it has fuel for `N + 1`
loop tests; it has then invoked `cb` exactly `N` times, with the attempt
numbers `1, ..., N`, and the operation `N + 1` times, and its trace ends with
the last invocation of the operation and the loop test that is false: `cb` is
not invoked after it. -/
theorem RetryXTimesWithFailureCallback_invokes_callback_N_times (N : Nat)
    (hN64 : (N : Int) < maxInt64) (cb : FailureFn σ ε) (b : Policy) (m : Mem σ ε)
    (f : Operation σ ρ ε) (hfail : ∀ w, (f w).1.2 ≠ none) (w : σ) (fuel : Nat)
    (hfuel : N + 1 ≤ fuel) :
    (notifications (executeWith (b.RetryXTimesWithFailureCallback N (some cb) m) f fuel
        w).trace).length = N ∧
      (notifications (executeWith (b.RetryXTimesWithFailureCallback N (some cb) m) f fuel
        w).trace).map Prod.fst = (List.range N).map (fun (k : Nat) => 1 + (k : Int)) ∧
      (calls (executeWith (b.RetryXTimesWithFailureCallback N (some cb) m) f fuel
        w).trace).length = N + 1 ∧
      ∃ pre r e,
        (executeWith (b.RetryXTimesWithFailureCallback N (some cb) m) f fuel w).trace =
          pre ++ [.called r e, .decided (N + 1) e false] ∧
        (executeWith (b.RetryXTimesWithFailureCallback N (some cb) m) f fuel w).outcome =
          .returned r e := by
  obtain ⟨e, he⟩ := Option.ne_none_iff_exists'.mp (hfail w)
  obtain ⟨rp, hv, hrun⟩ := executeWith_of_strategy
    (b.RetryXTimesWithFailureCallback N (some cb) m) _
    ((ConfigCall.RetryXTimesWithFailureCallback (N : Int) (some cb)).strategy_apply b m)
    f fuel w e he
  obtain ⟨h1, h2, pre, r', e', h3, h4⟩ := retryLoop_count_callback_failing
    (b.RetryXTimesWithFailureCallback N (some cb) m).2 rp (N : Int) cb
    (congrArg Strategy.shouldRetry hv) (congrArg Strategy.betweenFailures hv)
    (congrArg Strategy.waitDurationGenerator hv) f hfail hN64 N 1 (f w).1.1 (some e)
    (f w).2 fuel (by omega) (by omega) hfuel
  have hlen : (notifications (executeWith (b.RetryXTimesWithFailureCallback N (some cb) m)
      f fuel w).trace).map Prod.fst = (List.range N).map (fun (k : Nat) => 1 + (k : Int)) := by
    rw [hrun]; simpa using h1
  refine ⟨?_, hlen, ?_, pre, r', e', ?_, ?_⟩
  · have := congrArg List.length hlen
    simpa using this
  · rw [hrun]; simp [h2]
  · rw [hrun]; simpa using h3
  · rw [hrun]; simpa using h4

/-- C3, witness:
`Test_RetryXTimesWithFailureCallback_CallsFailureCallbackExpectedTimes`, 3
retries and a callback that counts. -/
theorem RetryXTimesWithFailureCallback_invokes_callback_N_times_witness :
    (notifications (executeWith
        (NewPolicy.RetryXTimesWithFailureCallback ((3 : Nat) : Int) (some countingCallback)
          (Mem.empty : Mem (Nat × Nat) Unit)) alwaysFailsBeside 4 (0, 0)).trace).length = 3 ∧
      (executeWith
        (NewPolicy.RetryXTimesWithFailureCallback ((3 : Nat) : Int) (some countingCallback)
          (Mem.empty : Mem (Nat × Nat) Unit)) alwaysFailsBeside 4 (0, 0)).world = (3, 4) :=
  ⟨(RetryXTimesWithFailureCallback_invokes_callback_N_times 3 (by decide) countingCallback
      NewPolicy Mem.empty alwaysFailsBeside (fun w => by simp [alwaysFailsBeside]) (0, 0) 4
      (by decide)).1, by decide⟩

/-- C3 as stated fails at `N = 2^63 - 1`: `Execute` never returns on an
operation that always fails, whatever the fuel, and given fuel for `k` loop
tests it has invoked the callback `k` times, so more than any `N` given
enough. -/
theorem RetryXTimesWithFailureCallback_maxInt64_never_returns :
    (¬ ∃ (fuel : Nat) (r : Int) (err : GoError Unit),
        (executeWith
          (NewPolicy.RetryXTimesWithFailureCallback maxInt64 (some countingCallback)
            (Mem.empty : Mem (Nat × Nat) Unit)) alwaysFailsBeside fuel (0, 0)).outcome =
          .returned r err) ∧
      (¬ ∃ fuel : Nat,
        (notifications (executeWith
          (NewPolicy.RetryXTimesWithFailureCallback maxInt64 (some countingCallback)
            (Mem.empty : Mem (Nat × Nat) Unit)) alwaysFailsBeside fuel (0, 0)).trace).length ≠
          fuel) := by
  have key : ∀ fuel : Nat,
      (executeWith (NewPolicy.RetryXTimesWithFailureCallback maxInt64 (some countingCallback)
        (Mem.empty : Mem (Nat × Nat) Unit)) alwaysFailsBeside fuel (0, 0)).outcome =
          .exhausted ∧
      (notifications (executeWith
        (NewPolicy.RetryXTimesWithFailureCallback maxInt64 (some countingCallback)
          (Mem.empty : Mem (Nat × Nat) Unit)) alwaysFailsBeside fuel (0, 0)).trace).length =
          fuel := by
    intro fuel
    obtain ⟨rp, hv, hrun⟩ := executeWith_of_strategy
      (NewPolicy.RetryXTimesWithFailureCallback maxInt64 (some countingCallback)
        (Mem.empty : Mem (Nat × Nat) Unit)) _
      ((ConfigCall.RetryXTimesWithFailureCallback maxInt64
        (some countingCallback)).strategy_apply NewPolicy Mem.empty)
      alwaysFailsBeside fuel (0, 0) () rfl
    obtain ⟨h1, h2, -⟩ := retryLoop_maxInt64_callback_failing
      (NewPolicy.RetryXTimesWithFailureCallback maxInt64 (some countingCallback)
        (Mem.empty : Mem (Nat × Nat) Unit)).2 rp countingCallback
      (congrArg Strategy.shouldRetry hv) (congrArg Strategy.betweenFailures hv)
      (congrArg Strategy.waitDurationGenerator hv) alwaysFailsBeside
      (fun w => by simp [alwaysFailsBeside]) fuel 1 (alwaysFailsBeside (0, 0)).1.1 (some ())
      (alwaysFailsBeside (0, 0)).2 (by decide)
    rw [hrun]
    exact ⟨h1, by simpa using h2⟩
  constructor
  · rintro ⟨fuel, r, err, h⟩
    rw [(key fuel).1] at h
    exact Outcome.noConfusion h
  · rintro ⟨fuel, h⟩
    exact h (key fuel).2

/-- C6. For a policy built by `RetryOnCallback` or by
`RetryOnCallbackWithFailureCallback` (with any callback argument) from a
predicate that is false for every attempt number and error, and every operation
whose first invocation fails with `(r, e)`, `Execute` returns `(r, e)` as soon
as it has fuel for one loop test; its trace is that one invocation and that one
test: no retry, no failure callback. -/
theorem RetryOnCallback_predicate_always_false (pred : ShouldRetryFn σ ε)
    (hpred : ∀ k err w, (pred k err w).1 = false) (cb : Option (FailureFn σ ε))
    (b : Policy) (m : Mem σ ε) (f : Operation σ ρ ε) (w : σ) (r : ρ) (e : ε)
    (hf : (f w).1 = (r, some e)) (fuel : Nat) (hfuel : 1 ≤ fuel) :
    executeWith (b.RetryOnCallback (some pred) m) f fuel w =
        { outcome := .returned r (some e), world := (pred 1 (some e) (f w).2).2,
          trace := [.called r (some e), .decided 1 (some e) false] } ∧
      executeWith (b.RetryOnCallbackWithFailureCallback (some pred) cb m) f fuel w =
        { outcome := .returned r (some e), world := (pred 1 (some e) (f w).2).2,
          trace := [.called r (some e), .decided 1 (some e) false] } :=
  ⟨Execute_stop_at_first_test _ _ pred
      ((ConfigCall.RetryOnCallback (some pred)).strategy_apply b m) rfl f w r e hf
      (hpred _ _ _) fuel hfuel,
    Execute_stop_at_first_test _ _ pred
      ((ConfigCall.RetryOnCallbackWithFailureCallback (some pred) cb).strategy_apply b m)
      rfl f w r e hf (hpred _ _ _) fuel hfuel⟩

/-- C6, witness: `Test_RetryOnCallback_ReturnsExpectedOnFullFailure` and
`Test_RetryOnCallbackWithFailureCallback_ReturnsExpectedOnFullFailure`. -/
theorem RetryOnCallback_predicate_always_false_witness :
    executeWith (NewPolicy.RetryOnCallback (some neverRetry) (Mem.empty : Mem Nat Unit))
        alwaysFails 1 0 =
        { outcome := .returned (-1) (some ()), world := 1,
          trace := [.called (-1) (some ()), .decided 1 (some ()) false] } ∧
      executeWith (NewPolicy.RetryOnCallbackWithFailureCallback (some neverRetry)
        (some retryDoNothing) (Mem.empty : Mem Nat Unit)) alwaysFails 1 0 =
        { outcome := .returned (-1) (some ()), world := 1,
          trace := [.called (-1) (some ()), .decided 1 (some ()) false] } :=
  RetryOnCallback_predicate_always_false neverRetry (fun _ _ _ => rfl)
    (some retryDoNothing) NewPolicy Mem.empty alwaysFails 0 (-1) () rfl 1 (by decide)

/-- C7 (as amended). For every policy whose retry strategy has the predicate
`sr` and hooks that are set to functions or not set, with retry budget at least
1, that is `sr` true at attempt number 1 for the first error (for the predicate
`count <= N` of a retry-count policy: `N >= 1`), and every operation whose
first invocation fails and whose second invocation, made in the world the
predicate and the hooks of the first round leave, succeeds with result `r`:
`Execute` returns `(r, nil)` as soon as it has fuel for one loop test, having
invoked the operation exactly twice, with the hooks that are set invoked once
in between. -/
theorem retry_budget_one_then_success (pm : Policy × Mem σ ε) (sr : ShouldRetryFn σ ε)
    (cb : Option (FailureFn σ ε)) (g : Option (WaitFn σ ε))
    (hs : pm.2.strategy pm.1 = .cell (Strategy.ofHooks sr cb g))
    (f : Operation σ ρ ε) (w : σ) (r1 r : ρ) (e1 : ε) (fuel : Nat) (hfuel : 1 ≤ fuel)
    (hfirst : (f w).1 = (r1, some e1))
    (hbudget : (sr 1 (some e1) (f w).2).1 = true)
    (hsecond : (f (waitWorld g 1 (some e1)
      (callbackWorld cb 1 (some e1) (sr 1 (some e1) (f w).2).2))).1 = (r, none)) :
    (executeWith pm f fuel w).outcome = .returned r none ∧
      calls (executeWith pm f fuel w).trace = [(r1, some e1), (r, none)] ∧
      (executeWith pm f fuel w).trace =
        .called r1 (some e1) :: .decided 1 (some e1) true ::
          (callbackEvents cb.isSome 1 (some e1) ++
            waitEvents g.isSome 1 (some e1)
              (waitDuration g 1 (some e1)
                (callbackWorld cb 1 (some e1) (sr 1 (some e1) (f w).2).2)) ++
            [.called r none]) ∧
      (executeWith pm f fuel w).world =
        (f (waitWorld g 1 (some e1)
          (callbackWorld cb 1 (some e1) (sr 1 (some e1) (f w).2).2))).2 := by
  have h1 : (f w).1.1 = r1 := by rw [hfirst]
  have h2 : (f w).1.2 = some e1 := by rw [hfirst]
  have h3 : (f (waitWorld g 1 (some e1)
      (callbackWorld cb 1 (some e1) (sr 1 (some e1) (f w).2).2))).1.1 = r := by rw [hsecond]
  have h4 : (f (waitWorld g 1 (some e1)
      (callbackWorld cb 1 (some e1) (sr 1 (some e1) (f w).2).2))).1.2 = none := by
    rw [hsecond]
  obtain ⟨fuel, rfl⟩ : ∃ k, fuel = k + 1 := ⟨fuel - 1, by omega⟩
  obtain ⟨rp, hv, hrun⟩ := executeWith_of_strategy pm _ hs f (fuel + 1) w e1 h2
  have hsr := view_ofHooks_shouldRetry pm.2 rp sr cb g hv
  rw [hrun, retryLoop_success pm.2 rp f sr hsr fuel 1 _ _ _ _ _ _ _ hbudget
    (handleFailureCallback_ofHooks_eq pm.2 rp sr cb g hv 1 (some e1) _)
    (handleWait_ofHooks_eq pm.2 rp sr cb g hv 1 (some e1) _) h4, h1, h3]
  refine ⟨rfl, ?_, rfl, rfl⟩
  simp

/-- C7, witness: `Test_RetryXTimes_ReturnsExpectedOnNonErrorAfterError`, the
policy `RetryXTimes(9999)` on an operation that fails until its flag is set;
and `RetryXTimesWithFailureCallback(1, makeReady)` on an operation that
succeeds once the callback has set the flag. -/
theorem retry_budget_one_then_success_witness :
    ((executeWith (NewPolicy.RetryXTimes 9999 (Mem.empty : Mem Bool Unit)) failsOnce 1
          false).outcome = .returned 42 none ∧
        calls (executeWith (NewPolicy.RetryXTimes 9999 (Mem.empty : Mem Bool Unit)) failsOnce
          1 false).trace = [(0, some ()), (42, none)]) ∧
      ((executeWith (NewPolicy.RetryXTimesWithFailureCallback 1 (some makeReady)
          (Mem.empty : Mem Bool Unit)) succeedsWhenReady 1 false).outcome =
          .returned 42 none ∧
        (executeWith (NewPolicy.RetryXTimesWithFailureCallback 1 (some makeReady)
          (Mem.empty : Mem Bool Unit)) succeedsWhenReady 1 false).trace =
          [.called 0 (some ()), .decided 1 (some ()) true, .notified 1 (some ()),
            .called 42 none] ∧
        (executeWith (NewPolicy.RetryXTimesWithFailureCallback 1 (some makeReady)
          (Mem.empty : Mem Bool Unit)) succeedsWhenReady 1 false).world = true) :=
  have h := retry_budget_one_then_success
    (NewPolicy.RetryXTimes 9999 (Mem.empty : Mem Bool Unit)) (countPredicate 9999) none none
    ((ConfigCall.RetryXTimes 9999).strategy_apply NewPolicy Mem.empty)
    failsOnce false 0 42 () 1 (by decide) rfl (by decide) rfl
  have h' := retry_budget_one_then_success
    (NewPolicy.RetryXTimesWithFailureCallback 1 (some makeReady) (Mem.empty : Mem Bool Unit))
    (countPredicate 1) (some makeReady) none
    ((ConfigCall.RetryXTimesWithFailureCallback 1 (some makeReady)).strategy_apply NewPolicy
      Mem.empty)
    succeedsWhenReady false 0 42 () 1 (by decide) rfl (by decide) rfl
  ⟨⟨h.1, h.2.1⟩, ⟨h'.1, h'.2.2.1, by decide⟩⟩

/-- C7 as stated fails for a policy given a `nil` function:
`RetryXTimesWithFailureCallback(5, nil)` is a retry-count policy with
`N = 5 >= 1`, the first invocation of `failsOnce` fails and its second would
succeed with 42, yet `Execute` makes one invocation only and panics when it
calls the `nil` callback; with `ComplexWaitRetryXTimes(5, nil)` likewise at the
`nil` wait function. -/
theorem nil_hook_stops_the_retry :
    ((failsOnce false).1 = (0, some ()) ∧ (failsOnce true).1 = (42, none) ∧
        (countPredicate (σ := Bool) (ε := Unit) 5 1 (some ()) true).1 = true) ∧
      ((executeWith (NewPolicy.RetryXTimesWithFailureCallback 5 none
          (Mem.empty : Mem Bool Unit)) failsOnce 6 false).outcome = .panicked ∧
        calls (executeWith (NewPolicy.RetryXTimesWithFailureCallback 5 none
          (Mem.empty : Mem Bool Unit)) failsOnce 6 false).trace = [(0, some ())]) ∧
      ((executeWith (NewPolicy.ComplexWaitRetryXTimes 5 none
          (Mem.empty : Mem Bool Unit)) failsOnce 6 false).outcome = .panicked ∧
        calls (executeWith (NewPolicy.ComplexWaitRetryXTimes 5 none
          (Mem.empty : Mem Bool Unit)) failsOnce 6 false).trace = [(0, some ())]) := by
  decide

/-- C8. For every negative retry count `N` and each of the six
`...RetryXTimes...` methods, with any wait and callback arguments and any
receiver: the call returns a policy whose `shouldRetry` is false for every
attempt number `k >= 1`, and on an operation whose first invocation fails with
`(r, e)` `Execute` returns `(r, e)` as soon as it has fuel for one loop test;
its trace is that one invocation and that one test: no retry, no failure
callback, no delay. -/
theorem negative_retry_count_never_retries (c : ConfigCall σ ε) (N : Int)
    (hc : c.retryCount? = some N) (hN : N < 0) (b : Policy) (m : Mem σ ε)
    (f : Operation σ ρ ε) (w : σ) (r : ρ) (e : ε) (hf : (f w).1 = (r, some e))
    (fuel : Nat) (hfuel : 1 ≤ fuel) :
    (∃ s sr, (c.apply b m).2.strategy (c.apply b m).1 = .cell s ∧
        s.shouldRetry = some sr ∧
        ∀ (k : Int) (err : GoError ε) (w' : σ), 1 ≤ k → (sr k err w').1 = false) ∧
      executeWith (c.apply b m) f fuel w =
        { outcome := .returned r (some e), world := (f w).2,
          trace := [.called r (some e), .decided 1 (some e) false] } := by
  have hsr : c.strategy.shouldRetry = some (countPredicate N) := by
    cases c <;> simp [ConfigCall.retryCount?] at hc <;> simp [ConfigCall.strategy, hc]
  have hfalse : ∀ (k : Int) (err : GoError ε) (w' : σ), 1 ≤ k →
      (countPredicate (σ := σ) (ε := ε) N k err w').1 = false := by
    intro k err w' hk
    simp [countPredicate]
    omega
  refine ⟨⟨c.strategy, countPredicate N, c.strategy_apply b m, hsr, hfalse⟩, ?_⟩
  exact Execute_stop_at_first_test _ _ (countPredicate N) (c.strategy_apply b m) hsr f w r e
    hf (hfalse 1 _ _ (le_refl 1)) fuel hfuel

/-- C8, witness: `WaitRetryXTimesWithFailureCallback(-4, 7, retryDoNothing)`. -/
theorem negative_retry_count_never_retries_witness :
    executeWith ((ConfigCall.WaitRetryXTimesWithFailureCallback (-4) 7
        (some retryDoNothing)).apply NewPolicy (Mem.empty : Mem Nat Unit)) alwaysFails 1 0 =
      { outcome := .returned (-1) (some ()), world := 1,
        trace := [.called (-1) (some ()), .decided 1 (some ()) false] } :=
  (negative_retry_count_never_retries
    (ConfigCall.WaitRetryXTimesWithFailureCallback (-4) 7 (some retryDoNothing)) (-4) rfl
    (by decide) NewPolicy (Mem.empty : Mem Nat Unit) alwaysFails 0 (-1) () rfl 1
    (by decide)).2

/-- C9. Configuration is last-write-wins. For every receiver `p`, however it was
configured, and every configuration call `c`: in the same memory `c` on `p`
returns the very policy and memory that `c` on `NewPolicy()` returns; whatever
the two memories, the two policies have the same retry strategy and `Execute`
runs alike under them; and when `c` takes no failure callback no callback is
ever invoked under the result, when it takes no wait no delay is ever computed
or slept, whatever `p` had set. -/
theorem configuration_last_write_wins (c : ConfigCall σ ε) (p : Policy) (m m' : Mem σ ε) :
    c.apply p m = c.apply NewPolicy m ∧
      (c.apply p m).2.strategy (c.apply p m).1 =
        (c.apply NewPolicy m').2.strategy (c.apply NewPolicy m').1 ∧
      (∀ (f : Operation σ ρ ε) (fuel : Nat) (w : σ),
        executeWith (c.apply p m) f fuel w = executeWith (c.apply NewPolicy m') f fuel w) ∧
      (c.setsFailureCallback = false →
        ∀ (f : Operation σ ρ ε) (fuel : Nat) (w : σ),
          notifications (executeWith (c.apply p m) f fuel w).trace = []) ∧
      (c.setsWait = false →
        ∀ (f : Operation σ ρ ε) (fuel : Nat) (w : σ),
          waitComputations (executeWith (c.apply p m) f fuel w).trace = [] ∧
            sleeps (executeWith (c.apply p m) f fuel w).trace = []) := by
  have hstrat : (c.apply p m).2.strategy (c.apply p m).1 =
      (c.apply NewPolicy m').2.strategy (c.apply NewPolicy m').1 := by
    rw [c.strategy_apply p m, c.strategy_apply NewPolicy m']
  refine ⟨?_, hstrat, ?_, ?_, ?_⟩
  · cases c <;> rfl
  · intro f fuel w
    exact Execute_congr _ _ _ _ hstrat f fuel w
  · intro hc f fuel w
    apply Execute_no_notifications _ _ _ (c.strategy_apply p m)
    cases c <;> simp [ConfigCall.setsFailureCallback] at hc <;> rfl
  · intro hc f fuel w
    apply Execute_no_waits _ _ _ (c.strategy_apply p m)
    cases c <;> simp [ConfigCall.setsWait] at hc <;> rfl

/-- C9, the example of the claim:
`NewPolicy().WaitRetryXTimesWithFailureCallback(5, 7, cb).RetryXTimes(2)` runs
as `NewPolicy().RetryXTimes(2)` does: on an operation that always fails it
retries twice, with no callback and no delay. -/
theorem configuration_last_write_wins_witness :
    (executeWith
        ((ConfigCall.RetryXTimes 2).apply
          (NewPolicy.WaitRetryXTimesWithFailureCallback 5 7 (some countingCallback)
            (Mem.empty : Mem (Nat × Nat) Unit)).1
          (NewPolicy.WaitRetryXTimesWithFailureCallback 5 7 (some countingCallback)
            (Mem.empty : Mem (Nat × Nat) Unit)).2)
        alwaysFailsBeside 3 (0, 0)).trace =
      [.called 0 (some ()), .decided 1 (some ()) true, .called 0 (some ()),
        .decided 2 (some ()) true, .called 0 (some ()), .decided 3 (some ()) false] := by
  rw [(configuration_last_write_wins (ρ := Int) (ConfigCall.RetryXTimes 2)
    (NewPolicy.WaitRetryXTimesWithFailureCallback 5 7 (some countingCallback)
      (Mem.empty : Mem (Nat × Nat) Unit)).1
    (NewPolicy.WaitRetryXTimesWithFailureCallback 5 7 (some countingCallback)
      (Mem.empty : Mem (Nat × Nat) Unit)).2 Mem.empty).2.2.1 alwaysFailsBeside 3 (0, 0)]
  decide

/-- C10. Every configuration call leaves its receiver as it was. For every
base policy `b` whose pointers are valid in the memory `m`, and the calls
`p1 = c1(b)` followed by `p2 = c2(b)`: the retry strategy of `b` is the same
before, between and after the calls; the strategy of `p1` is the same after
`c2` as before it; the strategy of `p2` is the one `c2(b)` has when `c1` is
never called; and an executor built from `b`, or from `p1`, runs after the
calls exactly as before them. -/
theorem configuration_leaves_receiver_unchanged (c1 c2 : ConfigCall σ ε) (b : Policy)
    (m : Mem σ ε) (hb : m.wellFormed b) :
    (c1.apply b m).2.strategy b = m.strategy b ∧
      (c2.apply b (c1.apply b m).2).2.strategy b = m.strategy b ∧
      (c2.apply b (c1.apply b m).2).2.strategy (c1.apply b m).1 =
        (c1.apply b m).2.strategy (c1.apply b m).1 ∧
      (c2.apply b (c1.apply b m).2).2.strategy (c2.apply b (c1.apply b m).2).1 =
        (c2.apply b m).2.strategy (c2.apply b m).1 ∧
      (∀ (f : Operation σ ρ ε) (fuel : Nat) (w : σ),
        (BuildExecutor b).Execute (c2.apply b (c1.apply b m).2).2 f fuel w =
          (BuildExecutor b).Execute m f fuel w) ∧
      (∀ (f : Operation σ ρ ε) (fuel : Nat) (w : σ),
        (BuildExecutor (c1.apply b m).1).Execute (c2.apply b (c1.apply b m).2).2 f fuel w =
          (BuildExecutor (c1.apply b m).1).Execute (c1.apply b m).2 f fuel w) := by
  have h1 : (c1.apply b m).2.strategy b = m.strategy b :=
    Mem.strategy_of_extends _ _ b (c1.apply_extends b m) hb
  have h2 : (c2.apply b (c1.apply b m).2).2.strategy b = m.strategy b :=
    Mem.strategy_of_extends _ _ b
      (Mem.extends_trans (c1.apply_extends b m) (c2.apply_extends b _)) hb
  have h3 : (c2.apply b (c1.apply b m).2).2.strategy (c1.apply b m).1 =
      (c1.apply b m).2.strategy (c1.apply b m).1 :=
    Mem.strategy_of_extends _ _ _ (c2.apply_extends b _) (c1.apply_wellFormed b m)
  refine ⟨h1, h2, h3, ?_, ?_, ?_⟩
  · rw [c2.strategy_apply, c2.strategy_apply]
  · intro f fuel w
    exact Execute_congr _ _ _ _ h2 f fuel w
  · intro f fuel w
    exact Execute_congr _ _ _ _ h3 f fuel w

/-- C10, witness: the base policy `NewPolicy().RetryXTimes(1)` configured on
two branches, `RetryXTimes(5)` and `RetryOnCallback(neverRetry)`: an executor
built from the base still retries once. -/
theorem configuration_leaves_receiver_unchanged_witness :
    (BuildExecutor (NewPolicy.RetryXTimes 1 (Mem.empty : Mem Nat Unit)).1).Execute
        ((ConfigCall.RetryOnCallback (some neverRetry)).apply
          (NewPolicy.RetryXTimes 1 (Mem.empty : Mem Nat Unit)).1
          ((ConfigCall.RetryXTimes 5).apply
            (NewPolicy.RetryXTimes 1 (Mem.empty : Mem Nat Unit)).1
            (NewPolicy.RetryXTimes 1 (Mem.empty : Mem Nat Unit)).2).2).2
        alwaysFails 2 0 =
      (BuildExecutor (NewPolicy.RetryXTimes 1 (Mem.empty : Mem Nat Unit)).1).Execute
        (NewPolicy.RetryXTimes 1 (Mem.empty : Mem Nat Unit)).2 alwaysFails 2 0 :=
  (configuration_leaves_receiver_unchanged (ρ := Int) (ConfigCall.RetryXTimes 5)
    (ConfigCall.RetryOnCallback (some neverRetry))
    (NewPolicy.RetryXTimes 1 (Mem.empty : Mem Nat Unit)).1
    (NewPolicy.RetryXTimes 1 (Mem.empty : Mem Nat Unit)).2
    ((ConfigCall.RetryXTimes 1).apply_wellFormed NewPolicy Mem.empty)).2.2.2.2.1
    alwaysFails 2 0

/-- C11. The stop condition of the six retry-count methods is the predicate
`attemptNumber <= N` of the specification: for every `N`, every wait and
callback arguments, every receiver and memory, every operation, fuel and world,
`Execute` under each `...RetryXTimes...` method runs exactly as under its
`...RetryOnCallback...` counterpart given the predicate `specStopAfter N` and
the same wait and callback: same events, same outcome, same world. -/
theorem RetryXTimes_is_RetryOnCallback_of_count (N : Int) (d : Int)
    (g : Option (WaitFn σ ε)) (cb : Option (FailureFn σ ε)) (b b' : Policy)
    (m m' : Mem σ ε) (f : Operation σ ρ ε) (fuel : Nat) (w : σ) :
    executeWith (b.RetryXTimes N m) f fuel w =
        executeWith (b'.RetryOnCallback (some (specStopAfter N)) m') f fuel w ∧
      executeWith (b.RetryXTimesWithFailureCallback N cb m) f fuel w =
        executeWith (b'.RetryOnCallbackWithFailureCallback (some (specStopAfter N)) cb m')
          f fuel w ∧
      executeWith (b.WaitRetryXTimes N d m) f fuel w =
        executeWith (b'.WaitRetryOnCallback d (some (specStopAfter N)) m') f fuel w ∧
      executeWith (b.WaitRetryXTimesWithFailureCallback N d cb m) f fuel w =
        executeWith (b'.WaitRetryOnCallbackWithFailureCallback d (some (specStopAfter N))
          cb m') f fuel w ∧
      executeWith (b.ComplexWaitRetryXTimes N g m) f fuel w =
        executeWith (b'.ComplexWaitRetryOnCallback g (some (specStopAfter N)) m') f fuel w ∧
      executeWith (b.ComplexWaitRetryXTimesWithFailureCallback N g cb m) f fuel w =
        executeWith (b'.ComplexWaitRetryOnCallbackWithFailureCallback g
          (some (specStopAfter N)) cb m') f fuel w := by
  refine ⟨?_, ?_, ?_, ?_, ?_, ?_⟩ <;> apply Execute_congr
  · exact ((ConfigCall.RetryXTimes N).strategy_apply b m).trans
      ((ConfigCall.RetryOnCallback (some (specStopAfter N))).strategy_apply b' m').symm
  · exact ((ConfigCall.RetryXTimesWithFailureCallback N cb).strategy_apply b m).trans
      ((ConfigCall.RetryOnCallbackWithFailureCallback (some (specStopAfter N))
        cb).strategy_apply b' m').symm
  · exact ((ConfigCall.WaitRetryXTimes N d).strategy_apply b m).trans
      ((ConfigCall.WaitRetryOnCallback d (some (specStopAfter N))).strategy_apply b' m').symm
  · exact ((ConfigCall.WaitRetryXTimesWithFailureCallback N d cb).strategy_apply b m).trans
      ((ConfigCall.WaitRetryOnCallbackWithFailureCallback d (some (specStopAfter N))
        cb).strategy_apply b' m').symm
  · exact ((ConfigCall.ComplexWaitRetryXTimes N g).strategy_apply b m).trans
      ((ConfigCall.ComplexWaitRetryOnCallback g (some (specStopAfter N))).strategy_apply
        b' m').symm
  · exact ((ConfigCall.ComplexWaitRetryXTimesWithFailureCallback N g cb).strategy_apply
      b m).trans
      ((ConfigCall.ComplexWaitRetryOnCallbackWithFailureCallback g (some (specStopAfter N))
        cb).strategy_apply b' m').symm

/-- C18. `Execute` has no retry cap of its own: under `RetryOnCallback` with a
predicate that is always true and an operation that always fails, `Execute`
does not return whatever the fuel, and given fuel for `k` loop tests it has
invoked the operation `k + 1` times: more than `k`, for every `k`. -/
theorem RetryOnCallback_always_true_never_returns (pred : ShouldRetryFn σ ε)
    (hpred : ∀ k err w, (pred k err w).1 = true) (f : Operation σ ρ ε)
    (hfail : ∀ w, (f w).1.2 ≠ none) (b : Policy) (m : Mem σ ε) (w : σ) (k : Nat) :
    (executeWith (b.RetryOnCallback (some pred) m) f k w).outcome = .exhausted ∧
      (calls (executeWith (b.RetryOnCallback (some pred) m) f k w).trace).length = k + 1 ∧
      ¬ ∃ r err, (executeWith (b.RetryOnCallback (some pred) m) f k w).outcome =
        .returned r err := by
  obtain ⟨e, he⟩ := Option.ne_none_iff_exists'.mp (hfail w)
  obtain ⟨rp, hv, hrun⟩ := executeWith_of_strategy (b.RetryOnCallback (some pred) m) _
    ((ConfigCall.RetryOnCallback (some pred)).strategy_apply b m) f k w e he
  obtain ⟨h1, h2, -⟩ := retryLoop_never_stops (b.RetryOnCallback (some pred) m).2 rp pred
    none none hv (fun c err w _ => hpred c err w) f hfail k 1 (f w).1.1 (some e) (f w).2
    (by decide)
  have hout : (executeWith (b.RetryOnCallback (some pred) m) f k w).outcome = .exhausted := by
    rw [hrun]; exact h1
  refine ⟨hout, by rw [hrun]; simp [h2], ?_⟩
  rintro ⟨r, err, h⟩
  rw [hout] at h
  exact Outcome.noConfusion h

/-- C18, witness: the predicate of `Test_RetryOnCallback_DoesNotRetryIfNoErrorIsThrown`,
always true, on the operation that always fails, with fuel for 5 loop tests. -/
theorem RetryOnCallback_always_true_never_returns_witness :
    (executeWith (NewPolicy.RetryOnCallback (some alwaysRetry) (Mem.empty : Mem Nat Unit))
        alwaysFails 5 0).outcome = .exhausted ∧
      (calls (executeWith (NewPolicy.RetryOnCallback (some alwaysRetry)
        (Mem.empty : Mem Nat Unit)) alwaysFails 5 0).trace).length = 5 + 1 :=
  have h := RetryOnCallback_always_true_never_returns alwaysRetry (fun _ _ _ => rfl)
    alwaysFails (fun w => by simp [alwaysFails]) NewPolicy (Mem.empty : Mem Nat Unit) 0 5
  ⟨h.1, h.2.1⟩

/-- C14. For every policy whose three hooks are set (a predicate, a failure
callback, a wait function), every operation, fuel and world: the trace of
`Execute` is the first invocation followed by whole rounds, each of them the
loop test that is true, the failure callback, the wait and the operation, in
this order; every callback event has the loop test of its round, true, just
before it, and the wait of its round and then an invocation of the operation
just after it; a loop test that is false is the last event of the trace. -/
theorem rounds_in_fixed_order (pm : Policy × Mem σ ε) (sr : ShouldRetryFn σ ε)
    (cb : FailureFn σ ε) (gn : WaitFn σ ε)
    (hs : pm.2.strategy pm.1 = .cell (Strategy.ofHooks sr (some cb) (some gn)))
    (f : Operation σ ρ ε) (fuel : Nat) (w : σ) :
    (∃ T, (executeWith pm f fuel w).trace = .called (f w).1.1 (f w).1.2 :: T ∧
        Rounds false true true 1 (f w).1.2 T) ∧
      (∀ pre post k e, (executeWith pm f fuel w).trace = pre ++ .notified k e :: post →
        ∃ pre' d r e' post', pre = pre' ++ [.decided k e true] ∧
          post = .computedWait k e d :: .slept d :: .called r e' :: post') ∧
      (∀ pre post k e, (executeWith pm f fuel w).trace = pre ++ .decided k e false :: post →
        post = []) := by
  obtain ⟨⟨T, hT, hR⟩, -⟩ := executeWith_rounds pm sr (some cb) (some gn) hs f fuel w
  have hR' : Rounds false true true 1 (f w).1.2 T := hR
  refine ⟨⟨T, hT, hR'⟩, ?_, ?_⟩
  · intro pre post k e h
    rw [hT] at h
    rcases pre with _ | ⟨x, pre⟩ <;> simp at h
    obtain ⟨rfl, h⟩ := h
    obtain ⟨pre', d, r, e', post', hp, hq⟩ := hR'.order.1 pre post k e h
    exact ⟨.called (f w).1.1 (f w).1.2 :: pre', d, r, e', post', by simp [hp], hq⟩
  · intro pre post k e h
    rw [hT] at h
    rcases pre with _ | ⟨x, pre⟩ <;> simp at h
    exact hR'.order.2 pre post k e h.2

/-- C14, witness: `ComplexWaitRetryXTimesWithFailureCallback(2, linearWait,
retryDoNothing)` on the operation that always fails: the callback of round 1
stands between the test and the wait of round 1. -/
theorem rounds_in_fixed_order_witness :
    ∃ pre' d r e' post',
      [Event.called (-1 : Int) (some ())] ++ [.decided 1 (some ()) true] =
          pre' ++ [.decided 1 (some ()) true] ∧
        ([.computedWait 1 (some ()) 10, .slept 10, .called (-1) (some ()),
            .decided 2 (some ()) true, .notified 2 (some ()),
            .computedWait 2 (some ()) 20, .slept 20, .called (-1) (some ()),
            .decided 3 (some ()) false] : List (Event Int Unit)) =
          .computedWait 1 (some ()) d :: .slept d :: .called r e' :: post' :=
  (rounds_in_fixed_order
    ((ConfigCall.ComplexWaitRetryXTimesWithFailureCallback 2 (some linearWait)
      (some retryDoNothing)).apply NewPolicy (Mem.empty : Mem Nat Unit))
    (countPredicate 2) retryDoNothing linearWait
    ((ConfigCall.ComplexWaitRetryXTimesWithFailureCallback 2 (some linearWait)
      (some retryDoNothing)).strategy_apply NewPolicy Mem.empty)
    alwaysFails 3 0).2.1 _ _ 1 (some ()) (by decide)

/-- C15. For every policy whose predicate is set and whose hooks are set or not
set, every operation, fuel and world: the operation is invoked once more than
there are loop tests that are true; a failure callback that is set is invoked
as many times as there are loop tests that are true, and so is a wait function
that is set, each of its results being slept once.  This holds of the events
of the trace and of the invocations themselves: when every invocation of the
operation advances a counter `count` of the world by `af`, every evaluation of
the predicate by `asr`, every invocation of the callback by `acb` and every
invocation of the wait function by `ag`, the run advances the counter by `af`
once more than there are loop tests that are true, by `asr` for each loop test,
and by `acb` and by `ag` for each loop test that is true when that hook is
set. -/
theorem invocation_counts (pm : Policy × Mem σ ε) (sr : ShouldRetryFn σ ε)
    (cb : Option (FailureFn σ ε)) (g : Option (WaitFn σ ε))
    (hs : pm.2.strategy pm.1 = .cell (Strategy.ofHooks sr cb g))
    (f : Operation σ ρ ε) (fuel : Nat) (w : σ) :
    (calls (executeWith pm f fuel w).trace).length =
        1 + ((decisions (executeWith pm f fuel w).trace).filter (fun x => x.2.2)).length ∧
      (cb.isSome = true →
        (notifications (executeWith pm f fuel w).trace).length =
          ((decisions (executeWith pm f fuel w).trace).filter (fun x => x.2.2)).length) ∧
      (g.isSome = true →
        (waitComputations (executeWith pm f fuel w).trace).length =
            ((decisions (executeWith pm f fuel w).trace).filter (fun x => x.2.2)).length ∧
          (sleeps (executeWith pm f fuel w).trace).length =
            ((decisions (executeWith pm f fuel w).trace).filter (fun x => x.2.2)).length) ∧
      (∀ (count : σ → Nat) (af asr acb ag : Nat),
        (∀ w', count (f w').2 = count w' + af) →
        (∀ k e w', count (sr k e w').2 = count w' + asr) →
        (∀ fn, cb = some fn → ∀ k e w', count (fn k e w') = count w' + acb) →
        (∀ gn, g = some gn → ∀ k e w', count (gn k e w').2 = count w' + ag) →
        count (executeWith pm f fuel w).world =
          count w +
            af * (1 + ((decisions (executeWith pm f fuel w).trace).filter
              (fun x => x.2.2)).length) +
            asr * (decisions (executeWith pm f fuel w).trace).length +
            acb * (if cb.isSome then ((decisions (executeWith pm f fuel w).trace).filter
              (fun x => x.2.2)).length else 0) +
            ag * (if g.isSome then ((decisions (executeWith pm f fuel w).trace).filter
              (fun x => x.2.2)).length else 0)) := by
  obtain ⟨⟨T, hT, hR⟩, -⟩ := executeWith_rounds pm sr cb g hs f fuel w
  obtain ⟨h1, h2, h3⟩ := hR.counts
  have hlen : (retryDecisions T).length =
      ((decisions T).filter (fun x => x.2.2)).length := by
    rw [retryDecisions_eq_filter, List.length_map]
  have hcalls : (calls (executeWith pm f fuel w).trace).length =
      1 + ((decisions (executeWith pm f fuel w).trace).filter (fun x => x.2.2)).length := by
    rw [hT]
    simp only [calls_called, decisions_called, List.length_cons]
    omega
  have hnot : cb.isSome = true →
      (notifications (executeWith pm f fuel w).trace).length =
        ((decisions (executeWith pm f fuel w).trace).filter (fun x => x.2.2)).length := by
    intro hc
    rw [hT]
    simp only [notifications_called, decisions_called]
    rw [h2 hc, hlen]
  have hwait : g.isSome = true →
      (waitComputations (executeWith pm f fuel w).trace).length =
        ((decisions (executeWith pm f fuel w).trace).filter (fun x => x.2.2)).length := by
    intro hw
    have h4 := congrArg List.length (h3 hw)
    rw [List.length_map] at h4
    rw [hT]
    simp only [waitComputations_called, decisions_called]
    rw [h4, hlen]
  refine ⟨hcalls, hnot, ?_, ?_⟩
  · intro hw
    refine ⟨hwait hw, ?_⟩
    rw [← hwait hw, hT]
    simp only [sleeps_called, waitComputations_called]
    rw [hR.sleeps_eq, List.length_map]
  · intro count af asr acb ag hf hp hcb hg
    rw [executeWith_world_count pm sr cb g hs f count af asr acb ag hf hp hcb hg fuel w,
      hcalls]
    have hn : (notifications (executeWith pm f fuel w).trace).length =
        (if cb.isSome then ((decisions (executeWith pm f fuel w).trace).filter
          (fun x => x.2.2)).length else 0) := by
      cases hc : cb.isSome with
      | true => simpa using hnot hc
      | false =>
        rw [hc] at hR
        rw [hT]
        simp [hR.notifications_of_not_set]
    have hwc : (waitComputations (executeWith pm f fuel w).trace).length =
        (if g.isSome then ((decisions (executeWith pm f fuel w).trace).filter
          (fun x => x.2.2)).length else 0) := by
      cases hw : g.isSome with
      | true => simpa using hwait hw
      | false =>
        rw [hw] at hR
        rw [hT]
        simp [hR.waits_of_not_set.1]
    rw [hn, hwc]

/-- C15, witness:
`Test_RetryOnCallbackWithFailureCallback_CallsFailureCallbackExpectedTimes`,
the predicate `retryCount <= 3` and a callback that counts, on the operation
that always fails: 3 loop tests that are true, 3 callback events and the
callback counter at 3, 4 invocations and the call counter at 4.  And the
policy `ComplexWaitRetryXTimesWithFailureCallback(3, countedWait,
countedCallback)`, with a predicate, a failure callback and a delay, on an
operation that always fails: the wait counter advances once per loop test that
is true, and the run leaves 4 calls, 3 callbacks and 3 waits, the three
results 10, 20, 30 each slept once. -/
theorem invocation_counts_witness :
    (executeWith (NewPolicy.RetryOnCallbackWithFailureCallback (some retryUpTo3)
        (some countingCallback) (Mem.empty : Mem (Nat × Nat) Unit)) alwaysFailsBeside 4
        (0, 0)).world.1 =
        0 + 0 * (1 + ((decisions (executeWith (NewPolicy.RetryOnCallbackWithFailureCallback
            (some retryUpTo3) (some countingCallback) (Mem.empty : Mem (Nat × Nat) Unit))
            alwaysFailsBeside 4 (0, 0)).trace).filter (fun x => x.2.2)).length) +
          0 * (decisions (executeWith (NewPolicy.RetryOnCallbackWithFailureCallback
            (some retryUpTo3) (some countingCallback) (Mem.empty : Mem (Nat × Nat) Unit))
            alwaysFailsBeside 4 (0, 0)).trace).length +
          1 * (if (some countingCallback).isSome then
            ((decisions (executeWith (NewPolicy.RetryOnCallbackWithFailureCallback
              (some retryUpTo3) (some countingCallback) (Mem.empty : Mem (Nat × Nat) Unit))
              alwaysFailsBeside 4 (0, 0)).trace).filter (fun x => x.2.2)).length else 0) +
          0 * (if (none : Option (WaitFn (Nat × Nat) Unit)).isSome then
            ((decisions (executeWith (NewPolicy.RetryOnCallbackWithFailureCallback
              (some retryUpTo3) (some countingCallback) (Mem.empty : Mem (Nat × Nat) Unit))
              alwaysFailsBeside 4 (0, 0)).trace).filter (fun x => x.2.2)).length else 0) ∧
      (executeWith (NewPolicy.RetryOnCallbackWithFailureCallback (some retryUpTo3)
        (some countingCallback) (Mem.empty : Mem (Nat × Nat) Unit)) alwaysFailsBeside 4
        (0, 0)).world = (3, 4) ∧
      (notifications (executeWith (NewPolicy.RetryOnCallbackWithFailureCallback
        (some retryUpTo3) (some countingCallback) (Mem.empty : Mem (Nat × Nat) Unit))
        alwaysFailsBeside 4 (0, 0)).trace).length = 3 ∧
      (calls (executeWith (NewPolicy.RetryOnCallbackWithFailureCallback (some retryUpTo3)
        (some countingCallback) (Mem.empty : Mem (Nat × Nat) Unit)) alwaysFailsBeside 4
        (0, 0)).trace).length = 4 ∧
      (executeWith (NewPolicy.ComplexWaitRetryXTimesWithFailureCallback 3 (some countedWait)
        (some countedCallback) (Mem.empty : Mem (Nat × Nat × Nat) Unit)) countedFailure 4
        (0, 0, 0)).world.2.2 =
        0 + 0 * (1 + ((decisions (executeWith
            (NewPolicy.ComplexWaitRetryXTimesWithFailureCallback 3 (some countedWait)
              (some countedCallback) (Mem.empty : Mem (Nat × Nat × Nat) Unit))
            countedFailure 4 (0, 0, 0)).trace).filter (fun x => x.2.2)).length) +
          0 * (decisions (executeWith
            (NewPolicy.ComplexWaitRetryXTimesWithFailureCallback 3 (some countedWait)
              (some countedCallback) (Mem.empty : Mem (Nat × Nat × Nat) Unit))
            countedFailure 4 (0, 0, 0)).trace).length +
          0 * (if (some countedCallback).isSome then
            ((decisions (executeWith
              (NewPolicy.ComplexWaitRetryXTimesWithFailureCallback 3 (some countedWait)
                (some countedCallback) (Mem.empty : Mem (Nat × Nat × Nat) Unit))
              countedFailure 4 (0, 0, 0)).trace).filter (fun x => x.2.2)).length else 0) +
          1 * (if (some countedWait).isSome then
            ((decisions (executeWith
              (NewPolicy.ComplexWaitRetryXTimesWithFailureCallback 3 (some countedWait)
                (some countedCallback) (Mem.empty : Mem (Nat × Nat × Nat) Unit))
              countedFailure 4 (0, 0, 0)).trace).filter (fun x => x.2.2)).length else 0) ∧
      (executeWith (NewPolicy.ComplexWaitRetryXTimesWithFailureCallback 3 (some countedWait)
        (some countedCallback) (Mem.empty : Mem (Nat × Nat × Nat) Unit)) countedFailure 4
        (0, 0, 0)).world = (4, 3, 3) ∧
      (executeWith (NewPolicy.ComplexWaitRetryXTimesWithFailureCallback 3 (some countedWait)
        (some countedCallback) (Mem.empty : Mem (Nat × Nat × Nat) Unit)) countedFailure 4
        (0, 0, 0)).outcome = .returned 0 (some ()) ∧
      waitComputations (executeWith (NewPolicy.ComplexWaitRetryXTimesWithFailureCallback 3
        (some countedWait) (some countedCallback) (Mem.empty : Mem (Nat × Nat × Nat) Unit))
        countedFailure 4 (0, 0, 0)).trace = [(1, some (), 10), (2, some (), 20),
          (3, some (), 30)] ∧
      sleeps (executeWith (NewPolicy.ComplexWaitRetryXTimesWithFailureCallback 3
        (some countedWait) (some countedCallback) (Mem.empty : Mem (Nat × Nat × Nat) Unit))
        countedFailure 4 (0, 0, 0)).trace = [10, 20, 30] :=
  ⟨(invocation_counts
      (NewPolicy.RetryOnCallbackWithFailureCallback (some retryUpTo3) (some countingCallback)
        (Mem.empty : Mem (Nat × Nat) Unit))
      retryUpTo3 (some countingCallback) none
      ((ConfigCall.RetryOnCallbackWithFailureCallback (some retryUpTo3)
        (some countingCallback)).strategy_apply NewPolicy Mem.empty)
      alwaysFailsBeside 4 (0, 0)).2.2.2 (fun w => w.1) 0 0 1 0 (fun _ => rfl)
      (fun _ _ _ => rfl) (fun fn h k e w' => by cases h; rfl) (fun gn h => by cases h),
    by decide, by decide, by decide,
    (invocation_counts
      (NewPolicy.ComplexWaitRetryXTimesWithFailureCallback 3 (some countedWait)
        (some countedCallback) (Mem.empty : Mem (Nat × Nat × Nat) Unit))
      (countPredicate 3) (some countedCallback) (some countedWait)
      ((ConfigCall.ComplexWaitRetryXTimesWithFailureCallback 3 (some countedWait)
        (some countedCallback)).strategy_apply NewPolicy Mem.empty)
      countedFailure 4 (0, 0, 0)).2.2.2 (fun w => w.2.2) 0 0 0 1 (fun _ => rfl)
      (fun _ _ _ => rfl) (fun fn h k e w' => by cases h; rfl)
      (fun gn h k e w' => by cases h; rfl),
    by decide, by decide, by decide, by decide⟩

/-- C16 (as amended). For every policy returned by one of the twelve
configuration methods called with function arguments none of which is `nil`:
its predicate `shouldRetry` is set, each of its hooks is set to a function or
not set, and no run of `Execute` under it panics: `Execute` never calls a
`nil` function. -/
theorem hooks_present_when_arguments_are (c : ConfigCall σ ε) (hargs : c.argsPresent)
    (b : Policy) (m : Mem σ ε) :
    (∃ sr cb g, (c.apply b m).2.strategy (c.apply b m).1 =
        .cell (Strategy.ofHooks sr cb g)) ∧
      ∀ (f : Operation σ ρ ε) (fuel : Nat) (w : σ),
        (executeWith (c.apply b m) f fuel w).outcome ≠ .panicked ∧
          (executeWith (c.apply b m) f fuel w).outcome ≠ .dangling := by
  obtain ⟨sr, cb, g, hs, -, -⟩ := c.strategy_ofHooks hargs
  have hs' : (c.apply b m).2.strategy (c.apply b m).1 = .cell (Strategy.ofHooks sr cb g) := by
    rw [c.strategy_apply b m, hs]
  refine ⟨⟨sr, cb, g, hs'⟩, ?_⟩
  intro f fuel w
  rcases (executeWith_rounds (c.apply b m) sr cb g hs' f fuel w).2 with h | ⟨r, err, h⟩ <;>
    simp [h]

/-- C16, witness: `RetryOnCallbackWithFailureCallback(retryUpTo3,
countingCallback)`, both arguments functions. -/
theorem hooks_present_when_arguments_are_witness :
    (executeWith ((ConfigCall.RetryOnCallbackWithFailureCallback (some retryUpTo3)
        (some countingCallback)).apply NewPolicy (Mem.empty : Mem (Nat × Nat) Unit))
        alwaysFailsBeside 4 (0, 0)).outcome ≠ .panicked :=
  ((hooks_present_when_arguments_are
    (ConfigCall.RetryOnCallbackWithFailureCallback (some retryUpTo3)
      (some countingCallback)) ⟨rfl, rfl⟩ NewPolicy
    (Mem.empty : Mem (Nat × Nat) Unit)).2 alwaysFailsBeside 4 (0, 0)).1

/-- C16 as stated fails when a function argument is `nil`, which every method
accepts: `RetryOnCallback(nil)` leaves `shouldRetry` `nil`, and `Execute` on a
failing operation panics at the first loop test;
`RetryXTimesWithFailureCallback(1, nil)` and `ComplexWaitRetryXTimes(1, nil)`
store a pointer, not `nil`, to a `nil` function, and `Execute` panics in the
first round when it calls it. -/
theorem nil_function_argument_panics :
    ((executeWith (NewPolicy.RetryOnCallback none (Mem.empty : Mem Nat Unit)) alwaysFails 1
          0).outcome = .panicked ∧
        (executeWith (NewPolicy.RetryOnCallback none (Mem.empty : Mem Nat Unit)) alwaysFails 1
          0).trace = [.called (-1) (some ())]) ∧
      ((executeWith (NewPolicy.RetryXTimesWithFailureCallback 1 none
          (Mem.empty : Mem Nat Unit)) alwaysFails 2 0).outcome = .panicked ∧
        (executeWith (NewPolicy.RetryXTimesWithFailureCallback 1 none
          (Mem.empty : Mem Nat Unit)) alwaysFails 2 0).trace =
          [.called (-1) (some ()), .decided 1 (some ()) true]) ∧
      ((executeWith (NewPolicy.ComplexWaitRetryXTimes 1 none (Mem.empty : Mem Nat Unit))
          alwaysFails 2 0).outcome = .panicked ∧
        (executeWith (NewPolicy.ComplexWaitRetryXTimes 1 none (Mem.empty : Mem Nat Unit))
          alwaysFails 2 0).trace =
          [.called (-1) (some ()), .decided 1 (some ()) true]) := by
  decide

/-- C12 (as amended). For every duration `d`, every retry count `N` with
`0 <= N < 2^63 - 1` and every operation that always fails, `Execute` under
`WaitRetryXTimes(N, d)` returns once it has fuel for `N + 1` loop tests, and
its trace is: the first invocation; then `N` rounds, each the loop test that is
true, the computation of the wait, the sleep of exactly `d` and the next
invocation; then the loop test that is false.  So it sleeps `N` times, `d`
each time, `N * d` in all, once before each of the `N` re-invocations, not
before the first invocation and not after the last.  And under every policy
with a wait function `gn`, the `k`-th sleep is of the duration `gn` returns for
the attempt number `k` (as a 64-bit `int`: `k` itself up to `2^63 - 1`) and the
error of the `k`-th invocation (`i` below counts from 0, `k = i + 1`). -/
theorem WaitRetryXTimes_pauses (N : Nat) (hN64 : (N : Int) < maxInt64) (d : Int)
    (b : Policy) (m : Mem σ ε) (f : Operation σ ρ ε) (hfail : ∀ w, (f w).1.2 ≠ none)
    (w : σ) (fuel : Nat) (hfuel : N + 1 ≤ fuel) :
    (executeWith (b.WaitRetryXTimes N d m) f fuel w).trace =
        .called (f w).1.1 (f w).1.2 ::
          ((List.range N).flatMap (fun i =>
            [.decided (1 + (i : Nat)) (f (worldAfterCalls f i w)).1.2 true,
              .computedWait (1 + (i : Nat)) (f (worldAfterCalls f i w)).1.2 d,
              .slept d,
              .called (f (worldAfterCalls f (i + 1) w)).1.1
                (f (worldAfterCalls f (i + 1) w)).1.2]) ++
            [.decided (1 + (N : Nat)) (f (worldAfterCalls f N w)).1.2 false]) ∧
      sleeps (executeWith (b.WaitRetryXTimes N d m) f fuel w).trace = List.replicate N d ∧
      (sleeps (executeWith (b.WaitRetryXTimes N d m) f fuel w).trace).sum = N * d ∧
      ∀ (pm : Policy × Mem σ ε) (sr : ShouldRetryFn σ ε) (cb : Option (FailureFn σ ε))
        (gn : WaitFn σ ε),
        pm.2.strategy pm.1 = .cell (Strategy.ofHooks sr cb (some gn)) →
        ∀ (f' : Operation σ ρ ε) (fuel' : Nat) (w' : σ) (i : Nat) (dd : Int),
          (sleeps (executeWith pm f' fuel' w').trace)[i]? = some dd →
          ∃ r e w'', (calls (executeWith pm f' fuel' w').trace)[i]? = some (r, e) ∧
            e ≠ none ∧ dd = (gn (wrapInt64 (i + 1)) e w'').1 ∧
            ((i : Int) + 1 ≤ maxInt64 → dd = (gn (i + 1) e w'').1) := by
  obtain ⟨e, he⟩ := Option.ne_none_iff_exists'.mp (hfail w)
  obtain ⟨rp, hv, hrun⟩ := executeWith_of_strategy (b.WaitRetryXTimes N d m) _
    ((ConfigCall.WaitRetryXTimes (N : Int) d).strategy_apply b m) f fuel w e he
  obtain ⟨h1, h2, -⟩ := retryLoop_wait_count_failing (b.WaitRetryXTimes N d m).2 rp N d hv f
    hfail hN64 N 1 w fuel (by decide) (by omega) hfuel
  rw [← he] at hrun
  have hsleeps : sleeps (executeWith (b.WaitRetryXTimes N d m) f fuel w).trace =
      List.replicate N d := by
    rw [hrun]; simpa using h2
  refine ⟨?_, hsleeps, ?_, ?_⟩
  · rw [hrun, Run.after_trace, h1]
    rfl
  · rw [hsleeps]
    simp
  · intro pm sr cb gn hs f' fuel' w' i dd hi
    obtain ⟨r, e', w'', h3, h4, h5⟩ := executeWith_sleeps pm sr cb gn hs f' fuel' w' i dd hi
    refine ⟨r, e', w'', h3, h4, h5, ?_⟩
    intro hle
    rw [h5, wrapInt64_eq_self (by unfold minInt64; omega) hle]

/-- C12, witness: `WaitRetryXTimes(2, 7)` on the operation that always fails:
two sleeps of 7. -/
theorem WaitRetryXTimes_pauses_witness :
    sleeps (executeWith (NewPolicy.WaitRetryXTimes ((2 : Nat) : Int) 7
        (Mem.empty : Mem Nat Unit)) alwaysFails 3 0).trace = List.replicate 2 7 ∧
      (sleeps (executeWith (NewPolicy.WaitRetryXTimes ((2 : Nat) : Int) 7
        (Mem.empty : Mem Nat Unit)) alwaysFails 3 0).trace).sum = (2 : Nat) * 7 :=
  have h := WaitRetryXTimes_pauses 2 (by decide) 7 NewPolicy (Mem.empty : Mem Nat Unit)
    alwaysFails (fun w => by simp [alwaysFails]) 0 3 (by decide)
  ⟨h.2.1, h.2.2.1⟩

/-- C12 as stated fails at `N = 2^63 - 1`: under `WaitRetryXTimes(N, 7)` on an
operation that always fails `Execute` returns for no fuel, and given fuel for
`k` loop tests it has slept `k` times: there is no last invocation, and more
than `N` sleeps given enough. -/
theorem WaitRetryXTimes_maxInt64_never_returns :
    (¬ ∃ (fuel : Nat) (r : Int) (err : GoError Unit),
        (executeWith (NewPolicy.WaitRetryXTimes maxInt64 7 (Mem.empty : Mem Nat Unit))
          alwaysFails fuel 0).outcome = .returned r err) ∧
      (¬ ∃ fuel : Nat,
        (sleeps (executeWith (NewPolicy.WaitRetryXTimes maxInt64 7
          (Mem.empty : Mem Nat Unit)) alwaysFails fuel 0).trace).length ≠ fuel) := by
  have key := executeWith_never_stops
    (NewPolicy.WaitRetryXTimes maxInt64 7 (Mem.empty : Mem Nat Unit))
    (countPredicate maxInt64) none (some (fixedWait 7))
    ((ConfigCall.WaitRetryXTimes maxInt64 7).strategy_apply NewPolicy Mem.empty)
    (fun c err w hc => countPredicate_maxInt64 c err w hc) alwaysFails
    (fun w => by simp [alwaysFails])
  constructor
  · rintro ⟨fuel, r, err, h⟩
    rw [(key fuel 0).1] at h
    exact Outcome.noConfusion h
  · rintro ⟨fuel, h⟩
    exact h (by simpa using (key fuel 0).2.2.2.2)

/-- C19 (as amended). `Execute` keeps no state between calls. For every
executor, memory, operation, fuel and world, so also in a world that earlier
calls have left, the first loop test of a call is on the attempt number 1.
And for `RetryXTimes(N)` with `0 <= N < 2^63 - 1` and an operation that always
fails, two successive calls of `Execute` on the same executor, the second in
the world the first has left, invoke the operation `N + 1` times each,
`2 (N + 1)` times in all, the second call exactly as a first call in that
world would. -/
theorem Execute_is_stateless (N : Nat) (hN64 : (N : Int) < maxInt64) (b : Policy)
    (m : Mem σ ε) (f : Operation σ ρ ε) (hfail : ∀ w, (f w).1.2 ≠ none) (w : σ)
    (fuel1 fuel2 : Nat) (hfuel1 : N + 1 ≤ fuel1) (hfuel2 : N + 1 ≤ fuel2) :
    (∀ (e : executor) (m' : Mem σ ε) (f' : Operation σ ρ ε) (fuel : Nat) (w' : σ)
        (x : Int × GoError ε × Bool),
        (decisions (e.Execute m' f' fuel w').trace).head? = some x → x.1 = 1) ∧
      (calls ((BuildExecutor (b.RetryXTimes N m).1).Execute (b.RetryXTimes N m).2 f fuel1
        w).trace).length = N + 1 ∧
      (calls ((BuildExecutor (b.RetryXTimes N m).1).Execute (b.RetryXTimes N m).2 f fuel2
        ((BuildExecutor (b.RetryXTimes N m).1).Execute (b.RetryXTimes N m).2 f fuel1
          w).world).trace).length = N + 1 ∧
      (calls ((BuildExecutor (b.RetryXTimes N m).1).Execute (b.RetryXTimes N m).2 f fuel1
          w).trace).length +
        (calls ((BuildExecutor (b.RetryXTimes N m).1).Execute (b.RetryXTimes N m).2 f fuel2
          ((BuildExecutor (b.RetryXTimes N m).1).Execute (b.RetryXTimes N m).2 f fuel1
            w).world).trace).length = 2 * (N + 1) ∧
      calls ((BuildExecutor (b.RetryXTimes N m).1).Execute (b.RetryXTimes N m).2 f fuel2
        ((BuildExecutor (b.RetryXTimes N m).1).Execute (b.RetryXTimes N m).2 f fuel1
          w).world).trace =
        (List.range (N + 1)).map
          (fun k => (f (worldAfterCalls f k (worldAfterCalls f (N + 1) w))).1) := by
  obtain ⟨h1, h2⟩ := executeWith_RetryXTimes_failing N hN64 b m f hfail w fuel1 hfuel1
  obtain ⟨h3, -⟩ := executeWith_RetryXTimes_failing N hN64 b m f hfail
    (worldAfterCalls f (N + 1) w) fuel2 hfuel2
  unfold executeWith at h1 h2 h3
  have hfirst := fun (e : executor) (m' : Mem σ ε) (f' : Operation σ ρ ε) (fuel : Nat)
      (w' : σ) (x : Int × GoError ε × Bool)
      (hx : (decisions (e.Execute m' f' fuel w').trace).head? = some x) =>
    (Execute_first_decision e m' f' fuel w' x hx).1
  rw [h2]
  refine ⟨hfirst, ?_, ?_, ?_, h3⟩
  · rw [h1]; simp
  · rw [h3]; simp
  · rw [h1, h3]; simp; omega

/-- C19, witness: `RetryXTimes(2)` on the operation that always fails, called
twice: three invocations each, the call counter at 6 in the end. -/
theorem Execute_is_stateless_witness :
    (calls ((BuildExecutor (NewPolicy.RetryXTimes ((2 : Nat) : Int)
        (Mem.empty : Mem Nat Unit)).1).Execute
        (NewPolicy.RetryXTimes ((2 : Nat) : Int) (Mem.empty : Mem Nat Unit)).2 alwaysFails 3
        0).trace).length +
      (calls ((BuildExecutor (NewPolicy.RetryXTimes ((2 : Nat) : Int)
        (Mem.empty : Mem Nat Unit)).1).Execute
        (NewPolicy.RetryXTimes ((2 : Nat) : Int) (Mem.empty : Mem Nat Unit)).2 alwaysFails 3
        ((BuildExecutor (NewPolicy.RetryXTimes ((2 : Nat) : Int)
          (Mem.empty : Mem Nat Unit)).1).Execute
          (NewPolicy.RetryXTimes ((2 : Nat) : Int) (Mem.empty : Mem Nat Unit)).2 alwaysFails
          3 0).world).trace).length = 2 * (2 + 1) :=
  (Execute_is_stateless 2 (by decide) NewPolicy (Mem.empty : Mem Nat Unit) alwaysFails
    (fun w => by simp [alwaysFails]) 0 3 3 (by decide) (by decide)).2.2.2.1

/-- C19 as stated fails at `N = 2^63 - 1`: the first of the two calls of
`Execute` under `RetryXTimes(N)` on an operation that always fails returns for
no fuel, so no second call follows it, and with fuel for `2^63` loop tests it
has alone invoked the operation `2^63 + 1` times, more than `N + 1`. -/
theorem RetryXTimes_maxInt64_first_call_never_returns :
    (¬ ∃ (fuel : Nat) (r : Int) (err : GoError Unit),
        ((BuildExecutor (NewPolicy.RetryXTimes maxInt64
          (Mem.empty : Mem (Nat × Nat) Unit)).1).Execute
          (NewPolicy.RetryXTimes maxInt64 (Mem.empty : Mem (Nat × Nat) Unit)).2
          alwaysFailsBeside fuel (0, 0)).outcome = .returned r err) ∧
      (calls ((BuildExecutor (NewPolicy.RetryXTimes maxInt64
        (Mem.empty : Mem (Nat × Nat) Unit)).1).Execute
        (NewPolicy.RetryXTimes maxInt64 (Mem.empty : Mem (Nat × Nat) Unit)).2
        alwaysFailsBeside (2 ^ 63) (0, 0)).trace).length = 2 ^ 63 + 1 := by
  have key := executeWith_never_stops
    (NewPolicy.RetryXTimes maxInt64 (Mem.empty : Mem (Nat × Nat) Unit))
    (countPredicate maxInt64) none none
    ((ConfigCall.RetryXTimes maxInt64).strategy_apply NewPolicy Mem.empty)
    (fun c err w hc => countPredicate_maxInt64 c err w hc) alwaysFailsBeside
    (fun w => by simp [alwaysFailsBeside])
  unfold executeWith at key
  constructor
  · rintro ⟨fuel, r, err, h⟩
    rw [(key fuel (0, 0)).1] at h
    exact Outcome.noConfusion h
  · exact (key (2 ^ 63) (0, 0)).2.1

end Claims

end Rez
